import Mathlib

/-!
Verification of the crossword generator backend.

This file embeds, in Lean, the core data model and algorithms of the
crossword/polyomino generator (grapheme encoding, suitability filter,
placement engine, manual-placement validator, polyomino partitioner) and
proves properties about them.  Definitions mirror the TypeScript source;
JS numbers used as grid coordinates are modelled as `Int`, array indices
as `Nat`, and the float values drawn from the seeded PRNG as `ℚ`.
-/

set_option maxRecDepth 4000

namespace Crossword

/-! ## Grapheme model (`utils/grapheme.ts`, `types/models.ts`)

The NFC normalisation (`String.prototype.normalize`) and the
grapheme-cluster segmentation (`Intl.Segmenter`) are platform APIs; they
are modelled as an abstract normalisation function `nfc` passed to the
definitions that use it, and by working at the level of the grapheme
lists that `toGraphemes` produces. -/

abbrev GraphemeToken := String

/-- The character `{` (written via an escape; see `encodeGrapheme`). -/
def lbrace : Char := '\x7b'

/-- The character `}`. -/
def rbrace : Char := '\x7d'

/-- `codepointCount`: the source counts code points via `[...grapheme].length`;
`String.data` is the code-point list of a Lean string. -/
def codepointCount (g : GraphemeToken) : Nat := g.data.length

/-- `isMultiCodepoint(g) ≡ codepointCount(g) > 1`. -/
def isMultiCodepoint (g : GraphemeToken) : Bool := codepointCount g > 1

/-- `encodeGrapheme`: wrap multi-codepoint graphemes in braces. -/
def encodeGrapheme (g : GraphemeToken) : String :=
  if isMultiCodepoint g then String.mk (lbrace :: g.data ++ [rbrace]) else g

/-- `encodeAnswer` after tokenisation: the source computes
`toGraphemes(text, locale).map(encodeGrapheme).join('')`; this is that
function applied to the grapheme list. -/
def encodeAnswerG (gs : List GraphemeToken) : String :=
  String.join (gs.map encodeGrapheme)

/-- `compareGraphemes(a, b)`: NFC-normalised equality, with the platform
normaliser abstracted as `nfc`. -/
def compareGraphemes (nfc : String → String) (a b : GraphemeToken) : Bool :=
  nfc a = nfc b

/-- `findCommonGraphemes`: all index pairs `(i, j)` with
`compareGraphemes(A[i], B[j])`, `i` ascending then `j` ascending. -/
def findCommonGraphemes (nfc : String → String)
    (A B : List GraphemeToken) : List (Nat × Nat) :=
  (List.range A.length).flatMap (fun i =>
    (List.range B.length).filterMap (fun j =>
      match A[i]?, B[j]? with
      | some a, some b => if compareGraphemes nfc a b then some (i, j) else none
      | _, _ => none))

/-- Modelled from the spec: the decoder for the encoded-answer grammar
`answer := (grapheme | "{" grapheme "}")+` — no decoder exists in the
source; the spec describes decoding as un-wrapping each `{...}` region
into one grapheme and splitting the remaining runs by grapheme (each bare
grapheme being a single code point).  Works on the code-point list; the
second argument is `some acc` while inside a brace region. -/
def decodeAnswerChars : List Char → Option (List Char) → List (List Char)
  | [], none => []
  | [], some acc => [acc]
  | c :: cs, none =>
    if c = lbrace then decodeAnswerChars cs (some [])
    else [c] :: decodeAnswerChars cs none
  | c :: cs, some acc =>
    if c = rbrace then acc :: decodeAnswerChars cs none
    else decodeAnswerChars cs (some (acc ++ [c]))

/-- Modelled from the spec: decode an encoded answer into its grapheme
sequence.  See `decodeAnswerChars`. -/
def decodeAnswer (s : String) : List GraphemeToken :=
  (decodeAnswerChars s.data none).map String.mk

/-! ### Round-trip lemmas for C4 -/

lemma decodeAnswerChars_inside (inner : List Char) (rest : List Char)
    (acc : List Char) (hrb : rbrace ∉ inner) :
    decodeAnswerChars (inner ++ rbrace :: rest) (some acc) =
      (acc ++ inner) :: decodeAnswerChars rest none := by
  induction inner generalizing acc with
  | nil => simp [decodeAnswerChars]
  | cons a t ih =>
    have ha : ¬ (a = rbrace) := fun h => hrb (by simp [h])
    rw [List.cons_append, decodeAnswerChars, if_neg ha,
      ih (acc ++ [a]) (fun h => hrb (List.mem_cons_of_mem _ h))]
    simp

lemma decodeAnswerChars_encode (g : GraphemeToken) (rest : List Char)
    (hne : g ≠ "") (hlb : lbrace ∉ g.data) (hrb : rbrace ∉ g.data) :
    decodeAnswerChars ((encodeGrapheme g).data ++ rest) none =
      g.data :: decodeAnswerChars rest none := by
  have hdne : g.data ≠ [] := fun h => hne (by
    cases g with
    | mk d => simp_all)
  by_cases hm : isMultiCodepoint g
  · have henc : (encodeGrapheme g).data = lbrace :: g.data ++ [rbrace] := by
      simp [encodeGrapheme, hm]
    have harr : (encodeGrapheme g).data ++ rest = lbrace :: (g.data ++ rbrace :: rest) := by
      simp [henc]
    rw [harr, decodeAnswerChars, if_pos rfl, decodeAnswerChars_inside g.data rest [] hrb]
    simp
  · -- single code point: g.data = [c] with c ≠ lbrace
    obtain ⟨c, hc⟩ : ∃ c, g.data = [c] := by
      cases hd : g.data with
      | nil => exact absurd hd hdne
      | cons a t =>
        cases t with
        | nil => exact ⟨a, rfl⟩
        | cons b t' =>
          exfalso
          have hcp : ¬ (codepointCount g > 1) := by
            simpa [isMultiCodepoint] using hm
          have : codepointCount g = t'.length + 2 := by simp [codepointCount, hd]
          omega
    have henc : (encodeGrapheme g).data = [c] := by
      simp [encodeGrapheme, hm, hc]
    rw [henc]
    have hclb : ¬ (c = lbrace) := by
      intro h; exact hlb (by simp [hc, h])
    simp only [List.singleton_append]
    rw [decodeAnswerChars]
    simp [hclb, hc]

lemma foldl_string_append_data (t : List String) (a : String) :
    (t.foldl (fun r s => r ++ s) a).data = a.data ++ (t.map String.data).flatten := by
  induction t generalizing a with
  | nil => simp
  | cons b t' ih =>
    simp only [List.foldl_cons, List.map_cons, List.flatten_cons]
    rw [ih (a ++ b)]
    simp [String.data_append]

lemma string_join_data (l : List String) :
    (String.join l).data = (l.map String.data).flatten := by
  unfold String.join
  simpa using foldl_string_append_data l ""

/-- C4 (amended): for every grapheme sequence of the answer whose graphemes
are nonempty and contain no brace characters, decoding
`encode_answer` — un-wrapping each `{...}` region into one grapheme and
splitting the remaining runs by grapheme — yields the grapheme sequence
of the text.  (The unamended claim fails when a grapheme is itself a brace
character; see the counterexample.) -/
theorem C4_encode_decode_roundtrip (gs : List GraphemeToken)
    (h : ∀ g ∈ gs, g ≠ "" ∧ lbrace ∉ g.data ∧ rbrace ∉ g.data) :
    decodeAnswer (encodeAnswerG gs) = gs := by
  unfold decodeAnswer encodeAnswerG
  rw [string_join_data]
  induction gs with
  | nil => simp [decodeAnswerChars]
  | cons g t ih =>
    obtain ⟨hne, hlb, hrb⟩ := h g (by simp)
    simp only [List.map_cons, List.flatten_cons, List.append_assoc] at ih ⊢
    rw [decodeAnswerChars_encode g _ hne hlb hrb, List.map_cons,
      ih (fun x hx => h x (by simp [hx]))]

/-- Witness for C4: the round trip holds at a concrete input with a
single-codepoint and a multi-codepoint grapheme. -/
theorem C4_encode_decode_roundtrip_witness :
    (∀ g ∈ ["a", "bc"], g ≠ "" ∧ lbrace ∉ g.data ∧ rbrace ∉ g.data) ∧
      decodeAnswer (encodeAnswerG ["a", "bc"]) = ["a", "bc"] :=
  ⟨by decide, C4_encode_decode_roundtrip ["a", "bc"] (by decide)⟩

/-- C4 (counterexample): the round trip fails as stated universally — a text
whose grapheme sequence is `{`, `a`, `}` (three single-codepoint graphemes)
encodes to the string `{a}`, which decodes to the single grapheme `a`. -/
theorem C4_roundtrip_counterexample :
    decodeAnswer (encodeAnswerG ["\x7b", "a", "\x7d"]) ≠ ["\x7b", "a", "\x7d"] := by
  decide

/-! ## Data model (`types/models.ts`) -/

/-- `ClueItem`: graphemes, normalized answer text, clue text. -/
structure ClueItem where
  graphemes : List GraphemeToken
  answerText : String
  clueText : String
deriving DecidableEq, Repr

/-! ## Suitability filter (`services/suitability-filter.ts`) -/

/-- `SuitabilityFilterResult`. -/
structure SuitabilityFilterResult where
  filteredWords : List ClueItem
  removedWords : List ClueItem
  originalCount : Nat
  filteredCount : Nat
  wasFiltered : Bool
  warning : Option String
deriving DecidableEq, Repr

/-- `FilterConfig`. -/
structure FilterConfig where
  gridWidth : Nat
  gridHeight : Nat
  minIntersectionCount : Nat
  allowShortFillerWords : Bool

/-- `ScoredWord`. -/
structure ScoredWord where
  clue : ClueItem
  intersectionCount : Nat
  graphemeLength : Nat
deriving DecidableEq, Repr

/-- `computeIntersectionCount`: number of other words sharing ≥ 1 grapheme. -/
def computeIntersectionCount (nfc : String → String) (word : ClueItem)
    (allWords : List ClueItem) (wordIndex : Nat) : Nat :=
  (List.range allWords.length).foldl (fun count i =>
    if i = wordIndex then count
    else match allWords[i]? with
      | none => count
      | some other =>
        if (findCommonGraphemes nfc word.graphemes other.graphemes).length > 0
        then count + 1 else count) 0

/-- `scoreWords`. -/
def scoreWords (nfc : String → String) (words : List ClueItem) : List ScoredWord :=
  words.mapIdx (fun index clue =>
    { clue := clue
      intersectionCount := computeIntersectionCount nfc clue words index
      graphemeLength := clue.graphemes.length })

/-- `shouldRemoveWord`.  The length comparison `graphemeLength > gridSize - 2`
is on JS numbers, hence over `Int`. -/
def shouldRemoveWord (scored : ScoredWord) (config : FilterConfig) : Bool :=
  let gridSize := min config.gridWidth config.gridHeight
  if scored.intersectionCount = 0 ∧ scored.graphemeLength > 3 then true
  else if gridSize ≤ 11 ∧ (scored.graphemeLength : Int) > (gridSize : Int) - 2 then true
  else false

/-- `getMaxRecommendedWords`. -/
def getMaxRecommendedWords (gridSize : Nat) : Nat :=
  if gridSize ≤ 7 then 8
  else if gridSize ≤ 10 then 12
  else if gridSize ≤ 15 then 20
  else if gridSize ≤ 20 then 30
  else 40

/-- The comparator `(a, b) => b.intersectionCount - a.intersectionCount` of
the stable `Array.prototype.sort` call, expressed as the ordering of a
stable insertion sort: `a` may stay left of `b` iff the comparator value is
`≤ 0`. -/
def scoreDescLE (a b : ScoredWord) : Prop :=
  b.intersectionCount ≤ a.intersectionCount

instance : DecidableRel scoreDescLE := fun _ _ => Nat.decLe _ _

/-- `rescoredFiltered.sort(...)`: JS `sort` is stable; insertion sort with
`scoreDescLE` is the stable sort for this comparator. -/
def sortByScoreDesc (l : List ScoredWord) : List ScoredWord :=
  l.insertionSort scoreDescLE

/-- `applySuitabilityFilter`. -/
def applySuitabilityFilter (nfc : String → String) (words : List ClueItem)
    (gridWidth gridHeight : Nat) : SuitabilityFilterResult :=
  if words.length = 0 then
    { filteredWords := [], removedWords := [], originalCount := 0,
      filteredCount := 0, wasFiltered := false, warning := none }
  else
    let config : FilterConfig :=
      { gridWidth := gridWidth, gridHeight := gridHeight,
        minIntersectionCount := 1, allowShortFillerWords := true }
    let scoredWords := scoreWords nfc words
    let pair := scoredWords.foldl
      (fun (acc : List ClueItem × List ClueItem) scored =>
        if shouldRemoveWord scored config then (acc.1, acc.2 ++ [scored.clue])
        else (acc.1 ++ [scored.clue], acc.2)) ([], [])
    let gridSize := min gridWidth gridHeight
    let maxRecommended := getMaxRecommendedWords gridSize
    let final :=
      if pair.1.length > maxRecommended then
        let rescoredFiltered := sortByScoreDesc (scoreWords nfc pair.1)
        (rescoredFiltered.take maxRecommended |>.map (·.clue),
         pair.2 ++ (rescoredFiltered.drop maxRecommended |>.map (·.clue)))
      else (pair.1, pair.2)
    let wasFiltered := final.2.length > 0
    { filteredWords := final.1
      removedWords := final.2
      originalCount := words.length
      filteredCount := final.1.length
      wasFiltered := wasFiltered
      warning := if wasFiltered then
          some (toString final.2.length ++
            " word(s) removed due to low crossword suitability")
        else none }

/-! ### Conservation of the filter (C10) -/

lemma foldl_push_partition (p : ScoredWord → Bool) (l : List ScoredWord)
    (acc1 acc2 : List ClueItem) :
    l.foldl (fun acc s => if p s then (acc.1, acc.2 ++ [s.clue])
      else (acc.1 ++ [s.clue], acc.2)) (acc1, acc2) =
    (acc1 ++ (l.filter (fun s => !p s)).map (·.clue),
     acc2 ++ (l.filter p).map (·.clue)) := by
  induction l generalizing acc1 acc2 with
  | nil => simp
  | cons s t ih =>
    by_cases hp : p s <;> simp [hp, ih]

lemma scoreWords_map_clue (nfc : String → String) (words : List ClueItem) :
    (scoreWords nfc words).map (·.clue) = words := by
  rw [scoreWords, List.mapIdx_eq_enum_map, List.map_map]
  have h : ((fun x : ScoredWord => x.clue) ∘
      Function.uncurry fun index clue =>
        ({ clue := clue,
           intersectionCount := computeIntersectionCount nfc clue words index,
           graphemeLength := clue.graphemes.length } : ScoredWord)) =
      Prod.snd := by
    funext p; rfl
  rw [h, List.enum_map_snd]

lemma suitability_split_perm (nfc : String → String) (words : List ClueItem)
    (gridWidth gridHeight : Nat) :
    List.Perm
      ((applySuitabilityFilter nfc words gridWidth gridHeight).filteredWords ++
        (applySuitabilityFilter nfc words gridWidth gridHeight).removedWords)
      words := by
  rw [applySuitabilityFilter]
  by_cases h0 : words.length = 0
  · have : words = [] := List.length_eq_zero.mp h0
    simp [this]
  · rw [if_neg h0]
    simp only [foldl_push_partition]
    set cfg : FilterConfig :=
      { gridWidth := gridWidth, gridHeight := gridHeight,
        minIntersectionCount := 1, allowShortFillerWords := true } with hcfg
    set sw := scoreWords nfc words with hsw
    set f0 : List ClueItem :=
      (sw.filter (fun s => !shouldRemoveWord s cfg)).map (·.clue) with hf0
    set r0 : List ClueItem :=
      (sw.filter (fun s => shouldRemoveWord s cfg)).map (·.clue) with hr0
    have hbase : List.Perm (f0 ++ r0) words := by
      rw [hf0, hr0, ← List.map_append]
      have h1 : List.Perm
          ((sw.filter fun s => !shouldRemoveWord s cfg) ++
            (sw.filter fun s => shouldRemoveWord s cfg))
          sw :=
        List.perm_append_comm.trans (List.filter_append_perm _ sw)
      have := h1.map (fun s : ScoredWord => s.clue)
      rw [scoreWords_map_clue nfc words] at this
      exact this
    by_cases hcap : f0.length > getMaxRecommendedWords (min gridWidth gridHeight)
    · simp only [List.nil_append, hcap, if_pos, gt_iff_lt]
      set sorted := sortByScoreDesc (scoreWords nfc f0) with hsorted
      have hperm : List.Perm sorted (scoreWords nfc f0) := List.perm_insertionSort _ _
      have hsm : (scoreWords nfc f0).map (·.clue) = f0 := scoreWords_map_clue nfc f0
      set cap := getMaxRecommendedWords (min gridWidth gridHeight)
      have s1 : List.Perm
          ((sorted.take cap).map (·.clue) ++ (r0 ++ (sorted.drop cap).map (·.clue)))
          ((sorted.take cap).map (·.clue) ++ ((sorted.drop cap).map (·.clue) ++ r0)) :=
        List.Perm.append_left _ List.perm_append_comm
      have s2 : (sorted.take cap).map (·.clue) ++ ((sorted.drop cap).map (·.clue) ++ r0) =
          (sorted.map (·.clue)) ++ r0 := by
        rw [← List.append_assoc, ← List.map_append, List.take_append_drop]
      have s3 : List.Perm ((sorted.map (·.clue)) ++ r0) (f0 ++ r0) := by
        have := (hperm.map (fun s : ScoredWord => s.clue)).append_right r0
        rw [hsm] at this
        exact this
      exact ((s1.trans (s2 ▸ List.Perm.refl _)).trans s3).trans hbase
    · simp only [List.nil_append]
      rw [if_neg hcap]
      exact hbase

/-- C10: the suitability filter conserves its input: counting multiplicity,
every input `ClueItem` lands in exactly one of `filteredWords` and
`removedWords` — nothing is duplicated or invented — and the two output
lengths sum to the input length. -/
theorem C10_filter_conservation (nfc : String → String) (words : List ClueItem)
    (gridWidth gridHeight : Nat) :
    (applySuitabilityFilter nfc words gridWidth gridHeight).filteredWords.length +
      (applySuitabilityFilter nfc words gridWidth gridHeight).removedWords.length =
        words.length ∧
    ∀ x : ClueItem,
      (applySuitabilityFilter nfc words gridWidth gridHeight).filteredWords.count x +
        (applySuitabilityFilter nfc words gridWidth gridHeight).removedWords.count x =
          words.count x := by
  have hperm := suitability_split_perm nfc words gridWidth gridHeight
  constructor
  · have := hperm.length_eq
    simpa using this
  · intro x
    have := hperm.count_eq x
    simpa using this

/-! ### Claim-side formulation of the filter (C7)

These definitions follow the claim's wording: a word is removed iff it
shares a grapheme with no other word and is longer than 3 graphemes, or
the grid is small and the word does not fit; survivors beyond the cap are
dropped by intersection-count rank with ties broken by insertion order. -/

/-- Claim-side: grapheme lists `A` and `B` share at least one grapheme
under NFC comparison. -/
def sharesGraphemeL (nfc : String → String) (A B : List GraphemeToken) : Bool :=
  A.any fun ga => B.any fun gb => nfc ga = nfc gb

/-- Claim-side: number of words of `l` other than position `k` sharing at
least one grapheme with the word at position `k`. -/
def specScore (nfc : String → String) (l : List ClueItem) (k : Nat) : Nat :=
  ((List.range l.length).filter fun j =>
    (j != k) &&
      (match l[k]?, l[j]? with
       | some a, some b => sharesGraphemeL nfc a.graphemes b.graphemes
       | _, _ => false)).length

/-- Claim-side: stage-1 removal condition for the word at position `i`. -/
def spec1Remove (nfc : String → String) (words : List ClueItem)
    (gridWidth gridHeight : Nat) (i : Nat) : Bool :=
  match words[i]? with
  | none => false
  | some w =>
    (specScore nfc words i == 0 && decide (w.graphemes.length > 3)) ||
    (decide (min gridWidth gridHeight ≤ 11) &&
      decide ((w.graphemes.length : Int) > (min gridWidth gridHeight : Int) - 2))

/-- Claim-side: the words surviving stage 1, in insertion order. -/
def specSurvivors (nfc : String → String) (words : List ClueItem)
    (gridWidth gridHeight : Nat) : List ClueItem :=
  (words.enum.filter fun p =>
    !spec1Remove nfc words gridWidth gridHeight p.1).map Prod.snd

/-- Claim-side: the words removed by stage 1, in insertion order. -/
def specStage1Removed (nfc : String → String) (words : List ClueItem)
    (gridWidth gridHeight : Nat) : List ClueItem :=
  (words.enum.filter fun p =>
    spec1Remove nfc words gridWidth gridHeight p.1).map Prod.snd

/-- Claim-side: the number of survivors ranked strictly ahead of position
`k` — higher intersection count first, ties broken by insertion order. -/
def specRank (nfc : String → String) (surv : List ClueItem) (k : Nat) : Nat :=
  ((List.range surv.length).filter fun j =>
    decide (specScore nfc surv j > specScore nfc surv k) ||
      (specScore nfc surv j == specScore nfc surv k && decide (j < k))).length

/-- Claim-side: survivors kept after the cap. -/
def specKept (nfc : String → String) (surv : List ClueItem) (cap : Nat) :
    List ClueItem :=
  if surv.length ≤ cap then surv
  else (surv.enum.filter fun p =>
    decide (specRank nfc surv p.1 < cap)).map Prod.snd

/-- Claim-side: survivors dropped by the cap. -/
def specCapDropped (nfc : String → String) (surv : List ClueItem) (cap : Nat) :
    List ClueItem :=
  if surv.length ≤ cap then []
  else (surv.enum.filter fun p =>
    !decide (specRank nfc surv p.1 < cap)).map Prod.snd

/-! ### Bridges between the source functions and the claim-side ones -/

lemma mem_findCommonGraphemes (nfc : String → String)
    (A B : List GraphemeToken) (i j : Nat) :
    (i, j) ∈ findCommonGraphemes nfc A B ↔
      ∃ a b, A[i]? = some a ∧ B[j]? = some b ∧ compareGraphemes nfc a b := by
  unfold findCommonGraphemes
  rw [List.mem_flatMap]
  constructor
  · rintro ⟨i', hi', hmem⟩
    rw [List.mem_filterMap] at hmem
    obtain ⟨j', hj', hval⟩ := hmem
    cases hA : A[i']? with
    | none => rw [hA] at hval; simp at hval
    | some a =>
      cases hB : B[j']? with
      | none => rw [hA, hB] at hval; simp at hval
      | some b =>
        rw [hA, hB] at hval
        dsimp only at hval
        by_cases hc : compareGraphemes nfc a b
        · rw [if_pos hc] at hval
          injection hval with h
          simp only [Prod.mk.injEq] at h
          obtain ⟨rfl, rfl⟩ := h
          exact ⟨a, b, hA, hB, hc⟩
        · rw [if_neg hc] at hval
          simp at hval
  · rintro ⟨a, b, hA, hB, hc⟩
    have hi : i < A.length := by
      by_contra h
      rw [List.getElem?_eq_none (Nat.le_of_not_lt h)] at hA
      simp at hA
    have hj : j < B.length := by
      by_contra h
      rw [List.getElem?_eq_none (Nat.le_of_not_lt h)] at hB
      simp at hB
    refine ⟨i, List.mem_range.mpr hi, ?_⟩
    rw [List.mem_filterMap]
    refine ⟨j, List.mem_range.mpr hj, ?_⟩
    rw [hA, hB]
    dsimp only
    rw [if_pos hc]

lemma findCommonGraphemes_pos_iff (nfc : String → String)
    (A B : List GraphemeToken) :
    0 < (findCommonGraphemes nfc A B).length ↔ sharesGraphemeL nfc A B := by
  constructor
  · intro h
    obtain ⟨pr, hmem⟩ := List.exists_mem_of_ne_nil _ (List.length_pos.mp h)
    obtain ⟨i, j⟩ := pr
    obtain ⟨a, b, hA, hB, hc⟩ := (mem_findCommonGraphemes nfc A B i j).mp hmem
    unfold sharesGraphemeL
    rw [List.any_eq_true]
    refine ⟨a, List.mem_iff_getElem?.mpr ⟨i, hA⟩, ?_⟩
    rw [List.any_eq_true]
    refine ⟨b, List.mem_iff_getElem?.mpr ⟨j, hB⟩, ?_⟩
    simpa [compareGraphemes] using hc
  · intro h
    unfold sharesGraphemeL at h
    rw [List.any_eq_true] at h
    obtain ⟨a, ha, h⟩ := h
    rw [List.any_eq_true] at h
    obtain ⟨b, hb, h⟩ := h
    obtain ⟨i, hA⟩ := List.mem_iff_getElem?.mp ha
    obtain ⟨j, hB⟩ := List.mem_iff_getElem?.mp hb
    exact List.length_pos.mpr (List.ne_nil_of_mem
      ((mem_findCommonGraphemes nfc A B i j).mpr
        ⟨a, b, hA, hB, by simpa [compareGraphemes] using h⟩))

lemma foldl_cond_count (r : List Nat) (B : Nat → Bool) (c : Nat) :
    r.foldl (fun c i => if B i then c + 1 else c) c = c + (r.filter B).length := by
  induction r generalizing c with
  | nil => simp
  | cons a t ih =>
    by_cases hB : B a <;> simp [hB, ih, Nat.add_assoc, Nat.add_comm 1]

lemma computeIntersectionCount_eq_specScore (nfc : String → String)
    (l : List ClueItem) (k : Nat) (w : ClueItem) (hw : l[k]? = some w) :
    computeIntersectionCount nfc w l k = specScore nfc l k := by
  unfold computeIntersectionCount specScore
  rw [hw]
  have hbody : (fun (count : Nat) (i : Nat) =>
      if i = k then count
      else match l[i]? with
        | none => count
        | some other =>
          if (findCommonGraphemes nfc w.graphemes other.graphemes).length > 0
          then count + 1 else count) =
      (fun (c : Nat) (i : Nat) =>
        if ((i != k) &&
            (match l[i]? with
             | some b => sharesGraphemeL nfc w.graphemes b.graphemes
             | none => false)) then c + 1 else c) := by
    funext c i
    by_cases hik : i = k
    · simp [hik]
    · cases hl : l[i]? with
      | none => simp [hik, hl]
      | some b =>
        have := findCommonGraphemes_pos_iff nfc w.graphemes b.graphemes
        by_cases hs : sharesGraphemeL nfc w.graphemes b.graphemes
        · have hpos : (findCommonGraphemes nfc w.graphemes b.graphemes).length > 0 :=
            this.mpr hs
          simp [hik, hl, hpos, hs]
        · have hpos : ¬ ((findCommonGraphemes nfc w.graphemes b.graphemes).length > 0) :=
            fun hp => hs (this.mp hp)
          simp [hik, hl, hpos, hs]
  rw [hbody, foldl_cond_count]
  simp only [Nat.zero_add]
  congr 1
  apply List.filter_congr
  intro j _
  cases l[j]? <;> rfl

lemma shouldRemove_eq_spec1 (nfc : String → String) (words : List ClueItem)
    (gridWidth gridHeight : Nat) (i : Nat) (w : ClueItem)
    (hw : words[i]? = some w) :
    shouldRemoveWord
      { clue := w,
        intersectionCount := computeIntersectionCount nfc w words i,
        graphemeLength := w.graphemes.length }
      { gridWidth := gridWidth, gridHeight := gridHeight,
        minIntersectionCount := 1, allowShortFillerWords := true } =
      spec1Remove nfc words gridWidth gridHeight i := by
  unfold shouldRemoveWord spec1Remove
  rw [hw, computeIntersectionCount_eq_specScore nfc words i w hw]
  by_cases h1 : specScore nfc words i = 0 ∧ w.graphemes.length > 3
  · simp [h1.1, h1.2]
  · by_cases h2 : min gridWidth gridHeight ≤ 11 ∧
        (w.graphemes.length : Int) > (min gridWidth gridHeight : Int) - 2
    · simp only [if_neg h1, if_pos h2, h2.1, h2.2]
      simp [h2.1, h2.2]
    · simp only [if_neg h1, if_neg h2]
      rw [Decidable.not_and_iff_or_not] at h1 h2
      rcases h1 with h1 | h1 <;> rcases h2 with h2 | h2 <;>
        simp [h1, h2]

lemma scoreWords_eq_enum_map (nfc : String → String) (words : List ClueItem) :
    scoreWords nfc words = words.enum.map (fun p =>
      ({ clue := p.2,
         intersectionCount := computeIntersectionCount nfc p.2 words p.1,
         graphemeLength := p.2.graphemes.length } : ScoredWord)) := by
  rw [scoreWords, List.mapIdx_eq_enum_map]
  apply List.map_congr_left
  intro p _
  rfl

lemma filtered0_eq_specSurvivors (nfc : String → String) (words : List ClueItem)
    (gridWidth gridHeight : Nat) :
    ((scoreWords nfc words).filter (fun s => !shouldRemoveWord s
      { gridWidth := gridWidth, gridHeight := gridHeight,
        minIntersectionCount := 1, allowShortFillerWords := true })).map (·.clue) =
      specSurvivors nfc words gridWidth gridHeight := by
  rw [scoreWords_eq_enum_map, List.filter_map, List.map_map]
  unfold specSurvivors
  rw [List.filter_congr (fun p hp => ?_)]
  · rfl
  · have hw : words[p.1]? = some p.2 := List.mem_enum_iff_getElem?.mp hp
    simp only [Function.comp_apply]
    rw [shouldRemove_eq_spec1 nfc words gridWidth gridHeight p.1 p.2 hw]

lemma removed0_eq_specStage1Removed (nfc : String → String) (words : List ClueItem)
    (gridWidth gridHeight : Nat) :
    ((scoreWords nfc words).filter (fun s => shouldRemoveWord s
      { gridWidth := gridWidth, gridHeight := gridHeight,
        minIntersectionCount := 1, allowShortFillerWords := true })).map (·.clue) =
      specStage1Removed nfc words gridWidth gridHeight := by
  rw [scoreWords_eq_enum_map, List.filter_map, List.map_map]
  unfold specStage1Removed
  rw [List.filter_congr (fun p hp => ?_)]
  · rfl
  · have hw : words[p.1]? = some p.2 := List.mem_enum_iff_getElem?.mp hp
    simp only [Function.comp_apply]
    rw [shouldRemove_eq_spec1 nfc words gridWidth gridHeight p.1 p.2 hw]

/-! ### Stability and rank of the capped sort

JS `Array.prototype.sort` is stable, so the sort of the rescored survivors
is characterised by the position-indexed strict order: higher intersection
count first, ties by insertion position. -/

/-- The comparator on position-indexed scored words: strictly higher
intersection count first, ties broken by position. -/
def pairScoreLE (p q : Nat × ScoredWord) : Prop :=
  q.2.intersectionCount < p.2.intersectionCount ∨
    (p.2.intersectionCount = q.2.intersectionCount ∧ p.1 ≤ q.1)

instance : DecidableRel pairScoreLE := fun _ _ =>
  inferInstanceAs (Decidable (_ ∨ _))

instance : IsTotal (Nat × ScoredWord) pairScoreLE :=
  ⟨fun p q => by unfold pairScoreLE; omega⟩

instance : IsTrans (Nat × ScoredWord) pairScoreLE :=
  ⟨fun p q r h1 h2 => by unfold pairScoreLE at *; omega⟩

/-- `p` comes strictly before `q` in the stable descending sort. -/
def pairStrictB (p q : Nat × ScoredWord) : Bool :=
  decide (pairScoreLE p q) && (p.1 != q.1)

lemma orderedInsert_map_snd (p : Nat × ScoredWord) (l : List (Nat × ScoredWord))
    (h : ∀ q ∈ l, p.1 < q.1) :
    (l.orderedInsert pairScoreLE p).map Prod.snd =
      (l.map Prod.snd).orderedInsert scoreDescLE p.2 := by
  induction l with
  | nil => rfl
  | cons q t ih =>
    have hfst : p.1 < q.1 := h q (by simp)
    have hpq : pairScoreLE p q ↔ scoreDescLE p.2 q.2 := by
      unfold pairScoreLE scoreDescLE
      omega
    simp only [List.orderedInsert, List.map_cons]
    by_cases hc : scoreDescLE p.2 q.2
    · rw [if_pos (hpq.mpr hc), if_pos hc, List.map_cons, List.map_cons]
    · rw [if_neg (fun hh => hc (hpq.mp hh)), if_neg hc, List.map_cons,
        ih (fun r hr => h r (by simp [hr]))]

lemma insertionSort_map_snd (l : List (Nat × ScoredWord))
    (h : l.Pairwise (fun p q => p.1 < q.1)) :
    (l.insertionSort pairScoreLE).map Prod.snd =
      (l.map Prod.snd).insertionSort scoreDescLE := by
  induction l with
  | nil => rfl
  | cons p t ih =>
    simp only [List.insertionSort, List.map_cons]
    have hmem : ∀ q ∈ t.insertionSort pairScoreLE, p.1 < q.1 := fun q hq =>
      (List.pairwise_cons.mp h).1 q ((List.perm_insertionSort _ _).mem_iff.mp hq)
    rw [orderedInsert_map_snd p _ hmem, ih (List.pairwise_cons.mp h).2]

lemma pairScoreLE_antisymm_fst {p q : Nat × ScoredWord}
    (h1 : pairScoreLE p q) (h2 : pairScoreLE q p) : p.1 = q.1 := by
  unfold pairScoreLE at *; omega

lemma sorted_take_eq_filter_rank :
    ∀ (s : List (Nat × ScoredWord)), List.Sorted pairScoreLE s →
      (s.map Prod.fst).Nodup → ∀ cap : Nat,
      s.take cap = s.filter (fun q =>
        decide ((s.filter (fun p => pairStrictB p q)).length < cap)) := by
  intro s
  induction s with
  | nil => intro _ _ cap; simp
  | cons x s' ih =>
    intro hs hnd cap
    have hsx : ∀ q ∈ s', pairScoreLE x q := (List.sorted_cons.mp hs).1
    have hs' : List.Sorted pairScoreLE s' := (List.sorted_cons.mp hs).2
    have hnd2 : (x.1 :: s'.map Prod.fst).Nodup := by
      rw [List.map_cons] at hnd; exact hnd
    have hndx : x.1 ∉ s'.map Prod.fst := (List.nodup_cons.mp hnd2).1
    have hnd' : (s'.map Prod.fst).Nodup := (List.nodup_cons.mp hnd2).2
    have hstrictx : ∀ q ∈ s', pairStrictB x q = true := by
      intro q hq
      have hne : x.1 ≠ q.1 := fun he => hndx (he ▸ List.mem_map_of_mem Prod.fst hq)
      unfold pairStrictB
      simp [hsx q hq, hne]
    have hrankx : ((x :: s').filter (fun p => pairStrictB p x)).length = 0 := by
      rw [List.length_eq_zero]
      rw [List.filter_eq_nil_iff]
      intro p hp
      rcases List.mem_cons.mp hp with rfl | hp'
      · unfold pairStrictB; simp
      · intro hstrict
        unfold pairStrictB at hstrict
        rw [Bool.and_eq_true] at hstrict
        have hle : pairScoreLE p x := of_decide_eq_true hstrict.1
        have hfst := pairScoreLE_antisymm_fst hle (hsx p hp')
        have : p.1 ∈ s'.map Prod.fst := List.mem_map_of_mem Prod.fst hp'
        rw [hfst] at this
        exact hndx this
    have hrankq : ∀ q ∈ s', ((x :: s').filter (fun p => pairStrictB p q)).length
        = (s'.filter (fun p => pairStrictB p q)).length + 1 := by
      intro q hq
      rw [List.filter_cons, if_pos (hstrictx q hq)]
      simp [Nat.add_comm]
    cases cap with
    | zero =>
      simp only [List.take_zero]
      symm
      rw [List.filter_eq_nil_iff]
      intro q _
      simp
    | succ c =>
      rw [List.take_succ_cons, List.filter_cons]
      have hx : decide (((x :: s').filter (fun p => pairStrictB p x)).length < c + 1) =
          true := by
        rw [hrankx]; simp
      rw [if_pos hx]
      congr 1
      rw [ih hs' hnd' c]
      apply List.filter_congr
      intro q hq
      rw [hrankq q hq]
      simp [Nat.succ_lt_succ_iff]

lemma sorted_drop_eq_filter_rank
    (s : List (Nat × ScoredWord)) (hs : List.Sorted pairScoreLE s)
    (hnd : (s.map Prod.fst).Nodup) (cap : Nat) :
    s.drop cap = s.filter (fun q =>
      !decide ((s.filter (fun p => pairStrictB p q)).length < cap)) := by
  have htake := sorted_take_eq_filter_rank s hs hnd cap
  have hsnd : s.Nodup := hnd.of_map Prod.fst
  set P : Nat × ScoredWord → Bool := fun q =>
    decide ((s.filter (fun p => pairStrictB p q)).length < cap) with hP
  have hsplit : s = s.take cap ++ s.drop cap := (List.take_append_drop cap s).symm
  have hdropP : ∀ q ∈ s.drop cap, P q = false := by
    intro q hq
    by_contra hne
    have hPq : P q = true := by
      cases hPv : P q with
      | false => exact absurd hPv hne
      | true => rfl
    have hqf : q ∈ s.filter P := List.mem_filter.mpr ⟨List.mem_of_mem_drop hq, hPq⟩
    rw [← htake] at hqf
    have hdisj : (s.take cap).Disjoint (s.drop cap) := by
      have := hsnd
      rw [hsplit, List.nodup_append] at this
      exact this.2.2
    exact hdisj hqf hq
  have htakeP : ∀ q ∈ s.take cap, P q = true := by
    intro q hq
    rw [htake] at hq
    exact (List.mem_filter.mp hq).2
  have h1 : (s.take cap).filter (fun q => !P q) = [] := by
    rw [List.filter_eq_nil_iff]
    intro q hq
    rw [htakeP q hq]
    simp
  have h2 : (s.drop cap).filter (fun q => !P q) = s.drop cap := by
    rw [List.filter_eq_self]
    intro q hq
    rw [hdropP q hq]
    rfl
  have hfil : ∀ Q : Nat × ScoredWord → Bool,
      s.filter Q = (s.take cap).filter Q ++ (s.drop cap).filter Q := by
    intro Q
    conv_lhs => rw [hsplit]
    rw [List.filter_append]
  have hgoal : s.filter (fun q => !P q) = s.drop cap := by
    rw [hfil (fun q => !P q), h1, h2, List.nil_append]
  exact hgoal.symm

/-! ### Assembling the capped-sort characterisation -/

/-- Pair each survivor position with its rescored word. -/
def survTransform (nfc : String → String) (surv : List ClueItem) :
    Nat × ClueItem → Nat × ScoredWord := fun p =>
  (p.1,
   { clue := p.2,
     intersectionCount := computeIntersectionCount nfc p.2 surv p.1,
     graphemeLength := p.2.graphemes.length })

lemma survPS_map_snd (nfc : String → String) (surv : List ClueItem) :
    (surv.enum.map (survTransform nfc surv)).map Prod.snd = scoreWords nfc surv := by
  rw [List.map_map, scoreWords_eq_enum_map]
  rfl

lemma survPS_map_fst (nfc : String → String) (surv : List ClueItem) :
    (surv.enum.map (survTransform nfc surv)).map Prod.fst = List.range surv.length := by
  rw [List.map_map]
  have : (Prod.fst ∘ survTransform nfc surv) = Prod.fst := by
    funext p; rfl
  rw [this, List.enum_map_fst]

lemma survPS_pairwise (nfc : String → String) (surv : List ClueItem) :
    (surv.enum.map (survTransform nfc surv)).Pairwise (fun p q => p.1 < q.1) := by
  have h1 : ((surv.enum.map (survTransform nfc surv)).map Prod.fst).Pairwise (· < ·) := by
    rw [survPS_map_fst]
    exact List.pairwise_lt_range _
  rw [List.pairwise_map] at h1
  exact h1

lemma bool_eq_of_iff {a b : Bool} (h : a = true ↔ b = true) : a = b := by
  cases a <;> cases b <;> simp_all

lemma enum_filter_length (l : List ClueItem) (Q : Nat × ClueItem → Bool)
    (P : Nat → Bool) (h : ∀ p ∈ l.enum, Q p = P p.1) :
    (l.enum.filter Q).length = ((List.range l.length).filter P).length := by
  rw [List.filter_congr h]
  have hm : (l.enum.map Prod.fst).filter P =
      (l.enum.filter (P ∘ Prod.fst)).map Prod.fst := List.filter_map _ _
  rw [List.enum_map_fst] at hm
  rw [hm, List.length_map]
  rfl

lemma rank_PS_eq_specRank (nfc : String → String) (surv : List ClueItem)
    (i : Nat) (w : ClueItem) (hw : surv[i]? = some w) :
    ((surv.enum.map (survTransform nfc surv)).filter
      (fun p => pairStrictB p (survTransform nfc surv (i, w)))).length =
      specRank nfc surv i := by
  rw [List.filter_map, List.length_map]
  unfold specRank
  apply enum_filter_length
  intro p hp
  obtain ⟨j, v⟩ := p
  have hv : surv[j]? = some v := List.mem_enum_iff_getElem?.mp hp
  have hsj : (survTransform nfc surv (j, v)).2.intersectionCount =
      specScore nfc surv j :=
    computeIntersectionCount_eq_specScore nfc surv j v hv
  have hsi : (survTransform nfc surv (i, w)).2.intersectionCount =
      specScore nfc surv i :=
    computeIntersectionCount_eq_specScore nfc surv i w hw
  have hps : pairScoreLE (survTransform nfc surv (j, v))
      (survTransform nfc surv (i, w)) ↔
      (specScore nfc surv i < specScore nfc surv j ∨
        (specScore nfc surv j = specScore nfc surv i ∧ j ≤ i)) := by
    unfold pairScoreLE
    rw [hsj, hsi]
    exact Iff.rfl
  apply bool_eq_of_iff
  show (decide (pairScoreLE (survTransform nfc surv (j, v))
      (survTransform nfc surv (i, w))) && (j != i)) = true ↔ _
  rw [Bool.and_eq_true, Bool.or_eq_true, Bool.and_eq_true]
  simp only [decide_eq_true_eq, bne_iff_ne, beq_iff_eq, gt_iff_lt]
  rw [hps]
  by_cases hji : j = i
  · subst hji
    omega
  · omega

lemma sortByScoreDesc_eq_map_snd (nfc : String → String) (surv : List ClueItem) :
    sortByScoreDesc (scoreWords nfc surv) =
      ((surv.enum.map (survTransform nfc surv)).insertionSort pairScoreLE).map
        Prod.snd := by
  rw [insertionSort_map_snd _ (survPS_pairwise nfc surv), survPS_map_snd]
  rfl

lemma sorted_PS_fst_nodup (nfc : String → String) (surv : List ClueItem) :
    (((surv.enum.map (survTransform nfc surv)).insertionSort
      pairScoreLE).map Prod.fst).Nodup := by
  have hperm := List.perm_insertionSort pairScoreLE
    (surv.enum.map (survTransform nfc surv))
  have := (hperm.map Prod.fst).nodup_iff
  rw [this, survPS_map_fst]
  exact List.nodup_range _

lemma capped_filter_perm (nfc : String → String) (surv : List ClueItem)
    (cap : Nat) (neg : Bool) :
    List.Perm
      (((((surv.enum.map (survTransform nfc surv)).insertionSort
          pairScoreLE).filter (fun q =>
            ((!decide (((surv.enum.map (survTransform nfc surv)).filter
              (fun p => pairStrictB p q)).length < cap)) == neg))).map
        Prod.snd).map (·.clue))
      ((surv.enum.filter fun p =>
        ((!decide (specRank nfc surv p.1 < cap)) == neg)).map Prod.snd) := by
  set PS := surv.enum.map (survTransform nfc surv) with hPS
  set S' := PS.insertionSort pairScoreLE with hS'
  set Q : Nat × ScoredWord → Bool := fun q =>
    ((!decide ((PS.filter (fun p => pairStrictB p q)).length < cap)) == neg) with hQ
  have hp1 : List.Perm (S'.filter Q) (PS.filter Q) :=
    (List.perm_insertionSort pairScoreLE PS).filter Q
  have hp2 : ((PS.filter Q).map Prod.snd).map (·.clue) =
      (surv.enum.filter fun p =>
        ((!decide (specRank nfc surv p.1 < cap)) == neg)).map Prod.snd := by
    rw [hPS, List.filter_map, List.map_map, List.map_map]
    have hcong : ∀ p ∈ surv.enum,
        (Q ∘ survTransform nfc surv) p =
          ((!decide (specRank nfc surv p.1 < cap)) == neg) := by
      intro p hp
      have hv : surv[p.1]? = some p.2 := List.mem_enum_iff_getElem?.mp hp
      show Q (survTransform nfc surv p) = _
      rw [hQ]
      simp only
      rw [rank_PS_eq_specRank nfc surv p.1 p.2 hv]
    rw [List.filter_congr hcong]
    apply List.map_congr_left
    intro p _
    rfl
  have := ((hp1.map Prod.snd).map (·.clue))
  rw [hp2] at this
  exact this

lemma capped_take_perm (nfc : String → String) (surv : List ClueItem) (cap : Nat) :
    List.Perm (((sortByScoreDesc (scoreWords nfc surv)).take cap).map (·.clue))
      ((surv.enum.filter fun p => decide (specRank nfc surv p.1 < cap)).map
        Prod.snd) := by
  set PS := surv.enum.map (survTransform nfc surv) with hPS
  set S' := PS.insertionSort pairScoreLE with hS'
  have hsorted : List.Sorted pairScoreLE S' := List.sorted_insertionSort _ _
  have hnd : (S'.map Prod.fst).Nodup := sorted_PS_fst_nodup nfc surv
  have e2 : (sortByScoreDesc (scoreWords nfc surv)).take cap =
      (S'.take cap).map Prod.snd := by
    rw [sortByScoreDesc_eq_map_snd, List.map_take]
  have e4 : S'.take cap = S'.filter (fun q =>
      decide ((S'.filter (fun p => pairStrictB p q)).length < cap)) :=
    sorted_take_eq_filter_rank S' hsorted hnd cap
  have e5 : S'.filter (fun q =>
      decide ((S'.filter (fun p => pairStrictB p q)).length < cap)) =
      S'.filter (fun q =>
        ((!decide ((PS.filter (fun p => pairStrictB p q)).length < cap)) == false)) := by
    apply List.filter_congr
    intro q _
    have hlen : (S'.filter (fun p => pairStrictB p q)).length =
        (PS.filter (fun p => pairStrictB p q)).length :=
      ((List.perm_insertionSort pairScoreLE PS).filter _).length_eq
    rw [hlen]
    cases decide ((PS.filter (fun p => pairStrictB p q)).length < cap) <;> rfl
  have p6 := capped_filter_perm nfc surv cap false
  have e7 : (surv.enum.filter fun p =>
      ((!decide (specRank nfc surv p.1 < cap)) == false)).map Prod.snd =
      (surv.enum.filter fun p => decide (specRank nfc surv p.1 < cap)).map
        Prod.snd := by
    apply congrArg
    apply List.filter_congr
    intro p _
    cases decide (specRank nfc surv p.1 < cap) <;> rfl
  rw [e2, e4, e5]
  rw [e7] at p6
  exact p6

lemma capped_drop_perm (nfc : String → String) (surv : List ClueItem) (cap : Nat) :
    List.Perm (((sortByScoreDesc (scoreWords nfc surv)).drop cap).map (·.clue))
      ((surv.enum.filter fun p => !decide (specRank nfc surv p.1 < cap)).map
        Prod.snd) := by
  set PS := surv.enum.map (survTransform nfc surv) with hPS
  set S' := PS.insertionSort pairScoreLE with hS'
  have hsorted : List.Sorted pairScoreLE S' := List.sorted_insertionSort _ _
  have hnd : (S'.map Prod.fst).Nodup := sorted_PS_fst_nodup nfc surv
  have e2 : (sortByScoreDesc (scoreWords nfc surv)).drop cap =
      (S'.drop cap).map Prod.snd := by
    rw [sortByScoreDesc_eq_map_snd, List.map_drop]
  have e4 : S'.drop cap = S'.filter (fun q =>
      !decide ((S'.filter (fun p => pairStrictB p q)).length < cap)) :=
    sorted_drop_eq_filter_rank S' hsorted hnd cap
  have e5 : S'.filter (fun q =>
      !decide ((S'.filter (fun p => pairStrictB p q)).length < cap)) =
      S'.filter (fun q =>
        ((!decide ((PS.filter (fun p => pairStrictB p q)).length < cap)) == true)) := by
    apply List.filter_congr
    intro q _
    have hlen : (S'.filter (fun p => pairStrictB p q)).length =
        (PS.filter (fun p => pairStrictB p q)).length :=
      ((List.perm_insertionSort pairScoreLE PS).filter _).length_eq
    rw [hlen]
    cases decide ((PS.filter (fun p => pairStrictB p q)).length < cap) <;> rfl
  have p6 := capped_filter_perm nfc surv cap true
  have e7 : (surv.enum.filter fun p =>
      ((!decide (specRank nfc surv p.1 < cap)) == true)).map Prod.snd =
      (surv.enum.filter fun p => !decide (specRank nfc surv p.1 < cap)).map
        Prod.snd := by
    apply congrArg
    apply List.filter_congr
    intro p _
    cases decide (specRank nfc surv p.1 < cap) <;> rfl
  rw [e2, e4, e5]
  rw [e7] at p6
  exact p6

/-- C7: the suitability filter removes a word iff it shares a grapheme with
no other word and has more than 3 graphemes, or the smaller grid dimension
`s` is at most 11 and the word's grapheme count exceeds `s - 2`; and when
the survivors exceed the cap (8 for s≤7, 12 for s≤10, 20 for s≤15, 30 for
s≤20, else 40) only the top-scoring words by intersection count are kept,
ties broken by insertion order.  Stated as: the kept and removed lists are,
as multisets, exactly the claim-side `specKept` survivors and the stage-1
removals plus the cap drops. -/
theorem C7_suitability_filter (nfc : String → String) (words : List ClueItem)
    (gridWidth gridHeight : Nat) :
    List.Perm (applySuitabilityFilter nfc words gridWidth gridHeight).filteredWords
      (specKept nfc (specSurvivors nfc words gridWidth gridHeight)
        (getMaxRecommendedWords (min gridWidth gridHeight))) ∧
    List.Perm (applySuitabilityFilter nfc words gridWidth gridHeight).removedWords
      (specStage1Removed nfc words gridWidth gridHeight ++
        specCapDropped nfc (specSurvivors nfc words gridWidth gridHeight)
          (getMaxRecommendedWords (min gridWidth gridHeight))) := by
  rw [applySuitabilityFilter]
  by_cases h0 : words.length = 0
  · have hwnil : words = [] := List.length_eq_zero.mp h0
    subst hwnil
    have hsurv : specSurvivors nfc [] gridWidth gridHeight = [] := by
      simp [specSurvivors]
    rw [if_pos h0]
    constructor
    · rw [hsurv]
      simp [specKept]
    · rw [hsurv]
      simp [specStage1Removed, specCapDropped, specSurvivors]
  · rw [if_neg h0]
    simp only [foldl_push_partition, List.nil_append]
    have hf0 := filtered0_eq_specSurvivors nfc words gridWidth gridHeight
    have hr0 := removed0_eq_specStage1Removed nfc words gridWidth gridHeight
    set surv := specSurvivors nfc words gridWidth gridHeight with hsurv
    set cap := getMaxRecommendedWords (min gridWidth gridHeight) with hcapdef
    rw [hf0, hr0]
    by_cases hcap : surv.length > cap
    · rw [if_pos hcap]
      have hnot : ¬ surv.length ≤ cap := Nat.not_le_of_lt hcap
      constructor
      · rw [specKept, if_neg hnot]
        exact capped_take_perm nfc surv cap
      · rw [specCapDropped, if_neg hnot]
        exact (List.Perm.refl _).append (capped_drop_perm nfc surv cap)
    · rw [if_neg hcap]
      have hle : surv.length ≤ cap := Nat.le_of_not_lt hcap
      constructor
      · rw [specKept, if_pos hle]
      · rw [specCapDropped, if_pos hle, List.append_nil]

/-! ## Placement engine (`part_000`, `CrosswordEngine`)

Grid coordinates are JS numbers, modelled as `Int`; the grid itself is a
total function with bound-checked access (`getCell`), mirroring the
`W × H` array whose out-of-range reads are `undefined`. -/

/-- `Direction`. -/
inductive Direction where
  | ACROSS
  | DOWN
deriving DecidableEq, Repr

/-- `WordPlacement`. -/
structure WordPlacement where
  wordId : Nat
  clueItem : ClueItem
  startX : Int
  startY : Int
  direction : Direction
  placed : Bool
deriving DecidableEq, Repr

/-- `GridCell` of the engine grid. -/
structure GridCell where
  grapheme : Option GraphemeToken
  wordIds : List Nat
deriving DecidableEq, Repr

/-- `StartPosition` (FIX 2 of the source). -/
structure StartPosition where
  x : Int
  y : Int
  direction : Direction
  firstGrapheme : GraphemeToken
deriving DecidableEq, Repr

/-- A fresh cell, as built by `createEmptyGrid`. -/
def emptyCell : GridCell := { grapheme := none, wordIds := [] }

/-- The engine grid, addressed `(x, y)`. -/
abbrev Grid := Int → Int → GridCell

/-- The engine's mutable state. -/
structure EngState where
  grid : Grid
  placements : List WordPlacement
  startPositions : List StartPosition
  wordIdCounter : Nat

/-- `createEmptyGrid`. -/
def createEmptyGrid : Grid := fun _ _ => emptyCell

/-- The state after the constructor / `reset`. -/
def initialState : EngState :=
  { grid := createEmptyGrid, placements := [], startPositions := [],
    wordIdCounter := 0 }

/-- `getCell`: `undefined` outside `[0,W) × [0,H)`. -/
def getCell (W H : Int) (grid : Grid) (x y : Int) : Option GridCell :=
  if x < 0 ∨ y < 0 ∨ x ≥ W ∨ y ≥ H then none else some (grid x y)

/-- X coordinate of cell `i`: `direction === 'ACROSS' ? startX + i : startX`. -/
def cellX (startX : Int) (direction : Direction) (i : Nat) : Int :=
  if direction = .ACROSS then startX + i else startX

/-- Y coordinate of cell `i`: `direction === 'DOWN' ? startY + i : startY`. -/
def cellY (startY : Int) (direction : Direction) (i : Nat) : Int :=
  if direction = .DOWN then startY + i else startY

/-- `checkBounds`. -/
def checkBounds (W H : Int) (startX startY : Int) (length : Nat)
    (direction : Direction) : Bool :=
  if startX < 0 ∨ startY < 0 then false
  else if direction = .ACROSS then
    decide (startX + length ≤ W ∧ startY < H)
  else decide (startY + length ≤ H ∧ startX < W)

/-- `checkStartCellCollision`. -/
def checkStartCellCollision (nfc : String → String)
    (startPositions : List StartPosition) (startX startY : Int)
    (direction : Direction) (firstGrapheme : GraphemeToken) : Bool :=
  startPositions.all fun pos =>
    if pos.x = startX ∧ pos.y = startY then
      if pos.direction = direction then false
      else compareGraphemes nfc pos.firstGrapheme firstGrapheme
    else true

/-- Result pair of `checkCellOccupancy`. -/
structure OccupancyResult where
  allowed : Bool
  isIntersection : Bool
deriving DecidableEq, Repr

/-- `checkCellOccupancy`; a JS-falsy grapheme (absent cell grapheme or the
empty string) leaves the cell writable. -/
def checkCellOccupancy (nfc : String → String) (W H : Int) (grid : Grid)
    (x y : Int) (grapheme : GraphemeToken) : OccupancyResult :=
  match getCell W H grid x y with
  | none => { allowed := false, isIntersection := false }
  | some cell =>
    match cell.grapheme with
    | none => { allowed := true, isIntersection := false }
    | some g =>
      if g = "" then { allowed := true, isIntersection := false }
      else
        { allowed := compareGraphemes nfc g grapheme,
          isIntersection := compareGraphemes nfc g grapheme }

/-- JS truthiness of `cell?.grapheme`. -/
def cellFilled (c : Option GridCell) : Bool :=
  match c with
  | none => false
  | some cell =>
    match cell.grapheme with
    | none => false
    | some g => g ≠ ""

/-- `checkStrictAdjacency`. -/
def checkStrictAdjacency (W H : Int) (grid : Grid) (x y : Int)
    (direction : Direction) : Bool :=
  if direction = .ACROSS then
    !(cellFilled (getCell W H grid x (y - 1)) ||
      cellFilled (getCell W H grid x (y + 1)))
  else
    !(cellFilled (getCell W H grid (x - 1) y) ||
      cellFilled (getCell W H grid (x + 1) y))

/-- `checkWordEnds`. -/
def checkWordEnds (W H : Int) (grid : Grid) (startX startY : Int)
    (length : Nat) (direction : Direction) : Bool :=
  if direction = .ACROSS then
    !(cellFilled (getCell W H grid (startX - 1) startY) ||
      cellFilled (getCell W H grid (startX + length) startY))
  else
    !(cellFilled (getCell W H grid startX (startY - 1)) ||
      cellFilled (getCell W H grid startX (startY + length)))

/-- `validatePlacement`. -/
def validatePlacement (nfc : String → String) (W H : Int) (s : EngState)
    (clue : ClueItem) (startX startY : Int) (direction : Direction) : Bool :=
  let graphemes := clue.graphemes
  let length := graphemes.length
  checkBounds W H startX startY length direction &&
    (match graphemes[0]? with
     | none => false
     | some firstGrapheme =>
       (firstGrapheme ≠ "") &&
       checkStartCellCollision nfc s.startPositions startX startY direction
         firstGrapheme &&
       ((List.range length).all fun i =>
         match graphemes[i]? with
         | none => false
         | some grapheme =>
           (grapheme ≠ "") &&
           (let occ := checkCellOccupancy nfc W H s.grid
              (cellX startX direction i) (cellY startY direction i) grapheme
            occ.allowed &&
              (occ.isIntersection ||
                checkStrictAdjacency W H s.grid (cellX startX direction i)
                  (cellY startY direction i) direction))) &&
       checkWordEnds W H s.grid startX startY length direction)

/-- One cell write of `commitPlacement`: set the grapheme if the stored one
is JS-falsy, append the word id. -/
def writeCellCommit (grid : Grid) (x y : Int) (g : GraphemeToken)
    (wordId : Nat) : Grid :=
  fun a b =>
    if a = x ∧ b = y then
      { grapheme :=
          match (grid x y).grapheme with
          | none => some g
          | some old => if old = "" then some g else some old
        wordIds := (grid x y).wordIds ++ [wordId] }
    else grid a b

/-- `commitPlacement`: skipped writes for falsy graphemes and out-of-range
cells mirror `if (!grapheme) continue` / `if (!row) continue`. -/
def commitPlacement (W H : Int) (s : EngState) (clue : ClueItem)
    (startX startY : Int) (direction : Direction) : EngState :=
  let wordId := s.wordIdCounter + 1
  let graphemes := clue.graphemes
  let grid' := (List.range graphemes.length).foldl (fun g i =>
    match graphemes[i]? with
    | none => g
    | some grapheme =>
      if grapheme = "" then g
      else
        let x := cellX startX direction i
        let y := cellY startY direction i
        if 0 ≤ x ∧ x < W ∧ 0 ≤ y ∧ y < H then
          writeCellCommit g x y grapheme wordId
        else g) s.grid
  let starts' :=
    match graphemes[0]? with
    | none => s.startPositions
    | some firstGrapheme =>
      if firstGrapheme = "" then s.startPositions
      else s.startPositions ++
        [{ x := startX, y := startY, direction := direction,
           firstGrapheme := firstGrapheme }]
  { grid := grid'
    placements := s.placements ++
      [{ wordId := wordId, clueItem := clue, startX := startX,
         startY := startY, direction := direction, placed := true }]
    startPositions := starts'
    wordIdCounter := wordId }

/-- The auto-placement states reachable by committing validated placements. -/
inductive Reachable (nfc : String → String) (W H : Int) : EngState → Prop where
  | init : Reachable nfc W H initialState
  | step (s : EngState) (clue : ClueItem) (startX startY : Int)
      (direction : Direction) :
      Reachable nfc W H s →
      validatePlacement nfc W H s clue startX startY direction = true →
      Reachable nfc W H (commitPlacement W H s clue startX startY direction)

/-- Does placement `p` cover grid position `(x, y)`? -/
def coversB (p : WordPlacement) (x y : Int) : Bool :=
  (List.range p.clueItem.graphemes.length).any fun i =>
    cellX p.startX p.direction i = x && cellY p.startY p.direction i = y

/-- The two perpendicularly adjacent positions of a covered cell: above and
below for an ACROSS word, left and right for a DOWN word. -/
def perpCells (direction : Direction) (x y : Int) : List (Int × Int) :=
  if direction = .ACROSS then [(x, y - 1), (x, y + 1)]
  else [(x - 1, y), (x + 1, y)]

/-! ### Geometry of covers -/

lemma coversB_iff {p : WordPlacement} {x y : Int} :
    coversB p x y = true ↔ ∃ i < p.clueItem.graphemes.length,
      cellX p.startX p.direction i = x ∧ cellY p.startY p.direction i = y := by
  unfold coversB
  rw [List.any_eq_true]
  constructor
  · rintro ⟨i, hi, hcond⟩
    rw [Bool.and_eq_true, decide_eq_true_eq, decide_eq_true_eq] at hcond
    exact ⟨i, List.mem_range.mp hi, hcond.1, hcond.2⟩
  · rintro ⟨i, hi, h1, h2⟩
    refine ⟨i, List.mem_range.mpr hi, ?_⟩
    rw [Bool.and_eq_true, decide_eq_true_eq, decide_eq_true_eq]
    exact ⟨h1, h2⟩

lemma coversB_across {p : WordPlacement} {x y : Int}
    (hd : p.direction = .ACROSS) (hc : coversB p x y = true) :
    y = p.startY ∧ p.startX ≤ x ∧ x < p.startX + p.clueItem.graphemes.length := by
  obtain ⟨i, hi, h1, h2⟩ := coversB_iff.mp hc
  simp only [cellX, cellY, hd, if_true, reduceCtorEq, if_false] at h1 h2
  refine ⟨h2.symm, ?_, ?_⟩ <;> omega

lemma coversB_down {p : WordPlacement} {x y : Int}
    (hd : p.direction = .DOWN) (hc : coversB p x y = true) :
    x = p.startX ∧ p.startY ≤ y ∧ y < p.startY + p.clueItem.graphemes.length := by
  obtain ⟨i, hi, h1, h2⟩ := coversB_iff.mp hc
  simp only [cellX, cellY, hd, if_true, reduceCtorEq, if_false] at h1 h2
  refine ⟨h1.symm, ?_, ?_⟩ <;> omega

lemma coversB_across_of {p : WordPlacement} {x y : Int}
    (hd : p.direction = .ACROSS) (hy : y = p.startY)
    (hx1 : p.startX ≤ x) (hx2 : x < p.startX + p.clueItem.graphemes.length) :
    coversB p x y = true := by
  rw [coversB_iff]
  refine ⟨(x - p.startX).toNat, by omega, ?_, ?_⟩
  · simp only [cellX, hd, if_true]
    omega
  · simp only [cellY, hd, reduceCtorEq, if_false]
    omega

lemma coversB_down_of {p : WordPlacement} {x y : Int}
    (hd : p.direction = .DOWN) (hx : x = p.startX)
    (hy1 : p.startY ≤ y) (hy2 : y < p.startY + p.clueItem.graphemes.length) :
    coversB p x y = true := by
  rw [coversB_iff]
  refine ⟨(y - p.startY).toNat, by omega, ?_, ?_⟩
  · simp only [cellX, hd, reduceCtorEq, if_false]
    omega
  · simp only [cellY, hd, if_true]
    omega

lemma checkBounds_cells {W H sx sy : Int} {len : Nat} {dir : Direction}
    (h : checkBounds W H sx sy len dir = true) :
    ∀ i : Nat, i < len →
      0 ≤ cellX sx dir i ∧ cellX sx dir i < W ∧
      0 ≤ cellY sy dir i ∧ cellY sy dir i < H := by
  intro i hi
  unfold checkBounds at h
  by_cases hneg : sx < 0 ∨ sy < 0
  · rw [if_pos hneg] at h; exact absurd h (by simp)
  · rw [if_neg hneg] at h
    cases dir with
    | ACROSS =>
      rw [if_pos rfl, decide_eq_true_eq] at h
      rw [cellX, cellY]
      simp only [if_pos rfl, reduceCtorEq, if_false]
      omega
    | DOWN =>
      rw [if_neg (by simp), decide_eq_true_eq] at h
      rw [cellX, cellY]
      simp only [if_pos rfl, reduceCtorEq, if_false]
      omega

lemma coversB_inBounds {W H : Int} {p : WordPlacement} {x y : Int}
    (hb : checkBounds W H p.startX p.startY p.clueItem.graphemes.length
      p.direction = true)
    (hc : coversB p x y = true) :
    0 ≤ x ∧ x < W ∧ 0 ≤ y ∧ y < H := by
  obtain ⟨i, hi, h1, h2⟩ := coversB_iff.mp hc
  have := checkBounds_cells hb i hi
  rw [h1, h2] at this
  exact this

lemma cells_distinct {sx sy : Int} {dir : Direction} {i j : Nat} (hij : i ≠ j) :
    ¬(cellX sx dir i = cellX sx dir j ∧ cellY sy dir i = cellY sy dir j) := by
  rintro ⟨h1, h2⟩
  cases dir with
  | ACROSS =>
    simp only [cellX, if_true] at h1
    omega
  | DOWN =>
    simp only [cellY, if_true] at h2
    omega

/-! ### Decomposing a successful validation -/

lemma validate_decomp {nfc : String → String} {W H : Int} {s : EngState}
    {clue : ClueItem} {sx sy : Int} {dir : Direction}
    (hval : validatePlacement nfc W H s clue sx sy dir = true) :
    checkBounds W H sx sy clue.graphemes.length dir = true ∧
    (∃ fg, clue.graphemes[0]? = some fg ∧ fg ≠ "" ∧
      checkStartCellCollision nfc s.startPositions sx sy dir fg = true) ∧
    (∀ i, i < clue.graphemes.length → ∃ g, clue.graphemes[i]? = some g ∧
      g ≠ "" ∧
      (checkCellOccupancy nfc W H s.grid (cellX sx dir i) (cellY sy dir i)
        g).allowed = true ∧
      ((checkCellOccupancy nfc W H s.grid (cellX sx dir i) (cellY sy dir i)
        g).isIntersection = true ∨
        checkStrictAdjacency W H s.grid (cellX sx dir i) (cellY sy dir i)
          dir = true)) ∧
    checkWordEnds W H s.grid sx sy clue.graphemes.length dir = true := by
  unfold validatePlacement at hval
  rw [Bool.and_eq_true] at hval
  obtain ⟨hb, hrest⟩ := hval
  refine ⟨hb, ?_⟩
  cases h0 : clue.graphemes[0]? with
  | none => rw [h0] at hrest; simp at hrest
  | some fg =>
    rw [h0] at hrest
    rw [Bool.and_eq_true, Bool.and_eq_true, Bool.and_eq_true] at hrest
    obtain ⟨⟨⟨hfg, hcoll⟩, hall⟩, hends⟩ := hrest
    refine ⟨⟨fg, rfl, by simpa using hfg, hcoll⟩, ?_, hends⟩
    intro i hi
    rw [List.all_eq_true] at hall
    have := hall i (List.mem_range.mpr hi)
    cases hg : clue.graphemes[i]? with
    | none => rw [hg] at this; simp at this
    | some g =>
      rw [hg] at this
      rw [Bool.and_eq_true, Bool.and_eq_true] at this
      obtain ⟨hgne, hocc, hrest2⟩ := this
      refine ⟨g, rfl, by simpa using hgne, hocc, ?_⟩
      rw [Bool.or_eq_true] at hrest2
      exact hrest2

lemma validate_graphemes_ok {nfc : String → String} {W H : Int} {s : EngState}
    {clue : ClueItem} {sx sy : Int} {dir : Direction}
    (hval : validatePlacement nfc W H s clue sx sy dir = true) :
    clue.graphemes ≠ [] ∧ ∀ g ∈ clue.graphemes, g ≠ "" := by
  obtain ⟨_, ⟨fg, h0, _, _⟩, hcells, _⟩ := validate_decomp hval
  constructor
  · intro hnil
    rw [hnil] at h0
    simp at h0
  · intro g hg
    obtain ⟨i, hi⟩ := List.mem_iff_getElem?.mp hg
    have hilen : i < clue.graphemes.length := by
      by_contra hni
      rw [List.getElem?_eq_none (Nat.le_of_not_lt hni)] at hi
      simp at hi
    obtain ⟨g', hg', hg'ne, _⟩ := hcells i hilen
    rw [hi] at hg'
    injection hg' with he
    exact he ▸ hg'ne

/-! ### What a commit writes -/

/-- The new placement record appended by `commitPlacement`. -/
def newPlacementOf (s : EngState) (clue : ClueItem) (sx sy : Int)
    (dir : Direction) : WordPlacement :=
  { wordId := s.wordIdCounter + 1, clueItem := clue, startX := sx,
    startY := sy, direction := dir, placed := true }

lemma commit_placements (W H : Int) (s : EngState) (clue : ClueItem)
    (sx sy : Int) (dir : Direction) :
    (commitPlacement W H s clue sx sy dir).placements =
      s.placements ++ [newPlacementOf s clue sx sy dir] := rfl

/-- One step of the commit loop. -/
def commitStep (W H : Int) (graphemes : List GraphemeToken) (sx sy : Int)
    (dir : Direction) (id : Nat) (g : Grid) (i : Nat) : Grid :=
  match graphemes[i]? with
  | none => g
  | some grapheme =>
    if grapheme = "" then g
    else
      let x := cellX sx dir i
      let y := cellY sy dir i
      if 0 ≤ x ∧ x < W ∧ 0 ≤ y ∧ y < H then
        writeCellCommit g x y grapheme id
      else g

lemma commit_grid_fold (W H : Int) (s : EngState) (clue : ClueItem)
    (sx sy : Int) (dir : Direction) :
    (commitPlacement W H s clue sx sy dir).grid =
      (List.range clue.graphemes.length).foldl
        (commitStep W H clue.graphemes sx sy dir (s.wordIdCounter + 1))
        s.grid := rfl

lemma commitStep_untouched {W H : Int} {graphemes : List GraphemeToken}
    {sx sy : Int} {dir : Direction} {id : Nat} (g : Grid) (j : Nat)
    {a b : Int} (h : ¬(cellX sx dir j = a ∧ cellY sy dir j = b)) :
    commitStep W H graphemes sx sy dir id g j a b = g a b := by
  unfold commitStep
  cases graphemes[j]? with
  | none => rfl
  | some grapheme =>
    by_cases he : grapheme = ""
    · simp [he]
    · simp only [he, if_false]
      by_cases hib : 0 ≤ cellX sx dir j ∧ cellX sx dir j < W ∧
          0 ≤ cellY sy dir j ∧ cellY sy dir j < H
      · rw [if_pos hib]
        unfold writeCellCommit
        rw [if_neg (fun hc => h ⟨hc.1.symm, hc.2.symm⟩)]
      · rw [if_neg hib]

lemma commit_fold_untouched {W H : Int} {graphemes : List GraphemeToken}
    {sx sy : Int} {dir : Direction} {id : Nat} (idxs : List Nat) (g : Grid)
    {a b : Int} (h : ∀ i ∈ idxs, ¬(cellX sx dir i = a ∧ cellY sy dir i = b)) :
    idxs.foldl (commitStep W H graphemes sx sy dir id) g a b = g a b := by
  induction idxs generalizing g with
  | nil => rfl
  | cons j t ih =>
    rw [List.foldl_cons, ih _ (fun i hi => h i (by simp [hi]))]
    exact commitStep_untouched g j (h j (by simp))

lemma commit_fold_write {W H : Int} {graphemes : List GraphemeToken}
    {sx sy : Int} {dir : Direction} {id : Nat} (idxs : List Nat) (g : Grid)
    {a b : Int} {i₀ : Nat} {g₀ : GraphemeToken}
    (hfilter : idxs.filter (fun i =>
      decide (cellX sx dir i = a ∧ cellY sy dir i = b)) = [i₀])
    (hg0 : graphemes[i₀]? = some g₀) (hne : g₀ ≠ "")
    (hinb : 0 ≤ a ∧ a < W ∧ 0 ≤ b ∧ b < H) :
    idxs.foldl (commitStep W H graphemes sx sy dir id) g a b =
      { grapheme :=
          match (g a b).grapheme with
          | none => some g₀
          | some old => if old = "" then some g₀ else some old
        wordIds := (g a b).wordIds ++ [id] } := by
  induction idxs generalizing g with
  | nil => simp at hfilter
  | cons j t ih =>
    rw [List.foldl_cons]
    rw [List.filter_cons] at hfilter
    by_cases hhit : cellX sx dir j = a ∧ cellY sy dir j = b
    · rw [if_pos (by simpa using hhit)] at hfilter
      injection hfilter with he htail
      subst he
      have hnone : ∀ i ∈ t, ¬(cellX sx dir i = a ∧ cellY sy dir i = b) := by
        intro i hi hc
        have : i ∈ t.filter (fun i =>
            decide (cellX sx dir i = a ∧ cellY sy dir i = b)) :=
          List.mem_filter.mpr ⟨hi, by simpa using hc⟩
        rw [htail] at this
        simp at this
      rw [commit_fold_untouched t _ hnone]
      unfold commitStep
      rw [hg0]
      simp only [hne, if_false]
      rw [if_pos (by rw [hhit.1, hhit.2]; exact hinb)]
      unfold writeCellCommit
      rw [if_pos ⟨hhit.1.symm, hhit.2.symm⟩, hhit.1, hhit.2]
    · rw [if_neg (by simpa using hhit)] at hfilter
      rw [ih _ hfilter, commitStep_untouched g j hhit]

lemma range_filter_beq (len i₀ : Nat) (h : i₀ < len) :
    (List.range len).filter (fun i => i == i₀) = [i₀] := by
  induction len with
  | zero => omega
  | succ n ih =>
    rw [List.range_succ, List.filter_append]
    by_cases hi : i₀ < n
    · rw [ih hi]
      have : ¬ (n == i₀) = true := by simp; omega
      simp only [List.filter_cons, List.filter_nil, this, if_neg, if_false]
      simp [this]
    · have hi0 : i₀ = n := by omega
      subst hi0
      have hnil : (List.range i₀).filter (fun i => i == i₀) = [] := by
        rw [List.filter_eq_nil_iff]
        intro i hi
        have := List.mem_range.mp hi
        simp
        omega
      rw [hnil]
      simp

lemma range_filter_eq_single {len i₀ : Nat} {hit : Nat → Bool}
    (hi₀ : i₀ < len) (hhit : ∀ i, i < len → (hit i = true ↔ i = i₀)) :
    (List.range len).filter hit = [i₀] := by
  have hcong : (List.range len).filter hit =
      (List.range len).filter (fun i => i == i₀) := by
    apply List.filter_congr
    intro i hi
    apply bool_eq_of_iff
    rw [hhit i (List.mem_range.mp hi)]
    simp
  rw [hcong]
  exact range_filter_beq len i₀ hi₀

lemma commit_grid_untouched {W H : Int} {s : EngState} {clue : ClueItem}
    {sx sy : Int} {dir : Direction} {a b : Int}
    (hnc : coversB (newPlacementOf s clue sx sy dir) a b = false) :
    (commitPlacement W H s clue sx sy dir).grid a b = s.grid a b := by
  rw [commit_grid_fold]
  apply commit_fold_untouched
  intro i hi hc
  have : coversB (newPlacementOf s clue sx sy dir) a b = true :=
    coversB_iff.mpr ⟨i, List.mem_range.mp hi, hc.1, hc.2⟩
  rw [hnc] at this
  exact absurd this (by simp)

lemma commit_grid_covered {W H : Int} {s : EngState} {clue : ClueItem}
    {sx sy : Int} {dir : Direction} {a b : Int} {i₀ : Nat}
    {g₀ : GraphemeToken}
    (hi₀ : i₀ < clue.graphemes.length)
    (hcell : cellX sx dir i₀ = a ∧ cellY sy dir i₀ = b)
    (hg0 : clue.graphemes[i₀]? = some g₀) (hne : g₀ ≠ "")
    (hinb : 0 ≤ a ∧ a < W ∧ 0 ≤ b ∧ b < H) :
    (commitPlacement W H s clue sx sy dir).grid a b =
      { grapheme :=
          match (s.grid a b).grapheme with
          | none => some g₀
          | some old => if old = "" then some g₀ else some old
        wordIds := (s.grid a b).wordIds ++ [s.wordIdCounter + 1] } := by
  rw [commit_grid_fold]
  apply commit_fold_write _ _ _ hg0 hne hinb
  exact range_filter_eq_single hi₀ (fun i hilt => by
    rw [decide_eq_true_eq]
    constructor
    · intro hhits
      by_contra hne2
      exact cells_distinct hne2
        ⟨hhits.1.trans hcell.1.symm, hhits.2.trans hcell.2.symm⟩
    · rintro rfl
      exact hcell)

/-! ### Small facts about the validation checks -/

lemma occ_isIntersection_filled {nfc : String → String} {W H : Int}
    {grid : Grid} {x y : Int} {g : GraphemeToken}
    (h : (checkCellOccupancy nfc W H grid x y g).isIntersection = true) :
    cellFilled (getCell W H grid x y) = true := by
  unfold checkCellOccupancy at h
  unfold cellFilled
  cases hc : getCell W H grid x y with
  | none =>
    rw [hc] at h
    dsimp only at h
    simp at h
  | some cell =>
    rw [hc] at h
    dsimp only at h ⊢
    cases hg : cell.grapheme with
    | none =>
      rw [hg] at h
      dsimp only at h
      simp at h
    | some g' =>
      rw [hg] at h
      dsimp only at h
      by_cases he : g' = ""
      · rw [if_pos he] at h
        simp at h
      · simp [he]

lemma strictAdj_perp {W H : Int} {grid : Grid} {x y : Int} {dir : Direction}
    (h : checkStrictAdjacency W H grid x y dir = true) :
    ∀ pc ∈ perpCells dir x y, cellFilled (getCell W H grid pc.1 pc.2) = false := by
  intro pc hpc
  unfold checkStrictAdjacency at h
  unfold perpCells at hpc
  cases dir with
  | ACROSS =>
    rw [if_pos rfl] at h hpc
    rw [Bool.not_eq_true', Bool.or_eq_false_iff] at h
    rcases List.mem_cons.mp hpc with rfl | hpc'
    · exact h.1
    · rcases List.mem_singleton.mp hpc' with rfl
      exact h.2
  | DOWN =>
    rw [if_neg (by simp)] at h hpc
    rw [Bool.not_eq_true', Bool.or_eq_false_iff] at h
    rcases List.mem_cons.mp hpc with rfl | hpc'
    · exact h.1
    · rcases List.mem_singleton.mp hpc' with rfl
      exact h.2

lemma wordEnds_across {W H : Int} {grid : Grid} {sx sy : Int} {len : Nat}
    (h : checkWordEnds W H grid sx sy len .ACROSS = true) :
    cellFilled (getCell W H grid (sx - 1) sy) = false ∧
    cellFilled (getCell W H grid (sx + len) sy) = false := by
  unfold checkWordEnds at h
  rw [if_pos rfl, Bool.not_eq_true', Bool.or_eq_false_iff] at h
  exact h

lemma wordEnds_down {W H : Int} {grid : Grid} {sx sy : Int} {len : Nat}
    (h : checkWordEnds W H grid sx sy len .DOWN = true) :
    cellFilled (getCell W H grid sx (sy - 1)) = false ∧
    cellFilled (getCell W H grid sx (sy + len)) = false := by
  unfold checkWordEnds at h
  rw [if_neg (by simp), Bool.not_eq_true', Bool.or_eq_false_iff] at h
  exact h

/-! ### The engine invariant -/

/-- Invariant of reachable engine states. -/
structure EngInv (W H : Int) (s : EngState) : Prop where
  counter_eq : s.wordIdCounter = s.placements.length
  ids_eq : s.placements.map (·.wordId) = List.range' 1 s.placements.length
  placed_all : ∀ p ∈ s.placements, p.placed = true
  graphemes_ok : ∀ p ∈ s.placements, p.clueItem.graphemes ≠ [] ∧
    ∀ g ∈ p.clueItem.graphemes, g ≠ ""
  bounds_ok : ∀ p ∈ s.placements,
    checkBounds W H p.startX p.startY p.clueItem.graphemes.length
      p.direction = true
  wordIds_eq : ∀ x y : Int, 0 ≤ x → x < W → 0 ≤ y → y < H →
    (s.grid x y).wordIds =
      (s.placements.filter (fun p => coversB p x y)).map (·.wordId)
  filled_iff : ∀ x y : Int,
    cellFilled (getCell W H s.grid x y) = true ↔
      ∃ p ∈ s.placements, coversB p x y = true
  no_parallel : ∀ p ∈ s.placements, ∀ x y : Int, coversB p x y = true →
    (∀ q ∈ s.placements, coversB q x y = true → q = p) →
    ∀ pc ∈ perpCells p.direction x y, ∀ q ∈ s.placements,
      coversB q pc.1 pc.2 = false

lemma EngInv.not_mem_new {W H : Int} {s : EngState} (inv : EngInv W H s)
    (clue : ClueItem) (sx sy : Int) (dir : Direction) :
    newPlacementOf s clue sx sy dir ∉ s.placements := by
  intro hmem
  have hid : (newPlacementOf s clue sx sy dir).wordId ∈
      s.placements.map (·.wordId) := List.mem_map_of_mem _ hmem
  rw [inv.ids_eq] at hid
  have := List.mem_range'_1.mp hid
  have hcnt : (newPlacementOf s clue sx sy dir).wordId =
      s.wordIdCounter + 1 := rfl
  rw [hcnt, inv.counter_eq] at this
  omega

lemma EngInv.id_injective {W H : Int} {s : EngState} (inv : EngInv W H s)
    {p q : WordPlacement} (hp : p ∈ s.placements) (hq : q ∈ s.placements)
    (hid : p.wordId = q.wordId) : p = q := by
  have hnd : (s.placements.map (·.wordId)).Nodup := by
    rw [inv.ids_eq]
    exact List.nodup_range' _ _
  exact List.inj_on_of_nodup_map hnd hp hq hid

lemma cellFilled_false_of_unfilled {W H : Int} {s : EngState}
    (inv : EngInv W H s) {a b : Int}
    (h : ∀ r ∈ s.placements, coversB r a b = false) :
    cellFilled (getCell W H s.grid a b) = false := by
  cases hcf : cellFilled (getCell W H s.grid a b) with
  | false => rfl
  | true =>
    obtain ⟨r, hr, hrc⟩ := (inv.filled_iff a b).mp hcf
    rw [h r hr] at hrc
    exact absurd hrc (by simp)

theorem reachable_inv {nfc : String → String} {W H : Int} {s : EngState}
    (h : Reachable nfc W H s) : EngInv W H s := by
  induction h with
  | init =>
    refine
      { counter_eq := rfl
        ids_eq := rfl
        placed_all := ?_
        graphemes_ok := ?_
        bounds_ok := ?_
        wordIds_eq := ?_
        filled_iff := ?_
        no_parallel := ?_ }
    · intro p hp; exact absurd hp (by simp [initialState])
    · intro p hp; exact absurd hp (by simp [initialState])
    · intro p hp; exact absurd hp (by simp [initialState])
    · intro x y _ _ _ _; rfl
    · intro x y
      apply iff_of_false
      · have : cellFilled (getCell W H initialState.grid x y) = false := by
          unfold initialState createEmptyGrid getCell emptyCell
          by_cases hbb : x < 0 ∨ y < 0 ∨ x ≥ W ∨ y ≥ H
          · rw [if_pos hbb]; rfl
          · rw [if_neg hbb]; rfl
        rw [this]; simp
      · rintro ⟨p, hp, _⟩
        exact absurd hp (by simp [initialState])
    · intro p hp; exact absurd hp (by simp [initialState])
  | step s clue sx sy dir hr hval ih =>
    obtain ⟨hb, ⟨fg, hfg0, hfgne, hcoll⟩, hcells, hends⟩ := validate_decomp hval
    have hgok := validate_graphemes_ok hval
    have hplc : (commitPlacement W H s clue sx sy dir).placements =
        s.placements ++ [newPlacementOf s clue sx sy dir] := rfl
    have hcnt : (commitPlacement W H s clue sx sy dir).wordIdCounter =
        s.wordIdCounter + 1 := rfl
    have hmemnew : newPlacementOf s clue sx sy dir ∈
        (commitPlacement W H s clue sx sy dir).placements := by
      rw [hplc]; simp
    refine
      { counter_eq := ?_
        ids_eq := ?_
        placed_all := ?_
        graphemes_ok := ?_
        bounds_ok := ?_
        wordIds_eq := ?_
        filled_iff := ?_
        no_parallel := ?_ }
    · rw [hcnt, hplc, List.length_append, ih.counter_eq]
      rfl
    · rw [hplc, List.map_append, ih.ids_eq, List.length_append]
      have hW : (newPlacementOf s clue sx sy dir).wordId =
          1 + s.placements.length := by
        show s.wordIdCounter + 1 = 1 + s.placements.length
        rw [ih.counter_eq]
        omega
      simp only [List.map_cons, List.map_nil, hW, List.length_cons,
        List.length_nil]
      rw [show s.placements.length + (0 + 1) = s.placements.length + 1 by omega,
        List.range'_concat]
      simp
    · intro p hp
      rw [hplc] at hp
      rcases List.mem_append.mp hp with hpo | hpn
      · exact ih.placed_all p hpo
      · rw [List.mem_singleton.mp hpn]; rfl
    · intro p hp
      rw [hplc] at hp
      rcases List.mem_append.mp hp with hpo | hpn
      · exact ih.graphemes_ok p hpo
      · rw [List.mem_singleton.mp hpn]; exact hgok
    · intro p hp
      rw [hplc] at hp
      rcases List.mem_append.mp hp with hpo | hpn
      · exact ih.bounds_ok p hpo
      · rw [List.mem_singleton.mp hpn]; exact hb
    · -- wordIds_eq
      intro x y hx0 hxW hy0 hyH
      rw [hplc, List.filter_append, List.map_append]
      by_cases hcov : coversB (newPlacementOf s clue sx sy dir) x y = true
      · obtain ⟨i₀, hi₀, hcx, hcy⟩ := coversB_iff.mp hcov
        have hi₀' : i₀ < clue.graphemes.length := hi₀
        have hcx' : cellX sx dir i₀ = x := hcx
        have hcy' : cellY sy dir i₀ = y := hcy
        obtain ⟨g₀, hg₀, hg₀ne, _, _⟩ := hcells i₀ hi₀'
        rw [commit_grid_covered hi₀' ⟨hcx', hcy'⟩ hg₀ hg₀ne ⟨hx0, hxW, hy0, hyH⟩]
        dsimp only
        rw [ih.wordIds_eq x y hx0 hxW hy0 hyH]
        congr 1
        rw [List.filter_cons, if_pos hcov]
        rfl
      · have hcovf : coversB (newPlacementOf s clue sx sy dir) x y = false :=
          Bool.eq_false_iff.mpr hcov
        rw [commit_grid_untouched hcovf, ih.wordIds_eq x y hx0 hxW hy0 hyH]
        rw [List.filter_cons, if_neg hcov]
        simp
    · -- filled_iff
      intro x y
      by_cases hinb : 0 ≤ x ∧ x < W ∧ 0 ≤ y ∧ y < H
      · by_cases hcov : coversB (newPlacementOf s clue sx sy dir) x y = true
        · apply iff_of_true
          · obtain ⟨i₀, hi₀, hcx, hcy⟩ := coversB_iff.mp hcov
            have hi₀' : i₀ < clue.graphemes.length := hi₀
            have hcx' : cellX sx dir i₀ = x := hcx
            have hcy' : cellY sy dir i₀ = y := hcy
            obtain ⟨g₀, hg₀, hg₀ne, _, _⟩ := hcells i₀ hi₀'
            have hgr := commit_grid_covered (s := s) hi₀' ⟨hcx', hcy'⟩ hg₀ hg₀ne hinb
            unfold getCell cellFilled
            rw [if_neg (by omega), hgr]
            dsimp only
            cases hold : (s.grid x y).grapheme with
            | none => simpa using hg₀ne
            | some old =>
              dsimp only
              by_cases he : old = ""
              · rw [if_pos he]
                simpa using hg₀ne
              · rw [if_neg he]
                simpa using he
          · exact ⟨newPlacementOf s clue sx sy dir, hmemnew, hcov⟩
        · have hcovf : coversB (newPlacementOf s clue sx sy dir) x y = false :=
            Bool.eq_false_iff.mpr hcov
          have hgr := commit_grid_untouched (W := W) (H := H) hcovf
          have hsame : getCell W H (commitPlacement W H s clue sx sy dir).grid x y =
              getCell W H s.grid x y := by
            unfold getCell
            rw [if_neg (by omega), if_neg (by omega), hgr]
          rw [hsame, ih.filled_iff x y]
          constructor
          · rintro ⟨p, hp, hc⟩
            exact ⟨p, by rw [hplc]; exact List.mem_append_left _ hp, hc⟩
          · rintro ⟨p, hp, hc⟩
            rw [hplc] at hp
            rcases List.mem_append.mp hp with hpo | hpn
            · exact ⟨p, hpo, hc⟩
            · rw [List.mem_singleton.mp hpn] at hc
              rw [hcovf] at hc
              exact absurd hc (by simp)
      · apply iff_of_false
        · have hnone : getCell W H (commitPlacement W H s clue sx sy dir).grid
              x y = none := by
            unfold getCell
            rw [if_pos (by omega)]
          rw [hnone]
          simp [cellFilled]
        · rintro ⟨p, hp, hc⟩
          rw [hplc] at hp
          rcases List.mem_append.mp hp with hpo | hpn
          · have := coversB_inBounds (ih.bounds_ok p hpo) hc
            omega
          · rw [List.mem_singleton.mp hpn] at hc
            have := coversB_inBounds (p := newPlacementOf s clue sx sy dir)
              hb hc
            omega
    · -- no_parallel
      intro p hp x y hpcov huniq pc hpc q hq
      rw [hplc] at hp hq
      rcases List.mem_append.mp hp with hpold | hpnew
      · -- the uniquely-covering word is an old placement
        have hnnew : coversB (newPlacementOf s clue sx sy dir) x y = false := by
          cases hnc : coversB (newPlacementOf s clue sx sy dir) x y with
          | false => rfl
          | true =>
            have heq := huniq (newPlacementOf s clue sx sy dir) hmemnew hnc
            exact absurd (heq ▸ hpold) (ih.not_mem_new clue sx sy dir)
        have huniqold : ∀ r ∈ s.placements, coversB r x y = true → r = p :=
          fun r hr hrc =>
            huniq r (by rw [hplc]; exact List.mem_append_left _ hr) hrc
        have hperp_old : ∀ pc' ∈ perpCells p.direction x y,
            ∀ r ∈ s.placements, coversB r pc'.1 pc'.2 = false :=
          ih.no_parallel p hpold x y hpcov huniqold
        rcases List.mem_append.mp hq with hqold | hqnew
        · exact hperp_old pc hpc q hqold
        · rw [List.mem_singleton.mp hqnew]
          cases hnc2 : coversB (newPlacementOf s clue sx sy dir) pc.1 pc.2 with
          | false => rfl
          | true =>
            exfalso
            obtain ⟨k, hk, hkx, hky⟩ := coversB_iff.mp hnc2
            have hk' : k < clue.graphemes.length := hk
            have hkx' : cellX sx dir k = pc.1 := hkx
            have hky' : cellY sy dir k = pc.2 := hky
            obtain ⟨gk, hgk, hgkne, _, hso⟩ := hcells k hk'
            have hpc_oldfree : ∀ r ∈ s.placements,
                coversB r pc.1 pc.2 = false := hperp_old pc hpc
            have hpc_unfilled : cellFilled (getCell W H s.grid pc.1 pc.2) =
                false := cellFilled_false_of_unfilled ih hpc_oldfree
            have hnotint : ¬ ((checkCellOccupancy nfc W H s.grid
                (cellX sx dir k) (cellY sy dir k) gk).isIntersection = true) := by
              intro hint
              have hfl := occ_isIntersection_filled hint
              rw [hkx', hky', hpc_unfilled] at hfl
              exact absurd hfl (by simp)
            have hadj := hso.resolve_left hnotint
            rw [hkx', hky'] at hadj
            have hxy_filled : cellFilled (getCell W H s.grid x y) = true :=
              (ih.filled_iff x y).mpr ⟨p, hpold, hpcov⟩
            cases hpd : p.direction with
            | ACROSS =>
              rw [perpCells, hpd, if_pos rfl] at hpc
              simp only [List.mem_cons, List.mem_singleton,
                List.not_mem_nil, or_false] at hpc
              cases dir with
              | ACROSS =>
                have hperps := strictAdj_perp hadj
                rcases hpc with rfl | rfl
                · have hm : ((x : Int), y) ∈
                      perpCells Direction.ACROSS x (y - 1) := by
                    rw [perpCells, if_pos rfl]
                    have : y - 1 + 1 = y := by omega
                    rw [this]
                    simp
                  have := hperps (x, y) hm
                  rw [hxy_filled] at this
                  exact absurd this (by simp)
                · have hm : ((x : Int), y) ∈
                      perpCells Direction.ACROSS x (y + 1) := by
                    rw [perpCells, if_pos rfl]
                    have : y + 1 - 1 = y := by omega
                    rw [this]
                    simp
                  have := hperps (x, y) hm
                  rw [hxy_filled] at this
                  exact absurd this (by simp)
              | DOWN =>
                have hgeo := coversB_down
                  (p := newPlacementOf s clue sx sy Direction.DOWN) rfl hnc2
                have hgeo1 : pc.1 = sx := hgeo.1
                have hgeo2 : sy ≤ pc.2 := hgeo.2.1
                have hgeo3 : pc.2 < sy + (clue.graphemes.length : Int) := hgeo.2.2
                have hpcx : pc.1 = x := by rcases hpc with rfl | rfl <;> rfl
                have hsxx : sx = x := by omega
                by_cases hyin : sy ≤ y ∧ y < sy + (clue.graphemes.length : Int)
                · have : coversB (newPlacementOf s clue sx sy Direction.DOWN)
                      x y = true := by
                    apply coversB_down_of rfl
                    · exact hsxx.symm
                    · exact hyin.1
                    · exact hyin.2
                  rw [hnnew] at this
                  exact absurd this (by simp)
                · have hye := wordEnds_down hends
                  have hpcy : pc.2 = y - 1 ∨ pc.2 = y + 1 := by
                    rcases hpc with rfl | rfl
                    · left; rfl
                    · right; rfl
                  have hcase : y = sy - 1 ∨ y = sy + (clue.graphemes.length : Int) := by
                    omega
                  rcases hcase with hc1 | hc1
                  · have := hye.1
                    rw [hsxx, ← hc1] at this
                    rw [hxy_filled] at this
                    exact absurd this (by simp)
                  · have := hye.2
                    rw [hsxx, ← hc1] at this
                    rw [hxy_filled] at this
                    exact absurd this (by simp)
            | DOWN =>
              rw [perpCells, hpd, if_neg (by simp)] at hpc
              simp only [List.mem_cons, List.mem_singleton,
                List.not_mem_nil, or_false] at hpc
              cases dir with
              | DOWN =>
                have hperps := strictAdj_perp hadj
                rcases hpc with rfl | rfl
                · have hm : ((x : Int), y) ∈
                      perpCells Direction.DOWN (x - 1) y := by
                    rw [perpCells, if_neg (by simp)]
                    have : x - 1 + 1 = x := by omega
                    rw [this]
                    simp
                  have := hperps (x, y) hm
                  rw [hxy_filled] at this
                  exact absurd this (by simp)
                · have hm : ((x : Int), y) ∈
                      perpCells Direction.DOWN (x + 1) y := by
                    rw [perpCells, if_neg (by simp)]
                    have : x + 1 - 1 = x := by omega
                    rw [this]
                    simp
                  have := hperps (x, y) hm
                  rw [hxy_filled] at this
                  exact absurd this (by simp)
              | ACROSS =>
                have hgeo := coversB_across
                  (p := newPlacementOf s clue sx sy Direction.ACROSS) rfl hnc2
                have hgeo1 : pc.2 = sy := hgeo.1
                have hgeo2 : sx ≤ pc.1 := hgeo.2.1
                have hgeo3 : pc.1 < sx + (clue.graphemes.length : Int) := hgeo.2.2
                have hpcy : pc.2 = y := by rcases hpc with rfl | rfl <;> rfl
                have hsyy : sy = y := by omega
                by_cases hxin : sx ≤ x ∧ x < sx + (clue.graphemes.length : Int)
                · have : coversB (newPlacementOf s clue sx sy Direction.ACROSS)
                      x y = true := by
                    apply coversB_across_of rfl
                    · exact hsyy.symm
                    · exact hxin.1
                    · exact hxin.2
                  rw [hnnew] at this
                  exact absurd this (by simp)
                · have hxe := wordEnds_across hends
                  have hpcx : pc.1 = x - 1 ∨ pc.1 = x + 1 := by
                    rcases hpc with rfl | rfl
                    · left; rfl
                    · right; rfl
                  have hcase : x = sx - 1 ∨ x = sx + (clue.graphemes.length : Int) := by
                    omega
                  rcases hcase with hc1 | hc1
                  · have := hxe.1
                    rw [hsyy, ← hc1] at this
                    rw [hxy_filled] at this
                    exact absurd this (by simp)
                  · have := hxe.2
                    rw [hsyy, ← hc1] at this
                    rw [hxy_filled] at this
                    exact absurd this (by simp)
      · -- the uniquely-covering word is the new placement
        rw [List.mem_singleton.mp hpnew] at hpcov huniq hpc
        have hold_free : ∀ r ∈ s.placements, coversB r x y = false := by
          intro r hr
          cases hrc : coversB r x y with
          | false => rfl
          | true =>
            have heq := huniq r
              (by rw [hplc]; exact List.mem_append_left _ hr) hrc
            rw [heq] at hr
            exact absurd hr (ih.not_mem_new clue sx sy dir)
        have hxy_unfilled : cellFilled (getCell W H s.grid x y) = false :=
          cellFilled_false_of_unfilled ih hold_free
        obtain ⟨i₀, hi₀, hix, hiy⟩ := coversB_iff.mp hpcov
        have hi₀' : i₀ < clue.graphemes.length := hi₀
        have hix' : cellX sx dir i₀ = x := hix
        have hiy' : cellY sy dir i₀ = y := hiy
        obtain ⟨g₀, hg₀, hg₀ne, _, hso⟩ := hcells i₀ hi₀'
        have hnotint : ¬ ((checkCellOccupancy nfc W H s.grid
            (cellX sx dir i₀) (cellY sy dir i₀) g₀).isIntersection = true) := by
          intro hint
          have hfl := occ_isIntersection_filled hint
          rw [hix', hiy', hxy_unfilled] at hfl
          exact absurd hfl (by simp)
        have hadj := hso.resolve_left hnotint
        rw [hix', hiy'] at hadj
        have hperps := strictAdj_perp hadj
        rcases List.mem_append.mp hq with hqold | hqnew
        · cases hqc : coversB q pc.1 pc.2 with
          | false => rfl
          | true =>
            exfalso
            have hfill : cellFilled (getCell W H s.grid pc.1 pc.2) = true :=
              (ih.filled_iff pc.1 pc.2).mpr ⟨q, hqold, hqc⟩
            have hempty := hperps pc hpc
            rw [hfill] at hempty
            exact absurd hempty (by simp)
        · rw [List.mem_singleton.mp hqnew]
          cases hqc : coversB (newPlacementOf s clue sx sy dir) pc.1 pc.2 with
          | false => rfl
          | true =>
            exfalso
            cases dir with
            | ACROSS =>
              have h1 := coversB_across
                (p := newPlacementOf s clue sx sy Direction.ACROSS) rfl hpcov
              have h2 := coversB_across
                (p := newPlacementOf s clue sx sy Direction.ACROSS) rfl hqc
              have hpc' : pc ∈ perpCells Direction.ACROSS x y := hpc
              rw [perpCells, if_pos rfl] at hpc'
              simp only [List.mem_cons, List.mem_singleton,
                List.not_mem_nil, or_false] at hpc'
              have hy1 : y = sy := h1.1
              have hy2 : pc.2 = sy := h2.1
              rcases hpc' with rfl | rfl <;> omega
            | DOWN =>
              have h1 := coversB_down
                (p := newPlacementOf s clue sx sy Direction.DOWN) rfl hpcov
              have h2 := coversB_down
                (p := newPlacementOf s clue sx sy Direction.DOWN) rfl hqc
              have hpc' : pc ∈ perpCells Direction.DOWN x y := hpc
              rw [perpCells, if_neg (by simp)] at hpc'
              simp only [List.mem_cons, List.mem_singleton,
                List.not_mem_nil, or_false] at hpc'
              have hx1 : x = sx := h1.1
              have hx2 : pc.1 = sx := h2.1
              rcases hpc' with rfl | rfl <;> omega

/-- C6: in auto-placement mode, for every grid state reachable by
committing validated placements and every occupied cell belonging to
exactly one placed word, the two cells perpendicular to that word's
direction (above/below for ACROSS, left/right for DOWN) are empty. -/
theorem C6_no_parallel_touch (nfc : String → String) (W H : Int)
    (s : EngState) (h : Reachable nfc W H s) (p : WordPlacement)
    (hp : p ∈ s.placements) (x y : Int) (c : GridCell)
    (hc : getCell W H s.grid x y = some c) (hone : c.wordIds = [p.wordId]) :
    ∀ pc ∈ perpCells p.direction x y,
      cellFilled (getCell W H s.grid pc.1 pc.2) = false := by
  have inv := reachable_inv h
  have hinb : 0 ≤ x ∧ x < W ∧ 0 ≤ y ∧ y < H := by
    unfold getCell at hc
    by_cases hbb : x < 0 ∨ y < 0 ∨ x ≥ W ∨ y ≥ H
    · rw [if_pos hbb] at hc; exact absurd hc (by simp)
    · omega
  have hcw : c = s.grid x y := by
    unfold getCell at hc
    rw [if_neg (by omega)] at hc
    injection hc with hcc
    exact hcc.symm
  have hone' : (s.placements.filter (fun r => coversB r x y)).map (·.wordId) =
      [p.wordId] := by
    rw [← inv.wordIds_eq x y hinb.1 hinb.2.1 hinb.2.2.1 hinb.2.2.2, ← hcw]
    exact hone
  cases hfl : s.placements.filter (fun r => coversB r x y) with
  | nil => rw [hfl] at hone'; exact absurd hone' (by simp)
  | cons q0 t =>
    cases t with
    | cons q1 t' =>
      rw [hfl] at hone'
      exact absurd hone' (by simp)
    | nil =>
      rw [hfl] at hone'
      simp only [List.map_cons, List.map_nil, List.cons.injEq, and_true]
        at hone'
      have hq0f : q0 ∈ s.placements.filter (fun r => coversB r x y) := by
        rw [hfl]; simp
      have hq0mem : q0 ∈ s.placements := (List.mem_filter.mp hq0f).1
      have hq0cov : coversB q0 x y = true := by
        simpa using (List.mem_filter.mp hq0f).2
      have hq0p : q0 = p := inv.id_injective hq0mem hp hone'
      subst hq0p
      have huniq : ∀ r ∈ s.placements, coversB r x y = true → r = q0 := by
        intro r hr hrc
        have : r ∈ s.placements.filter (fun r => coversB r x y) :=
          List.mem_filter.mpr ⟨hr, by simpa using hrc⟩
        rw [hfl] at this
        exact List.mem_singleton.mp this
      intro pc hpc
      exact cellFilled_false_of_unfilled inv
        (inv.no_parallel q0 hq0mem x y hq0cov huniq pc hpc)

/-- Witness for C6: after committing the validated placement of a two-
grapheme ACROSS word at `(1, 2)` in a `5 × 5` grid, the cell above the
start cell (which belongs only to that word) is empty. -/
theorem C6_no_parallel_touch_witness :
    cellFilled (getCell 5 5 (commitPlacement 5 5 initialState
      ⟨["a", "b"], "ab", "clue"⟩ 1 2 Direction.ACROSS).grid
      ((1 : Int), (1 : Int)).1 ((1 : Int), (1 : Int)).2) = false :=
  C6_no_parallel_touch (fun t => t) 5 5 _
    (Reachable.step initialState ⟨["a", "b"], "ab", "clue"⟩ 1 2
      Direction.ACROSS Reachable.init (by decide))
    { wordId := 1, clueItem := ⟨["a", "b"], "ab", "clue"⟩, startX := 1,
      startY := 2, direction := Direction.ACROSS, placed := true }
    (by decide) 1 2
    { grapheme := some "a", wordIds := [1] } (by decide) (by decide)
    (1, 1) (by decide)

/-! ### First word placement (C8)

`SeededRandom` wraps the external `seedrandom` library; it is modelled as
a stream of rational draws consumed in order. -/

/-- The seeded PRNG, modelled as a draw stream plus a cursor. -/
structure Rng where
  stream : Nat → ℚ
  idx : Nat

/-- `rng.next()`. -/
def Rng.next (r : Rng) : ℚ × Rng :=
  (r.stream r.idx, { r with idx := r.idx + 1 })

/-- An entry of the `options` array in `placeFirstWord`. -/
structure FirstOption where
  direction : Direction
  score : Nat
  randomRank : ℚ
deriving DecidableEq

/-- The first-word orientation score: how many remaining words share at
least one grapheme (`Set.has`, literal string equality) with the clue. -/
def countSharedWith (clue : ClueItem) (remainingWords : List ClueItem) : Nat :=
  (remainingWords.filter (fun w =>
    w.graphemes.any (fun g => clue.graphemes.contains g))).length

/-- `canPlace`. -/
def canPlace (nfc : String → String) (W H : Int) (s : EngState)
    (clue : ClueItem) (x y : Int) (dir : Direction) : Bool :=
  validatePlacement nfc W H s clue x y dir

/-- The `options` array built by `placeFirstWord` (a PRNG draw is consumed
for each valid orientation, ACROSS first). -/
def firstWordOptions (nfc : String → String) (W H : Int) (s : EngState)
    (clue : ClueItem) (remainingWords : List ClueItem)
    (startX startY : Int) (rng : Rng) : List FirstOption × Rng :=
  let acc1 :=
    if canPlace nfc W H s clue startX startY .ACROSS then
      ([(⟨.ACROSS, countSharedWith clue remainingWords,
          (rng.next).1⟩ : FirstOption)], (rng.next).2)
    else ([], rng)
  let acc2 :=
    if canPlace nfc W H s clue startX startY .DOWN then
      (acc1.1 ++ [(⟨.DOWN, countSharedWith clue remainingWords,
          (acc1.2.next).1⟩ : FirstOption)], (acc1.2.next).2)
    else acc1
  acc2

/-- The comparator of the `options.sort` call in `placeFirstWord`:
`a` may stay left of `b` iff the comparator value is `≤ 0`. -/
def firstOptionLE (randomize : Bool) (a b : FirstOption) : Prop :=
  b.score < a.score ∨
    (a.score = b.score ∧ (randomize = false ∨ a.randomRank ≤ b.randomRank))

instance : DecidableRel (firstOptionLE randomize) := fun _ _ =>
  inferInstanceAs (Decidable (_ ∨ _))

/-- `placeFirstWord`: centre the word, fork the orientation, sort the
valid options by score (random tie-break only in retry mode), commit the
best one. -/
def placeFirstWord (nfc : String → String) (W H : Int) (clue : ClueItem)
    (remainingWords : List ClueItem) (randomizeTieBreaker : Bool)
    (s : EngState) (rng : Rng) : Option EngState × Rng :=
  let wordLength := clue.graphemes.length
  let startX := Int.fdiv (W - wordLength) 2
  let startY := Int.fdiv H 2
  let or := firstWordOptions nfc W H s clue remainingWords startX startY rng
  let sorted := or.1.insertionSort (firstOptionLE randomizeTieBreaker)
  match sorted with
  | [] => (none, or.2)
  | best :: _ =>
    (some (commitPlacement W H s clue startX startY best.direction), or.2)

/-- C8: in the default (non-retry) attempt, the first placed word of
length `len` starts at `x = ⌊(width - len)/2⌋`, `y = ⌊height/2⌋`; both
orientations are scored by the number of remaining words sharing at least
one grapheme; and when both orientations validate (their scores always
tie), ACROSS is chosen. -/
theorem C8_first_word_placement (nfc : String → String) (W H : Int)
    (clue : ClueItem) (remainingWords : List ClueItem) (s : EngState)
    (rng : Rng) :
    (∀ opt ∈ (firstWordOptions nfc W H s clue remainingWords
        (Int.fdiv (W - clue.graphemes.length) 2) (Int.fdiv H 2) rng).1,
      opt.score = countSharedWith clue remainingWords) ∧
    (∀ s' rng', placeFirstWord nfc W H clue remainingWords false s rng =
        (some s', rng') →
      ∃ pl, s'.placements = s.placements ++ [pl] ∧
        pl.clueItem = clue ∧
        pl.startX = Int.fdiv (W - clue.graphemes.length) 2 ∧
        pl.startY = Int.fdiv H 2 ∧
        (canPlace nfc W H s clue (Int.fdiv (W - clue.graphemes.length) 2)
            (Int.fdiv H 2) .ACROSS = true ∧
         canPlace nfc W H s clue (Int.fdiv (W - clue.graphemes.length) 2)
            (Int.fdiv H 2) .DOWN = true →
          pl.direction = .ACROSS)) := by
  constructor
  · intro opt hopt
    unfold firstWordOptions at hopt
    by_cases hA : canPlace nfc W H s clue
        (Int.fdiv (W - clue.graphemes.length) 2) (Int.fdiv H 2) .ACROSS <;>
      by_cases hD : canPlace nfc W H s clue
        (Int.fdiv (W - clue.graphemes.length) 2) (Int.fdiv H 2) .DOWN <;>
      simp only [hA, hD, if_true, if_false, Bool.false_eq_true] at hopt <;>
      simp only [List.mem_append, List.mem_singleton, List.mem_cons,
        List.not_mem_nil, List.nil_append, or_false, false_or] at hopt
    all_goals first
      | (rcases hopt with rfl | rfl <;> rfl)
      | (subst hopt; rfl)
      | exact hopt.elim
  · intro s' rng' heq
    unfold placeFirstWord at heq
    by_cases hA : canPlace nfc W H s clue
        (Int.fdiv (W - clue.graphemes.length) 2) (Int.fdiv H 2) .ACROSS <;>
      by_cases hD : canPlace nfc W H s clue
        (Int.fdiv (W - clue.graphemes.length) 2) (Int.fdiv H 2) .DOWN
    all_goals
      simp only [firstWordOptions, hA, hD, if_true, if_false,
        Bool.false_eq_true, List.nil_append, List.singleton_append] at heq
    · -- both valid: options = [ACROSS, DOWN], equal scores → ACROSS first
      have hsort : List.insertionSort (firstOptionLE false)
          [FirstOption.mk Direction.ACROSS
            (countSharedWith clue remainingWords) (rng.next).1,
           FirstOption.mk Direction.DOWN
            (countSharedWith clue remainingWords) ((rng.next).2.next).1] =
          [FirstOption.mk Direction.ACROSS
            (countSharedWith clue remainingWords) (rng.next).1,
           FirstOption.mk Direction.DOWN
            (countSharedWith clue remainingWords) ((rng.next).2.next).1] := by
        have hcond : firstOptionLE false
            (FirstOption.mk Direction.ACROSS
              (countSharedWith clue remainingWords) (rng.next).1)
            (FirstOption.mk Direction.DOWN
              (countSharedWith clue remainingWords) ((rng.next).2.next).1) :=
          Or.inr ⟨rfl, Or.inl rfl⟩
        rw [List.insertionSort, List.insertionSort, List.insertionSort,
          List.orderedInsert, List.orderedInsert, if_pos hcond]
      rw [hsort] at heq
      dsimp only at heq
      rw [Prod.mk.injEq, Option.some.injEq] at heq
      refine ⟨newPlacementOf s clue (Int.fdiv (W - clue.graphemes.length) 2)
        (Int.fdiv H 2) Direction.ACROSS, ?_, rfl, rfl, rfl, fun _ => rfl⟩
      rw [← heq.1]
      exact commit_placements W H s clue _ _ Direction.ACROSS
    · -- only ACROSS valid
      have hsort : List.insertionSort (firstOptionLE false)
          [FirstOption.mk Direction.ACROSS
            (countSharedWith clue remainingWords) (rng.next).1] =
          [FirstOption.mk Direction.ACROSS
            (countSharedWith clue remainingWords) (rng.next).1] := by
        rw [List.insertionSort, List.insertionSort, List.orderedInsert]
      rw [hsort] at heq
      dsimp only at heq
      rw [Prod.mk.injEq, Option.some.injEq] at heq
      refine ⟨newPlacementOf s clue (Int.fdiv (W - clue.graphemes.length) 2)
        (Int.fdiv H 2) Direction.ACROSS, ?_, rfl, rfl, rfl,
        fun hAD => absurd hAD.2 (by simpa using hD)⟩
      rw [← heq.1]
      exact commit_placements W H s clue _ _ Direction.ACROSS
    · -- only DOWN valid
      have hsort : List.insertionSort (firstOptionLE false)
          [FirstOption.mk Direction.DOWN
            (countSharedWith clue remainingWords) (rng.next).1] =
          [FirstOption.mk Direction.DOWN
            (countSharedWith clue remainingWords) (rng.next).1] := by
        rw [List.insertionSort, List.insertionSort, List.orderedInsert]
      rw [hsort] at heq
      dsimp only at heq
      rw [Prod.mk.injEq, Option.some.injEq] at heq
      refine ⟨newPlacementOf s clue (Int.fdiv (W - clue.graphemes.length) 2)
        (Int.fdiv H 2) Direction.DOWN, ?_, rfl, rfl, rfl,
        fun hAD => absurd hAD.1 (by simpa using hA)⟩
      rw [← heq.1]
      exact commit_placements W H s clue _ _ Direction.DOWN
    · -- neither valid: no success
      rw [List.insertionSort] at heq
      dsimp only at heq
      exact absurd heq (by simp)

/-! ### Shrink-to-fit cropping (C5) -/

/-- X coordinate of the last cell of a placement, as used by the
bounding-box loop. -/
def lastCellX (p : WordPlacement) : Int :=
  if p.direction = .ACROSS then p.startX + p.clueItem.graphemes.length - 1
  else p.startX

/-- Y coordinate of the last cell of a placement. -/
def lastCellY (p : WordPlacement) : Int :=
  if p.direction = .ACROSS then p.startY
  else p.startY + p.clueItem.graphemes.length - 1

/-- The four bounding-box variables of the shrink-to-fit logic. -/
structure CropBox where
  minX : Int
  maxX : Int
  minY : Int
  maxY : Int
deriving DecidableEq, Repr

/-- One iteration of the bounding-box loop; unplaced rows are skipped. -/
def cropStep (box : CropBox) (p : WordPlacement) : CropBox :=
  if p.placed = true then
    { minX := min box.minX p.startX
      maxX := if p.direction = .ACROSS then
          max box.maxX (p.startX + p.clueItem.graphemes.length - 1)
        else max box.maxX p.startX
      minY := min box.minY p.startY
      maxY := if p.direction = .ACROSS then max box.maxY p.startY
        else max box.maxY (p.startY + p.clueItem.graphemes.length - 1) }
  else box

/-- The bounding box of the placed words: the fold of the source loop
when there are placements, the whole original grid otherwise. -/
def cropBox (W H : Int) (ps : List WordPlacement) : CropBox :=
  if 0 < ps.length then ps.foldl cropStep ⟨W, 0, H, 0⟩
  else ⟨0, W - 1, 0, H - 1⟩

/-- The spread applied to each placement: start coordinates shifted by
the bounding-box minimum. -/
def shiftPlacement (minX minY : Int) (p : WordPlacement) : WordPlacement :=
  { p with startX := p.startX - minX, startY := p.startY - minY }

/-- One cell write of the repopulation loop: when the target cell exists
the grapheme overwrites unconditionally and the word id is appended. -/
def repopStep (Wn Hn : Int) (p : WordPlacement) (g : Grid) (i : Nat) : Grid :=
  match p.clueItem.graphemes[i]? with
  | none => g
  | some gr =>
    let x := cellX p.startX p.direction i
    let y := cellY p.startY p.direction i
    if 0 ≤ y ∧ y < Hn ∧ 0 ≤ x ∧ x < Wn then
      fun a b =>
        if a = x ∧ b = y then
          { grapheme := some gr, wordIds := (g x y).wordIds ++ [p.wordId] }
        else g a b
    else g

/-- Repopulate the cropped grid from one shifted placement. -/
def repopulate (Wn Hn : Int) (g : Grid) (p : WordPlacement) : Grid :=
  (List.range p.clueItem.graphemes.length).foldl (repopStep Wn Hn p) g

/-- What the shrink-to-fit tail of `generatePuzzle` returns. -/
structure CroppedPuzzle where
  grid : Grid
  placements : List WordPlacement
  gridWidth : Int
  gridHeight : Int

/-- The shrink-to-fit tail of `generatePuzzle`: bounding box, clamp of
the new dimensions, shift of the placements, repopulation of a fresh
grid. -/
def cropPuzzle (W H : Int) (ps : List WordPlacement) : CroppedPuzzle :=
  let box := cropBox W H ps
  let newWidth := max 0 (box.maxX - box.minX + 1)
  let newHeight := max 0 (box.maxY - box.minY + 1)
  let newPlacements := ps.map (shiftPlacement box.minX box.minY)
  { grid := newPlacements.foldl (repopulate newWidth newHeight) createEmptyGrid
    placements := newPlacements
    gridWidth := newWidth
    gridHeight := newHeight }

lemma cropStep_unplaced (box : CropBox) (p : WordPlacement)
    (hp : p.placed = false) : cropStep box p = box := by
  simp [cropStep, hp]

lemma cropStep_placed (box : CropBox) (p : WordPlacement)
    (hp : p.placed = true) :
    cropStep box p = ⟨min box.minX p.startX, max box.maxX (lastCellX p),
      min box.minY p.startY, max box.maxY (lastCellY p)⟩ := by
  cases hd : p.direction <;>
    simp [cropStep, hp, lastCellX, lastCellY, hd]

lemma cropStep_minX (box : CropBox) (p : WordPlacement) :
    (cropStep box p).minX =
      if p.placed = true then min box.minX p.startX else box.minX := by
  cases hp : p.placed
  · rw [cropStep_unplaced box p hp, if_neg Bool.false_ne_true]
  · rw [cropStep_placed box p hp, if_pos rfl]

lemma cropStep_maxX (box : CropBox) (p : WordPlacement) :
    (cropStep box p).maxX =
      if p.placed = true then max box.maxX (lastCellX p) else box.maxX := by
  cases hp : p.placed
  · rw [cropStep_unplaced box p hp, if_neg Bool.false_ne_true]
  · rw [cropStep_placed box p hp, if_pos rfl]

lemma cropStep_minY (box : CropBox) (p : WordPlacement) :
    (cropStep box p).minY =
      if p.placed = true then min box.minY p.startY else box.minY := by
  cases hp : p.placed
  · rw [cropStep_unplaced box p hp, if_neg Bool.false_ne_true]
  · rw [cropStep_placed box p hp, if_pos rfl]

lemma cropStep_maxY (box : CropBox) (p : WordPlacement) :
    (cropStep box p).maxY =
      if p.placed = true then max box.maxY (lastCellY p) else box.maxY := by
  cases hp : p.placed
  · rw [cropStep_unplaced box p hp, if_neg Bool.false_ne_true]
  · rw [cropStep_placed box p hp, if_pos rfl]

lemma cropFold_minX (ps : List WordPlacement) : ∀ box : CropBox,
    (ps.foldl cropStep box).minX =
      ps.foldl (fun b p => if p.placed = true then min b p.startX else b)
        box.minX := by
  induction ps with
  | nil => intro box; rfl
  | cons q ps ih =>
    intro box
    rw [List.foldl_cons, List.foldl_cons, ih (cropStep box q), cropStep_minX]

lemma cropFold_maxX (ps : List WordPlacement) : ∀ box : CropBox,
    (ps.foldl cropStep box).maxX =
      ps.foldl (fun b p => if p.placed = true then max b (lastCellX p) else b)
        box.maxX := by
  induction ps with
  | nil => intro box; rfl
  | cons q ps ih =>
    intro box
    rw [List.foldl_cons, List.foldl_cons, ih (cropStep box q), cropStep_maxX]

lemma cropFold_minY (ps : List WordPlacement) : ∀ box : CropBox,
    (ps.foldl cropStep box).minY =
      ps.foldl (fun b p => if p.placed = true then min b p.startY else b)
        box.minY := by
  induction ps with
  | nil => intro box; rfl
  | cons q ps ih =>
    intro box
    rw [List.foldl_cons, List.foldl_cons, ih (cropStep box q), cropStep_minY]

lemma cropFold_maxY (ps : List WordPlacement) : ∀ box : CropBox,
    (ps.foldl cropStep box).maxY =
      ps.foldl (fun b p => if p.placed = true then max b (lastCellY p) else b)
        box.maxY := by
  induction ps with
  | nil => intro box; rfl
  | cons q ps ih =>
    intro box
    rw [List.foldl_cons, List.foldl_cons, ih (cropStep box q), cropStep_maxY]

lemma foldl_min_facts (f : WordPlacement → Int) (ps : List WordPlacement) :
    ∀ a : Int,
      ps.foldl (fun b p => if p.placed = true then min b (f p) else b) a
          ≤ a ∧
      (∀ p ∈ ps, p.placed = true →
        ps.foldl (fun b p => if p.placed = true then min b (f p) else b) a
          ≤ f p) ∧
      (ps.foldl (fun b p => if p.placed = true then min b (f p) else b) a
          = a ∨
        ∃ p ∈ ps, p.placed = true ∧
          ps.foldl (fun b p => if p.placed = true then min b (f p) else b) a
            = f p) := by
  induction ps with
  | nil => intro a; exact ⟨le_refl a, by simp, Or.inl rfl⟩
  | cons q ps ih =>
    intro a
    rw [List.foldl_cons]
    cases hq : q.placed with
    | false =>
      rw [if_neg Bool.false_ne_true]
      rcases ih a with ⟨h1, h2, h3⟩
      refine ⟨h1, ?_, ?_⟩
      · intro p hp hpl
        rcases List.mem_cons.mp hp with rfl | hp'
        · rw [hq] at hpl; exact absurd hpl Bool.false_ne_true
        · exact h2 p hp' hpl
      · rcases h3 with h3 | ⟨p, hp, hpl, he⟩
        · exact Or.inl h3
        · exact Or.inr ⟨p, List.mem_cons_of_mem q hp, hpl, he⟩
    | true =>
      rw [if_pos rfl]
      rcases ih (min a (f q)) with ⟨h1, h2, h3⟩
      refine ⟨le_trans h1 (min_le_left _ _), ?_, ?_⟩
      · intro p hp hpl
        rcases List.mem_cons.mp hp with rfl | hp'
        · exact le_trans h1 (min_le_right _ _)
        · exact h2 p hp' hpl
      · rcases h3 with h3 | ⟨p, hp, hpl, he⟩
        · rcases min_choice a (f q) with hm | hm
          · exact Or.inl (h3.trans hm)
          · exact Or.inr ⟨q, List.mem_cons_self q ps, hq, h3.trans hm⟩
        · exact Or.inr ⟨p, List.mem_cons_of_mem q hp, hpl, he⟩

lemma foldl_max_facts (f : WordPlacement → Int) (ps : List WordPlacement) :
    ∀ a : Int,
      a ≤ ps.foldl (fun b p => if p.placed = true then max b (f p) else b)
          a ∧
      (∀ p ∈ ps, p.placed = true →
        f p ≤
          ps.foldl (fun b p => if p.placed = true then max b (f p) else b)
            a) ∧
      (ps.foldl (fun b p => if p.placed = true then max b (f p) else b) a
          = a ∨
        ∃ p ∈ ps, p.placed = true ∧
          ps.foldl (fun b p => if p.placed = true then max b (f p) else b) a
            = f p) := by
  induction ps with
  | nil => intro a; exact ⟨le_refl a, by simp, Or.inl rfl⟩
  | cons q ps ih =>
    intro a
    rw [List.foldl_cons]
    cases hq : q.placed with
    | false =>
      rw [if_neg Bool.false_ne_true]
      rcases ih a with ⟨h1, h2, h3⟩
      refine ⟨h1, ?_, ?_⟩
      · intro p hp hpl
        rcases List.mem_cons.mp hp with rfl | hp'
        · rw [hq] at hpl; exact absurd hpl Bool.false_ne_true
        · exact h2 p hp' hpl
      · rcases h3 with h3 | ⟨p, hp, hpl, he⟩
        · exact Or.inl h3
        · exact Or.inr ⟨p, List.mem_cons_of_mem q hp, hpl, he⟩
    | true =>
      rw [if_pos rfl]
      rcases ih (max a (f q)) with ⟨h1, h2, h3⟩
      refine ⟨le_trans (le_max_left _ _) h1, ?_, ?_⟩
      · intro p hp hpl
        rcases List.mem_cons.mp hp with rfl | hp'
        · exact le_trans (le_max_right _ _) h1
        · exact h2 p hp' hpl
      · rcases h3 with h3 | ⟨p, hp, hpl, he⟩
        · rcases max_choice a (f q) with hm | hm
          · exact Or.inl (h3.trans hm)
          · exact Or.inr ⟨q, List.mem_cons_self q ps, hq, h3.trans hm⟩
        · exact Or.inr ⟨p, List.mem_cons_of_mem q hp, hpl, he⟩

lemma placed_geometry (W H : Int) (p : WordPlacement)
    (hbnd : checkBounds W H p.startX p.startY p.clueItem.graphemes.length
      p.direction = true)
    (hg : p.clueItem.graphemes ≠ []) :
    0 ≤ p.startX ∧ 0 ≤ p.startY ∧ p.startX ≤ lastCellX p ∧
      p.startY ≤ lastCellY p ∧ lastCellX p < W ∧ lastCellY p < H := by
  have hlen : 1 ≤ p.clueItem.graphemes.length := List.length_pos.mpr hg
  by_cases hneg : p.startX < 0 ∨ p.startY < 0
  · rw [checkBounds, if_pos hneg] at hbnd
    exact absurd hbnd Bool.false_ne_true
  · rw [checkBounds, if_neg hneg] at hbnd
    push_neg at hneg
    cases hd : p.direction
    · rw [hd, if_pos rfl, decide_eq_true_eq] at hbnd
      have hx : lastCellX p = p.startX + p.clueItem.graphemes.length - 1 := by
        simp [lastCellX, hd]
      have hy : lastCellY p = p.startY := by simp [lastCellY, hd]
      rw [hx, hy]
      omega
    · rw [hd, if_neg (by simp), decide_eq_true_eq] at hbnd
      have hx : lastCellX p = p.startX := by simp [lastCellX, hd]
      have hy : lastCellY p = p.startY + p.clueItem.graphemes.length - 1 := by
        simp [lastCellY, hd]
      rw [hx, hy]
      omega

lemma lastCellX_shift (a b : Int) (p : WordPlacement) :
    lastCellX (shiftPlacement a b p) = lastCellX p - a := by
  cases hd : p.direction <;>
    simp [lastCellX, shiftPlacement, hd] <;> ring

lemma lastCellY_shift (a b : Int) (p : WordPlacement) :
    lastCellY (shiftPlacement a b p) = lastCellY p - b := by
  cases hd : p.direction <;>
    simp [lastCellY, shiftPlacement, hd] <;> ring

/-- C5: with every placed word in bounds and carrying at least one
grapheme, the cropped result is tight: the minimum shifted start
coordinate is 0 on both axes (bounded below by 0 and attained), the
maximum last-cell coordinate equals the new dimension minus 1 on both
axes (bounded above and attained); with no placements the original
dimensions are kept and the returned grid is entirely empty. -/
theorem C5_crop_tight (W H : Int) (ps : List WordPlacement)
    (hW : 0 ≤ W) (hH : 0 ≤ H)
    (hb : ∀ p ∈ ps, p.placed = true →
      checkBounds W H p.startX p.startY p.clueItem.graphemes.length
          p.direction = true ∧ p.clueItem.graphemes ≠ []) :
    ((∃ p ∈ ps, p.placed = true) →
      (∀ q ∈ (cropPuzzle W H ps).placements, q.placed = true →
          0 ≤ q.startX ∧ 0 ≤ q.startY ∧
          lastCellX q ≤ (cropPuzzle W H ps).gridWidth - 1 ∧
          lastCellY q ≤ (cropPuzzle W H ps).gridHeight - 1) ∧
      (∃ q ∈ (cropPuzzle W H ps).placements,
        q.placed = true ∧ q.startX = 0) ∧
      (∃ q ∈ (cropPuzzle W H ps).placements,
        q.placed = true ∧ q.startY = 0) ∧
      (∃ q ∈ (cropPuzzle W H ps).placements, q.placed = true ∧
          lastCellX q = (cropPuzzle W H ps).gridWidth - 1) ∧
      (∃ q ∈ (cropPuzzle W H ps).placements, q.placed = true ∧
          lastCellY q = (cropPuzzle W H ps).gridHeight - 1)) ∧
    (ps = [] →
      (cropPuzzle W H ps).gridWidth = W ∧
      (cropPuzzle W H ps).gridHeight = H ∧
      ∀ x y : Int, (cropPuzzle W H ps).grid x y = emptyCell) := by
  constructor
  · rintro ⟨p0, hp0, hpl0⟩
    have hlenpos : 0 < ps.length :=
      List.length_pos.mpr (List.ne_nil_of_mem hp0)
    have hboxeq : cropBox W H ps = ps.foldl cropStep ⟨W, 0, H, 0⟩ := by
      simp [cropBox, hlenpos]
    have eX : (cropBox W H ps).minX =
        ps.foldl (fun b p => if p.placed = true then min b p.startX else b)
          W := by
      rw [hboxeq]; exact cropFold_minX ps ⟨W, 0, H, 0⟩
    have eMX : (cropBox W H ps).maxX =
        ps.foldl
          (fun b p => if p.placed = true then max b (lastCellX p) else b)
          0 := by
      rw [hboxeq]; exact cropFold_maxX ps ⟨W, 0, H, 0⟩
    have eY : (cropBox W H ps).minY =
        ps.foldl (fun b p => if p.placed = true then min b p.startY else b)
          H := by
      rw [hboxeq]; exact cropFold_minY ps ⟨W, 0, H, 0⟩
    have eMY : (cropBox W H ps).maxY =
        ps.foldl
          (fun b p => if p.placed = true then max b (lastCellY p) else b)
          0 := by
      rw [hboxeq]; exact cropFold_maxY ps ⟨W, 0, H, 0⟩
    obtain ⟨hX0, hX_le, hX_at⟩ :
        ps.foldl (fun b p => if p.placed = true then min b p.startX else b)
            W ≤ W ∧
        (∀ p ∈ ps, p.placed = true →
          ps.foldl
              (fun b p => if p.placed = true then min b p.startX else b) W
            ≤ p.startX) ∧
        (ps.foldl (fun b p => if p.placed = true then min b p.startX else b)
              W = W ∨
          ∃ p ∈ ps, p.placed = true ∧
            ps.foldl
                (fun b p => if p.placed = true then min b p.startX else b) W
              = p.startX) :=
      foldl_min_facts (fun p => p.startX) ps W
    obtain ⟨hY0, hY_le, hY_at⟩ :
        ps.foldl (fun b p => if p.placed = true then min b p.startY else b)
            H ≤ H ∧
        (∀ p ∈ ps, p.placed = true →
          ps.foldl
              (fun b p => if p.placed = true then min b p.startY else b) H
            ≤ p.startY) ∧
        (ps.foldl (fun b p => if p.placed = true then min b p.startY else b)
              H = H ∨
          ∃ p ∈ ps, p.placed = true ∧
            ps.foldl
                (fun b p => if p.placed = true then min b p.startY else b) H
              = p.startY) :=
      foldl_min_facts (fun p => p.startY) ps H
    obtain ⟨hMX0, hMX_le, hMX_at⟩ :
        (0 : Int) ≤ ps.foldl
            (fun b p => if p.placed = true then max b (lastCellX p) else b)
            0 ∧
        (∀ p ∈ ps, p.placed = true →
          lastCellX p ≤ ps.foldl
              (fun b p => if p.placed = true then max b (lastCellX p) else b)
              0) ∧
        (ps.foldl
              (fun b p => if p.placed = true then max b (lastCellX p) else b)
              0 = 0 ∨
          ∃ p ∈ ps, p.placed = true ∧
            ps.foldl
                (fun b p =>
                  if p.placed = true then max b (lastCellX p) else b) 0
              = lastCellX p) :=
      foldl_max_facts (fun p => lastCellX p) ps 0
    obtain ⟨hMY0, hMY_le, hMY_at⟩ :
        (0 : Int) ≤ ps.foldl
            (fun b p => if p.placed = true then max b (lastCellY p) else b)
            0 ∧
        (∀ p ∈ ps, p.placed = true →
          lastCellY p ≤ ps.foldl
              (fun b p => if p.placed = true then max b (lastCellY p) else b)
              0) ∧
        (ps.foldl
              (fun b p => if p.placed = true then max b (lastCellY p) else b)
              0 = 0 ∨
          ∃ p ∈ ps, p.placed = true ∧
            ps.foldl
                (fun b p =>
                  if p.placed = true then max b (lastCellY p) else b) 0
              = lastCellY p) :=
      foldl_max_facts (fun p => lastCellY p) ps 0
    rw [← eX] at hX0 hX_le hX_at
    rw [← eY] at hY0 hY_le hY_at
    rw [← eMX] at hMX0 hMX_le hMX_at
    rw [← eMY] at hMY0 hMY_le hMY_at
    have hgeo : ∀ p ∈ ps, p.placed = true →
        0 ≤ p.startX ∧ 0 ≤ p.startY ∧ p.startX ≤ lastCellX p ∧
          p.startY ≤ lastCellY p ∧ lastCellX p < W ∧ lastCellY p < H :=
      fun p hp hpl =>
        placed_geometry W H p (hb p hp hpl).1 (hb p hp hpl).2
    have hX_att : ∃ p ∈ ps, p.placed = true ∧
        (cropBox W H ps).minX = p.startX := by
      rcases hX_at with h | h
      · exfalso
        have h1 := hX_le p0 hp0 hpl0
        have h2 := hgeo p0 hp0 hpl0
        omega
      · exact h
    have hY_att : ∃ p ∈ ps, p.placed = true ∧
        (cropBox W H ps).minY = p.startY := by
      rcases hY_at with h | h
      · exfalso
        have h1 := hY_le p0 hp0 hpl0
        have h2 := hgeo p0 hp0 hpl0
        omega
      · exact h
    have hMX_att : ∃ p ∈ ps, p.placed = true ∧
        (cropBox W H ps).maxX = lastCellX p := by
      rcases hMX_at with h | h
      · refine ⟨p0, hp0, hpl0, ?_⟩
        have h1 := hMX_le p0 hp0 hpl0
        have h2 := hgeo p0 hp0 hpl0
        omega
      · exact h
    have hMY_att : ∃ p ∈ ps, p.placed = true ∧
        (cropBox W H ps).maxY = lastCellY p := by
      rcases hMY_at with h | h
      · refine ⟨p0, hp0, hpl0, ?_⟩
        have h1 := hMY_le p0 hp0 hpl0
        have h2 := hgeo p0 hp0 hpl0
        omega
      · exact h
    obtain ⟨pmx, hpmx, hplmx, hmx⟩ := hX_att
    obtain ⟨pmy, hpmy, hplmy, hmy⟩ := hY_att
    obtain ⟨pMx, hpMx, hplMx, hMx⟩ := hMX_att
    obtain ⟨pMy, hpMy, hplMy, hMy⟩ := hMY_att
    have hXle : (cropBox W H ps).minX ≤ (cropBox W H ps).maxX := by
      have h1 := hX_le pMx hpMx hplMx
      have h2 := (hgeo pMx hpMx hplMx).2.2.1
      omega
    have hYle : (cropBox W H ps).minY ≤ (cropBox W H ps).maxY := by
      have h1 := hY_le pMy hpMy hplMy
      have h2 := (hgeo pMy hpMy hplMy).2.2.2.1
      omega
    have hwidth : (cropPuzzle W H ps).gridWidth =
        (cropBox W H ps).maxX - (cropBox W H ps).minX + 1 := by
      show max 0 ((cropBox W H ps).maxX - (cropBox W H ps).minX + 1) = _
      omega
    have hheight : (cropPuzzle W H ps).gridHeight =
        (cropBox W H ps).maxY - (cropBox W H ps).minY + 1 := by
      show max 0 ((cropBox W H ps).maxY - (cropBox W H ps).minY + 1) = _
      omega
    have hplacements : (cropPuzzle W H ps).placements =
        ps.map
          (shiftPlacement (cropBox W H ps).minX (cropBox W H ps).minY) :=
      rfl
    refine ⟨?_, ?_, ?_, ?_, ?_⟩
    · intro q hq hql
      rw [hplacements] at hq
      obtain ⟨p, hp, rfl⟩ := List.mem_map.mp hq
      have hql' : p.placed = true := hql
      have h1 := hX_le p hp hql'
      have h2 := hY_le p hp hql'
      have h3 := hMX_le p hp hql'
      have h4 := hMY_le p hp hql'
      refine ⟨?_, ?_, ?_, ?_⟩
      · show 0 ≤ p.startX - (cropBox W H ps).minX
        omega
      · show 0 ≤ p.startY - (cropBox W H ps).minY
        omega
      · rw [lastCellX_shift, hwidth]; omega
      · rw [lastCellY_shift, hheight]; omega
    · rw [hplacements]
      refine ⟨shiftPlacement (cropBox W H ps).minX (cropBox W H ps).minY
        pmx, List.mem_map_of_mem _ hpmx, hplmx, ?_⟩
      show pmx.startX - (cropBox W H ps).minX = 0
      omega
    · rw [hplacements]
      refine ⟨shiftPlacement (cropBox W H ps).minX (cropBox W H ps).minY
        pmy, List.mem_map_of_mem _ hpmy, hplmy, ?_⟩
      show pmy.startY - (cropBox W H ps).minY = 0
      omega
    · rw [hplacements]
      refine ⟨shiftPlacement (cropBox W H ps).minX (cropBox W H ps).minY
        pMx, List.mem_map_of_mem _ hpMx, hplMx, ?_⟩
      rw [lastCellX_shift, hwidth]; omega
    · rw [hplacements]
      refine ⟨shiftPlacement (cropBox W H ps).minX (cropBox W H ps).minY
        pMy, List.mem_map_of_mem _ hpMy, hplMy, ?_⟩
      rw [lastCellY_shift, hheight]; omega
  · rintro rfl
    have hbox : cropBox W H [] = ⟨0, W - 1, 0, H - 1⟩ := by
      simp [cropBox]
    refine ⟨?_, ?_, fun x y => rfl⟩
    · show max 0 ((cropBox W H []).maxX - (cropBox W H []).minX + 1) = W
      rw [hbox]
      show max 0 (W - 1 - 0 + 1) = W
      omega
    · show max 0 ((cropBox W H []).maxY - (cropBox W H []).minY + 1) = H
      rw [hbox]
      show max 0 (H - 1 - 0 + 1) = H
      omega

/-- A concrete placement list for exercising the cropping theorem. -/
def c5Sample : List WordPlacement :=
  [{ wordId := 1, clueItem := ⟨["a", "b"], "ab", "c"⟩, startX := 2,
     startY := 1, direction := Direction.ACROSS, placed := true }]

/-- Witness: the cropping theorem applied to one placed two-grapheme
ACROSS word at (2, 1) on a 5 by 4 grid. -/
theorem C5_crop_tight_witness :
    (0 ≤ (5 : Int)) ∧ (0 ≤ (4 : Int)) ∧
    (∀ p ∈ c5Sample, p.placed = true →
      checkBounds 5 4 p.startX p.startY p.clueItem.graphemes.length
          p.direction = true ∧ p.clueItem.graphemes ≠ []) ∧
    (((∃ p ∈ c5Sample, p.placed = true) →
      (∀ q ∈ (cropPuzzle 5 4 c5Sample).placements, q.placed = true →
          0 ≤ q.startX ∧ 0 ≤ q.startY ∧
          lastCellX q ≤ (cropPuzzle 5 4 c5Sample).gridWidth - 1 ∧
          lastCellY q ≤ (cropPuzzle 5 4 c5Sample).gridHeight - 1) ∧
      (∃ q ∈ (cropPuzzle 5 4 c5Sample).placements,
        q.placed = true ∧ q.startX = 0) ∧
      (∃ q ∈ (cropPuzzle 5 4 c5Sample).placements,
        q.placed = true ∧ q.startY = 0) ∧
      (∃ q ∈ (cropPuzzle 5 4 c5Sample).placements, q.placed = true ∧
          lastCellX q = (cropPuzzle 5 4 c5Sample).gridWidth - 1) ∧
      (∃ q ∈ (cropPuzzle 5 4 c5Sample).placements, q.placed = true ∧
          lastCellY q = (cropPuzzle 5 4 c5Sample).gridHeight - 1)) ∧
    (c5Sample = [] →
      (cropPuzzle 5 4 c5Sample).gridWidth = 5 ∧
      (cropPuzzle 5 4 c5Sample).gridHeight = 4 ∧
      ∀ x y : Int, (cropPuzzle 5 4 c5Sample).grid x y = emptyCell)) :=
  ⟨by decide, by decide, by decide,
    C5_crop_tight 5 4 c5Sample (by decide) (by decide) (by decide)⟩

/-! ### Manual-advanced validation (C3)

The placement validator of `persistence.service.ts`. The manual grid is
the same cell type as the engine grid, addressed `(row, col)`; cells
never written hold no grapheme, matching reads of missing array
entries. -/

namespace Manual

/-- `ManualPlacement`: user-supplied placement input. -/
structure ManualPlacement where
  word : String
  clue : String
  row : Int
  col : Int
  direction : Direction
deriving DecidableEq, Repr

/-- `PlacementError`: one validation failure. -/
structure PlacementError where
  index : Nat
  word : String
  error : String
deriving DecidableEq, Repr

/-- `CrosswordPuzzle` as assembled by the validator. -/
structure CrosswordPuzzle where
  grid : Grid
  gridWidth : Int
  gridHeight : Int
  placements : List WordPlacement
  unplacedWords : List ClueItem

/-- `ValidationResult`. -/
structure ValidationResult where
  valid : Bool
  errors : List PlacementError
  puzzle : Option CrosswordPuzzle

/-- `checkBounds` of the manual validator: an error message or `null`. -/
def checkBounds (graphemes : List String) (row col : Int)
    (direction : Direction) (gridWidth gridHeight : Int) : Option String :=
  if row < 0 ∨ row ≥ gridHeight then
    some s!"Row {row} is out of bounds (0-{gridHeight - 1})"
  else if col < 0 ∨ col ≥ gridWidth then
    some s!"Column {col} is out of bounds (0-{gridWidth - 1})"
  else
    let endRow := if direction = .DOWN then row + graphemes.length - 1
      else row
    let endCol := if direction = .ACROSS then col + graphemes.length - 1
      else col
    if endRow ≥ gridHeight then
      some s!"Word extends beyond grid (row {endRow} >= {gridHeight})"
    else if endCol ≥ gridWidth then
      some s!"Word extends beyond grid (col {endCol} >= {gridWidth})"
    else none

/-- One index of the `checkConflicts` loop: a cell occupied by a truthy
grapheme that differs from the incoming one is a conflict. -/
def conflictAt (grid : Grid) (graphemes : List String) (row col : Int)
    (direction : Direction) (i : Nat) : Option String :=
  match graphemes[i]? with
  | none => none
  | some g =>
    let cellRow := if direction = .DOWN then row + i else row
    let cellCol := if direction = .ACROSS then col + i else col
    match (grid cellRow cellCol).grapheme with
    | none => none
    | some eg =>
      if eg = "" then none
      else if eg ≠ g then
        some s!"Conflict at ({cellRow}, {cellCol}): expected \"{g}\" but cell has \"{eg}\""
      else none

/-- `checkConflicts`: the first conflicting cell, scanned left to
right. -/
def checkConflicts (grid : Grid) (graphemes : List String) (row col : Int)
    (direction : Direction) : Option String :=
  (List.range graphemes.length).findSome?
    (conflictAt grid graphemes row col direction)

/-- `placeWord`: write every grapheme unconditionally and append the
word id. -/
def placeWord (grid : Grid) (graphemes : List String) (row col : Int)
    (direction : Direction) (wordId : Nat) : Grid :=
  (List.range graphemes.length).foldl
    (fun g (i : Nat) =>
      match graphemes[i]? with
      | none => g
      | some gr =>
        let cellRow := if direction = .DOWN then row + i else row
        let cellCol := if direction = .ACROSS then col + i else col
        fun a b =>
          if a = cellRow ∧ b = cellCol then
            { grapheme := some gr,
              wordIds := (g cellRow cellCol).wordIds ++ [wordId] }
          else g a b)
    grid

/-- One iteration of the validation loop over placement index `i`:
record an error and continue, or place the word. -/
def validateStep (clueItems : List ClueItem)
    (placements : List ManualPlacement) (W H : Int)
    (st : Grid × List PlacementError) (i : Nat) :
    Grid × List PlacementError :=
  match placements[i]?, clueItems[i]? with
  | some placement, some clueItem =>
    let graphemes := clueItem.graphemes
    match checkBounds graphemes placement.row placement.col
        placement.direction W H with
    | some err => (st.1, st.2 ++ [⟨i, placement.word, err⟩])
    | none =>
      match checkConflicts st.1 graphemes placement.row placement.col
          placement.direction with
      | some err => (st.1, st.2 ++ [⟨i, placement.word, err⟩])
      | none =>
        (placeWord st.1 graphemes placement.row placement.col
          placement.direction (i + 1), st.2)
  | some placement, none =>
    (st.1, st.2 ++ [⟨i, placement.word, "Missing placement or clue data"⟩])
  | none, _ =>
    (st.1, st.2 ++ [⟨i, "unknown", "Missing placement or clue data"⟩])

/-- The validation loop: empty grid and error list threaded over every
placement index. -/
def runValidation (placements : List ManualPlacement)
    (clueItems : List ClueItem) (W H : Int) :
    Grid × List PlacementError :=
  (List.range placements.length).foldl
    (validateStep clueItems placements W H) (createEmptyGrid, [])

/-- `validateManualPlacements`. -/
def validateManualPlacements (placements : List ManualPlacement)
    (clueItems : List ClueItem) (W H : Int) : ValidationResult :=
  if 0 < (runValidation placements clueItems W H).2.length then
    { valid := false, errors := (runValidation placements clueItems W H).2,
      puzzle := none }
  else
    { valid := true, errors := [],
      puzzle := some
        { grid := (runValidation placements clueItems W H).1
          gridWidth := W
          gridHeight := H
          placements := placements.mapIdx fun i p =>
            { wordId := i + 1, clueItem := (clueItems[i]?).getD ⟨[], "", ""⟩,
              startX := p.col, startY := p.row, direction := p.direction,
              placed := true }
          unplacedWords := [] } }

end Manual

lemma step_errors_sub (cs : List ClueItem)
    (ps : List Manual.ManualPlacement) (W H : Int)
    (st : Grid × List Manual.PlacementError) (i : Nat) :
    ∃ t, (Manual.validateStep cs ps W H st i).2 = st.2 ++ t ∧
      (t.map fun e => e.index).Sublist [i] := by
  unfold Manual.validateStep
  rcases hp : ps[i]? with _ | p <;> rcases hc : cs[i]? with _ | c
  · exact ⟨[⟨i, "unknown", "Missing placement or clue data"⟩], rfl,
      List.Sublist.refl _⟩
  · exact ⟨[⟨i, "unknown", "Missing placement or clue data"⟩], rfl,
      List.Sublist.refl _⟩
  · exact ⟨[⟨i, p.word, "Missing placement or clue data"⟩], rfl,
      List.Sublist.refl _⟩
  · dsimp only
    rcases hb : Manual.checkBounds c.graphemes p.row p.col p.direction W H
        with _ | err
    · rcases hcf : Manual.checkConflicts st.1 c.graphemes p.row p.col
          p.direction with _ | err2
      · exact ⟨[], (List.append_nil _).symm, List.nil_sublist _⟩
      · exact ⟨[⟨i, p.word, err2⟩], rfl, List.Sublist.refl _⟩
    · exact ⟨[⟨i, p.word, err⟩], rfl, List.Sublist.refl _⟩

lemma run_errors_sub (cs : List ClueItem)
    (ps : List Manual.ManualPlacement) (W H : Int) :
    ∀ (l : List Nat) (st : Grid × List Manual.PlacementError),
      ∃ t, (l.foldl (Manual.validateStep cs ps W H) st).2 = st.2 ++ t ∧
        (t.map fun e => e.index).Sublist l := by
  intro l
  induction l with
  | nil =>
    intro st
    exact ⟨[], (List.append_nil _).symm, List.nil_sublist _⟩
  | cons i l ih =>
    intro st
    rw [List.foldl_cons]
    obtain ⟨t0, h0, hs0⟩ := step_errors_sub cs ps W H st i
    obtain ⟨t1, h1, hs1⟩ := ih (Manual.validateStep cs ps W H st i)
    refine ⟨t0 ++ t1, ?_, ?_⟩
    · rw [h1, h0, List.append_assoc]
    · rw [List.map_append]
      exact List.Sublist.append hs0 hs1

lemma forall2_mapIdx {α β : Type} (R : β → α → Prop) :
    ∀ (ps : List α) (f : Nat → α → β), (∀ i p, R (f i p) p) →
      List.Forall₂ R (ps.mapIdx f) ps := by
  intro ps
  induction ps with
  | nil =>
    intro f hf
    rw [List.mapIdx_nil]
    exact List.Forall₂.nil
  | cons p ps ih =>
    intro f hf
    rw [List.mapIdx_cons]
    exact List.Forall₂.cons (hf 0 p)
      (ih (fun i => f (i + 1)) (fun i q => hf (i + 1) q))

/-- Claim-side formulation, built from the source checks: the error the
`i`-th placement produces when examined against grid `g` (bounds first,
then conflicts), or `none` when it passes and is placed. -/
def stepFail (cs : List ClueItem) (ps : List Manual.ManualPlacement)
    (W H : Int) (g : Grid) (i : Nat) : Option (String × String) :=
  match ps[i]?, cs[i]? with
  | some p, some c =>
    (match Manual.checkBounds c.graphemes p.row p.col p.direction W H
        with
     | some msg => some (p.word, msg)
     | none =>
       match Manual.checkConflicts g c.graphemes p.row p.col
           p.direction with
       | some msg => some (p.word, msg)
       | none => none)
  | some p, none => some (p.word, "Missing placement or clue data")
  | none, _ => some ("unknown", "Missing placement or clue data")

/-- The grid write of the `i`-th placement (word id `i + 1`). -/
def placeAt (cs : List ClueItem) (ps : List Manual.ManualPlacement)
    (g : Grid) (i : Nat) : Grid :=
  match ps[i]?, cs[i]? with
  | some p, some c =>
    Manual.placeWord g c.graphemes p.row p.col p.direction (i + 1)
  | _, _ => g

/-- The grid state of the validation loop after the first `i`
placement indices. -/
def gridAt (ps : List Manual.ManualPlacement) (cs : List ClueItem)
    (W H : Int) (i : Nat) : Grid :=
  ((List.range i).foldl (Manual.validateStep cs ps W H)
    (createEmptyGrid, [])).1

/-- The error list of the validation loop after the first `i`
placement indices. -/
def errsAt (ps : List Manual.ManualPlacement) (cs : List ClueItem)
    (W H : Int) (i : Nat) : List Manual.PlacementError :=
  ((List.range i).foldl (Manual.validateStep cs ps W H)
    (createEmptyGrid, [])).2

lemma validateStep_char (cs : List ClueItem)
    (ps : List Manual.ManualPlacement) (W H : Int)
    (st : Grid × List Manual.PlacementError) (i : Nat) :
    Manual.validateStep cs ps W H st i =
      match stepFail cs ps W H st.1 i with
      | some wm => (st.1, st.2 ++ [⟨i, wm.1, wm.2⟩])
      | none => (placeAt cs ps st.1 i, st.2) := by
  unfold Manual.validateStep stepFail placeAt
  rcases ps[i]? with _ | p <;> rcases cs[i]? with _ | c
  · rfl
  · rfl
  · rfl
  · dsimp only
    rcases Manual.checkBounds c.graphemes p.row p.col p.direction W H
        with _ | msg
    · dsimp only
      rcases Manual.checkConflicts st.1 c.graphemes p.row p.col
          p.direction with _ | msg2
      · rfl
      · rfl
    · rfl

lemma foldl_range_succ {α : Type} (f : α → Nat → α) (init : α)
    (n : Nat) :
    (List.range (n + 1)).foldl f init =
      f ((List.range n).foldl f init) n := by
  rw [List.range_succ, List.foldl_append, List.foldl_cons,
    List.foldl_nil]

lemma gridAt_succ_char (ps : List Manual.ManualPlacement)
    (cs : List ClueItem) (W H : Int) (n : Nat) :
    gridAt ps cs W H (n + 1) =
      match stepFail cs ps W H (gridAt ps cs W H n) n with
      | some _ => gridAt ps cs W H n
      | none => placeAt cs ps (gridAt ps cs W H n) n := by
  unfold gridAt
  rw [foldl_range_succ, validateStep_char]
  rcases stepFail cs ps W H
      ((List.range n).foldl (Manual.validateStep cs ps W H)
        (createEmptyGrid, [])).1 n with _ | wm
  · rfl
  · rfl

lemma errsAt_eq (ps : List Manual.ManualPlacement)
    (cs : List ClueItem) (W H : Int) :
    ∀ n, errsAt ps cs W H n =
      (List.range n).filterMap fun i =>
        (stepFail cs ps W H (gridAt ps cs W H i) i).map
          fun wm => (⟨i, wm.1, wm.2⟩ : Manual.PlacementError) := by
  intro n
  induction n with
  | zero => rfl
  | succ n ih =>
    have hstep : errsAt ps cs W H (n + 1) =
        (Manual.validateStep cs ps W H
          ((List.range n).foldl (Manual.validateStep cs ps W H)
            (createEmptyGrid, [])) n).2 := by
      unfold errsAt
      rw [foldl_range_succ]
    rw [hstep, validateStep_char, List.range_succ,
      List.filterMap_append]
    rcases hs : stepFail cs ps W H (gridAt ps cs W H n) n with _ | wm
    · have hs' : stepFail cs ps W H
          ((List.range n).foldl (Manual.validateStep cs ps W H)
            (createEmptyGrid, [])).1 n = none := hs
      rw [hs']
      show errsAt ps cs W H n = _
      rw [ih, List.filterMap_cons, List.filterMap_nil, hs]
      rw [Option.map_none', List.append_nil]
    · have hs' : stepFail cs ps W H
          ((List.range n).foldl (Manual.validateStep cs ps W H)
            (createEmptyGrid, [])).1 n = some wm := hs
      rw [hs']
      show errsAt ps cs W H n ++ _ = _
      rw [ih, List.filterMap_cons, List.filterMap_nil, hs]
      rfl

/-- C3 (amended behaviour): the manual validator does not stop at the
first failure. Every placement index is examined in order: the error
list equals one (index, word, message) entry for each failing index,
each checked against the grid of the previously placed words; a
failing placement leaves the grid unchanged (it is skipped); a passing
placement is still written into the grid regardless of earlier
failures. The result is valid exactly when the error list is empty;
the error indices increase; and any emitted puzzle carries the final
grid and marks every word placed at its requested coordinates with no
unplaced words. -/
theorem C3_validation_collects (ps : List Manual.ManualPlacement)
    (cs : List ClueItem) (W H : Int) :
    ((Manual.validateManualPlacements ps cs W H).errors =
      (List.range ps.length).filterMap fun i =>
        (stepFail cs ps W H (gridAt ps cs W H i) i).map
          fun wm => (⟨i, wm.1, wm.2⟩ : Manual.PlacementError)) ∧
    (∀ i wm, stepFail cs ps W H (gridAt ps cs W H i) i = some wm →
      gridAt ps cs W H (i + 1) = gridAt ps cs W H i) ∧
    (∀ i, stepFail cs ps W H (gridAt ps cs W H i) i = none →
      gridAt ps cs W H (i + 1) = placeAt cs ps (gridAt ps cs W H i) i) ∧
    ((Manual.validateManualPlacements ps cs W H).valid = true ↔
      (Manual.validateManualPlacements ps cs W H).errors = []) ∧
    ((Manual.validateManualPlacements ps cs W H).errors.map
        fun e => e.index).Sublist (List.range ps.length) ∧
    (∀ pz, (Manual.validateManualPlacements ps cs W H).puzzle = some pz →
      (Manual.validateManualPlacements ps cs W H).valid = true ∧
      pz.grid = gridAt ps cs W H ps.length ∧
      pz.unplacedWords = [] ∧
      List.Forall₂ (fun q p => q.placed = true ∧ q.startX = p.col ∧
          q.startY = p.row ∧ q.direction = p.direction)
        pz.placements ps) := by
  have herr_run : (Manual.validateManualPlacements ps cs W H).errors =
      (Manual.runValidation ps cs W H).2 := by
    unfold Manual.validateManualPlacements
    by_cases h : 0 < (Manual.runValidation ps cs W H).2.length
    · rw [if_pos h]
    · rw [if_neg h]
      show ([] : List Manual.PlacementError) = _
      exact (List.eq_nil_of_length_eq_zero (by omega)).symm
  have herr_char : (Manual.validateManualPlacements ps cs W H).errors =
      (List.range ps.length).filterMap fun i =>
        (stepFail cs ps W H (gridAt ps cs W H i) i).map
          fun wm => (⟨i, wm.1, wm.2⟩ : Manual.PlacementError) := by
    rw [herr_run]
    exact errsAt_eq ps cs W H ps.length
  refine ⟨herr_char, ?_, ?_, ?_, ?_, ?_⟩
  · intro i wm hs
    rw [gridAt_succ_char, hs]
  · intro i hs
    rw [gridAt_succ_char, hs]
  · by_cases h : 0 < (Manual.runValidation ps cs W H).2.length
    · have hv : Manual.validateManualPlacements ps cs W H =
          { valid := false,
            errors := (Manual.runValidation ps cs W H).2,
            puzzle := none } := by
        unfold Manual.validateManualPlacements
        rw [if_pos h]
      rw [hv]
      show false = true ↔ (Manual.runValidation ps cs W H).2 = []
      exact ⟨fun hf => (Bool.false_ne_true hf).elim,
        fun hn => ((List.ne_nil_of_length_pos h) hn).elim⟩
    · have hv : Manual.validateManualPlacements ps cs W H =
          { valid := true, errors := [],
            puzzle := some
              { grid := (Manual.runValidation ps cs W H).1
                gridWidth := W
                gridHeight := H
                placements := ps.mapIdx fun i p =>
                  { wordId := i + 1,
                    clueItem := (cs[i]?).getD ⟨[], "", ""⟩,
                    startX := p.col, startY := p.row,
                    direction := p.direction, placed := true }
                unplacedWords := [] } } := by
        unfold Manual.validateManualPlacements
        rw [if_neg h]
      rw [hv]
      simp
  · rw [herr_run]
    obtain ⟨t, ht, hs⟩ :=
      run_errors_sub cs ps W H (List.range ps.length)
        (createEmptyGrid, [])
    have ht' : (Manual.runValidation ps cs W H).2 = t := ht
    rw [ht']
    exact hs
  · intro pz hpz
    by_cases h : 0 < (Manual.runValidation ps cs W H).2.length
    · have hv : (Manual.validateManualPlacements ps cs W H).puzzle =
          none := by
        unfold Manual.validateManualPlacements
        rw [if_pos h]
      rw [hv] at hpz
      exact Option.noConfusion hpz
    · have hv : Manual.validateManualPlacements ps cs W H =
          { valid := true, errors := [],
            puzzle := some
              { grid := (Manual.runValidation ps cs W H).1
                gridWidth := W
                gridHeight := H
                placements := ps.mapIdx fun i p =>
                  { wordId := i + 1,
                    clueItem := (cs[i]?).getD ⟨[], "", ""⟩,
                    startX := p.col, startY := p.row,
                    direction := p.direction, placed := true }
                unplacedWords := [] } } := by
        unfold Manual.validateManualPlacements
        rw [if_neg h]
      rw [hv] at hpz ⊢
      rw [Option.some.injEq] at hpz
      refine ⟨rfl, ?_, ?_, ?_⟩
      · rw [← hpz]
        rfl
      · rw [← hpz]
      · rw [← hpz]
        exact forall2_mapIdx _ ps _ (fun i p => ⟨rfl, rfl, rfl, rfl⟩)

/-- The two manual placements of the counterexample: both rows are out
of the 3 by 3 grid. -/
def c3Placements : List Manual.ManualPlacement :=
  [⟨"aa", "c1", 5, 0, Direction.ACROSS⟩,
   ⟨"bb", "c2", 7, 0, Direction.ACROSS⟩]

/-- The clue items paired with the counterexample placements. -/
def c3Clues : List ClueItem :=
  [⟨["a", "a"], "aa", "c1"⟩, ⟨["b", "b"], "bb", "c2"⟩]

/-- C3 counterexample to fail-fast: with two out-of-bounds placements
the validator records errors at both indices 0 and 1, so the second
placement was still validated after the first failure; fail-fast would
have produced the single index 0. -/
theorem C3_failfast_counterexample :
    ((Manual.validateManualPlacements c3Placements c3Clues 3 3).errors.map
        fun e => e.index) = [0, 1] ∧
    (Manual.validateManualPlacements c3Placements c3Clues 3 3).valid
      = false := by
  decide

/-! ### Polyomino generator (C2, C9)

The Bonza decomposition of `part_003`. String cell keys of the source
are represented directly as integer coordinate pairs (the source's
`cellKey`/`parseKey` are mutually inverse on integer coordinates), and
the two `Map`s keyed by insertion order become lists in insertion
order. The fueled loops receive fuel large enough to reach the
source loop's own exit condition. -/

namespace Poly

/-- `GridCell` of the polyomino registry. -/
structure GridCell where
  x : Int
  y : Int
  letter : String
  blockId : Nat
  wordCount : Nat
deriving DecidableEq, Repr

/-- `PieceCell`, with `node` the four neighbour block ids. -/
structure PieceCell where
  relX : Int
  relY : Int
  letter : String
  blockId : Nat
  node : Int × Int × Int × Int
deriving DecidableEq, Repr

/-- `Piece`. -/
structure Piece where
  id : String
  correctX : Int
  correctY : Int
  cells : List PieceCell
deriving DecidableEq, Repr

/-- `PolyominoPuzzle`. -/
structure PolyominoPuzzle where
  theme : String
  gridWidth : Int
  gridHeight : Int
  pieces : List Piece
deriving DecidableEq, Repr

/-- `Placement` as consumed by the polyomino generator. -/
structure Placement where
  startX : Int
  startY : Int
  direction : Direction
  clueItem : ClueItem
deriving DecidableEq, Repr

/-- `PolyominoConfig`. -/
structure PolyominoConfig where
  minPieceSize : Nat
  maxPieceSize : Nat
  allowSingleCrossPentomino : Bool
deriving DecidableEq, Repr

/-- `DEFAULT_POLYOMINO_CONFIG`. -/
def DEFAULT_POLYOMINO_CONFIG : PolyominoConfig := ⟨2, 4, false⟩

/-- `cellMap.get(cellKey(x, y))`: first cell registered at `(x, y)`.
Coordinates are registered at most once, so first and only. -/
def cellAt (cm : List GridCell) (x y : Int) : Option GridCell :=
  cm.find? fun c => c.x == x && c.y == y

/-- One registry insertion of Step 1: an existing cell gets its word
count bumped, a fresh cell is appended with the next block id. -/
def registerCell (st : List GridCell × Nat) (x y : Int)
    (letter : String) : List GridCell × Nat :=
  match cellAt st.1 x y with
  | some _ =>
    (st.1.map fun c =>
      if c.x = x ∧ c.y = y then { c with wordCount := c.wordCount + 1 }
      else c,
     st.2)
  | none => (st.1 ++ [⟨x, y, letter, st.2, 1⟩], st.2 + 1)

/-- Step 1: the global cell registry in insertion order. -/
def buildCellMap (placements : List Placement) : List GridCell :=
  (placements.foldl
    (fun st p =>
      (List.range p.clueItem.graphemes.length).foldl
        (fun st i =>
          registerCell st (cellX p.startX p.direction i)
            (cellY p.startY p.direction i)
            ((p.clueItem.graphemes[i]?).getD ""))
        st)
    ([], 0)).1

/-- `getBlockId`: the registered block id at `(x, y)`, `-1` outside. -/
def getBlockId (cm : List GridCell) (x y : Int) : Int :=
  match cellAt cm x y with
  | some c => (c.blockId : Int)
  | none => -1

/-- The anchor comparison of `createPiece`: take the candidate when it
is strictly higher, or equally high and strictly more to the left. -/
def pickAnchor (a c : GridCell) : GridCell :=
  if c.y < a.y ∨ (c.y = a.y ∧ c.x < a.x) then c else a

/-- Order used to emit piece cells: `relY` ascending then `relX`
ascending (comparator value at most 0). -/
def pieceLE (a b : PieceCell) : Prop :=
  a.relY < b.relY ∨ (a.relY = b.relY ∧ a.relX ≤ b.relX)

instance : DecidableRel pieceLE := fun _ _ =>
  inferInstanceAs (Decidable (_ ∨ _))

/-- `createPiece`: anchor at the topmost-then-leftmost cell, cells
relative to it with neighbour block ids, sorted by row then column. -/
def createPiece (cells : List GridCell) (pieceIndex : Nat)
    (cm : List GridCell) : Piece :=
  let anchor := cells.foldl pickAnchor (cells.headD ⟨0, 0, "", 0, 0⟩)
  let correctX := anchor.x
  let correctY := anchor.y
  let pieceCells := cells.map fun cell =>
    ({ relX := cell.x - correctX
       relY := cell.y - correctY
       letter := cell.letter
       blockId := cell.blockId
       node := (getBlockId cm cell.x (cell.y - 1),
         getBlockId cm (cell.x + 1) cell.y,
         getBlockId cm cell.x (cell.y + 1),
         getBlockId cm (cell.x - 1) cell.y) } : PieceCell)
  { id := s!"piece_{pieceIndex}"
    correctX := correctX
    correctY := correctY
    cells := pieceCells.insertionSort pieceLE }

/-- Sort order of the cross-pentomino candidate scan: word count
descending. -/
def crossLE (a b : GridCell) : Prop := b.wordCount ≤ a.wordCount

instance : DecidableRel crossLE := fun _ _ =>
  inferInstanceAs (Decidable (_ ≤ _))

/-- The scan of sorted intersection cells for a free cross centre. -/
def crossScan (cm : List GridCell) (unassigned : List (Int × Int))
    (pieceIndex : Nat) :
    List GridCell → Option (Piece × List (Int × Int))
  | [] => none
  | center :: rest =>
    match cellAt cm center.x (center.y - 1),
        cellAt cm (center.x + 1) center.y,
        cellAt cm center.x (center.y + 1),
        cellAt cm (center.x - 1) center.y with
    | some up, some right, some down, some left =>
      if (up.x, up.y) ∈ unassigned ∧ (right.x, right.y) ∈ unassigned ∧
          (down.x, down.y) ∈ unassigned ∧ (left.x, left.y) ∈ unassigned
        then
        some (createPiece [center, up, right, down, left] pieceIndex cm,
          ((((unassigned.erase (center.x, center.y)).erase
            (up.x, up.y)).erase (right.x, right.y)).erase
            (down.x, down.y)).erase (left.x, left.y))
      else crossScan cm unassigned pieceIndex rest
    | _, _, _, _ => crossScan cm unassigned pieceIndex rest

/-- `findAndCreateCrossPentomino`. -/
def findAndCreateCrossPentomino (cm : List GridCell)
    (unassigned : List (Int × Int)) (pieceIndex : Nat) :
    Option (Piece × List (Int × Int)) :=
  crossScan cm unassigned pieceIndex
    ((cm.filter fun c =>
      decide (2 ≤ c.wordCount ∧ (c.x, c.y) ∈ unassigned)).insertionSort
      crossLE)

/-- The seed order of Step 4: word count descending, then row, then
column (comparator value at most 0). -/
def polySortLE (a b : GridCell) : Prop :=
  b.wordCount < a.wordCount ∨
    (a.wordCount = b.wordCount ∧
      (a.y < b.y ∨ (a.y = b.y ∧ a.x ≤ b.x)))

instance : DecidableRel polySortLE := fun _ _ =>
  inferInstanceAs (Decidable (_ ∨ _))

/-- The four neighbours probed by BFS and merge, in source order: up,
right, down, left. -/
def neighborsOf (x y : Int) : List (Int × Int) :=
  [(x, y - 1), (x + 1, y), (x, y + 1), (x - 1, y)]

/-- One neighbour test of the BFS inner loop, on the state
(unassigned, queue, pieceCells). -/
def bfsAddNeighbor (cm : List GridCell) (maxSize : Nat)
    (st : List (Int × Int) × List (Int × Int) × List GridCell)
    (nk : Int × Int) :
    List (Int × Int) × List (Int × Int) × List GridCell :=
  if nk ∈ st.1 ∧ st.2.2.length < maxSize then
    match cellAt cm nk.1 nk.2 with
    | some c => (st.1.erase nk, st.2.1 ++ [nk], st.2.2 ++ [c])
    | none => st
  else st

/-- The BFS growth loop; the fuel always exceeds the loop measure
(unassigned plus queue), so the fuel-out branch is never taken when
called from `piecesLoop`. -/
def bfsLoop (cm : List GridCell) (maxSize : Nat) :
    Nat → List (Int × Int) → List (Int × Int) → List GridCell →
      List GridCell × List (Int × Int)
  | 0, unassigned, _, pieceCells => (pieceCells, unassigned)
  | fuel + 1, unassigned, queue, pieceCells =>
    match queue with
    | [] => (pieceCells, unassigned)
    | currentKey :: rest =>
      if pieceCells.length < maxSize then
        let st := (neighborsOf currentKey.1 currentKey.2).foldl
          (bfsAddNeighbor cm maxSize) (unassigned, rest, pieceCells)
        bfsLoop cm maxSize fuel st.1 st.2.1 st.2.2
      else (pieceCells, unassigned)

/-- The Step 4 partition loop: seed search over the sorted keys, BFS
growth, piece creation. -/
def piecesLoop (cm : List GridCell) (sortedKeys : List (Int × Int))
    (maxSize : Nat) :
    Nat → List (Int × Int) → Nat → List Piece → List Piece
  | 0, _, _, acc => acc
  | fuel + 1, unassigned, counter, acc =>
    if 0 < unassigned.length then
      match sortedKeys.find? (fun k => decide (k ∈ unassigned)) with
      | none => acc
      | some seedKey =>
        match cellAt cm seedKey.1 seedKey.2 with
        | none => acc
        | some seedCell =>
          let u1 := unassigned.erase seedKey
          let bfs := bfsLoop cm maxSize (u1.length + 2) u1 [seedKey]
            [seedCell]
          piecesLoop cm sortedKeys maxSize fuel bfs.2 (counter + 1)
            (acc ++ [createPiece bfs.1 counter cm])
    else acc

/-- Last-write-wins lookup of a registry cell by block id. -/
def lastBlockCell (cm : List GridCell) (bid : Nat) : Option GridCell :=
  cm.foldl (fun acc c => if c.blockId = bid then some c else acc) none

/-- Last-write-wins map from block id to current group index. -/
def blockToGroupIdx (groups : List (List GridCell)) (bid : Nat) :
    Option Nat :=
  groups.enum.foldl
    (fun acc gi => if gi.2.any (fun c => c.blockId == bid) then some gi.1
      else acc)
    none

/-- Absorption-chain resolution; the fuel exceeds any chain length. -/
def resolve (m : List (Nat × Nat)) : Nat → Nat → Nat
  | 0, i => i
  | fuel + 1, i =>
    match m.find? (fun e => e.1 == i) with
    | none => i
    | some e => resolve m fuel e.2

/-- Sort order of merge candidates: current size ascending. -/
def candLE (a b : Nat × Nat) : Prop := a.2 ≤ b.2

instance : DecidableRel candLE := fun _ _ =>
  inferInstanceAs (Decidable (_ ≤ _))

/-- Sort order of undersized groups: size ascending. -/
def sizeLE (a b : Nat × List GridCell) : Prop :=
  a.2.length ≤ b.2.length

instance : DecidableRel sizeLE := fun _ _ =>
  inferInstanceAs (Decidable (_ ≤ _))

/-- One undersized group processed in a merge pass. The state is
(absorbedInto, groupSizes, passMerges). -/
def mergeSmallStep (cm : List GridCell) (config : PolyominoConfig)
    (groups : List (List GridCell))
    (st : List (Nat × Nat) × List Nat × Nat) (smallIdx : Nat) :
    List (Nat × Nat) × List Nat × Nat :=
  let fuelR := groups.length + 1
  if resolve st.1 fuelR smallIdx ≠ smallIdx then st
  else
    match groups[smallIdx]? with
    | none => st
    | some smallGroup =>
      if config.minPieceSize ≤ smallGroup.length then st
      else
        let neighborBlockIds := smallGroup.foldl
          (fun acc cell =>
            (neighborsOf cell.x cell.y).foldl
              (fun acc nk =>
                match cellAt cm nk.1 nk.2 with
                | some nc =>
                  if nc.blockId ∈ acc then acc else acc ++ [nc.blockId]
                | none => acc)
              acc)
          []
        let candidates := neighborBlockIds.foldl
          (fun cand bid =>
            match blockToGroupIdx groups bid with
            | none => cand
            | some t0 =>
              let targetIdx := resolve st.1 fuelR t0
              if targetIdx = smallIdx then cand
              else if cand.any (fun c => c.1 == targetIdx) then cand
              else if (st.2.1[targetIdx]?).getD 0 + smallGroup.length ≤
                  max config.maxPieceSize 5 then
                cand ++ [(targetIdx, (st.2.1[targetIdx]?).getD 0)]
              else cand)
          []
        match candidates.insertionSort candLE with
        | [] => st
        | best :: _ =>
          (st.1 ++ [(smallIdx, best.1)],
           st.2.1.set best.1
             ((st.2.1[best.1]?).getD 0 + smallGroup.length),
           st.2.2 + 1)

/-- One merge pass: undersized groups by size ascending, each merged
into its smallest admissible neighbour cluster. -/
def mergePass (cm : List GridCell) (config : PolyominoConfig)
    (groups : List (List GridCell)) :
    List (Nat × Nat) × List Nat × Nat :=
  (((groups.enum.filter fun gi =>
      decide (gi.2.length < config.minPieceSize)).insertionSort
      sizeLE).map (fun gi => gi.1)).foldl
    (mergeSmallStep cm config groups)
    ([], groups.map (fun g => g.length), 0)

/-- Rebuild the groups after a pass: cells of group `i` land in the
group of `i`'s absorption root, empty groups are dropped. -/
def rebuildGroups (groups : List (List GridCell))
    (absorbedInto : List (Nat × Nat)) : List (List GridCell) :=
  ((List.range groups.length).map fun j =>
    ((List.range groups.length).filter fun i =>
      decide (resolve absorbedInto (groups.length + 1) i = j)).flatMap
      fun i => (groups[i]?).getD []).filter
    fun g => decide (0 < g.length)

/-- The merge pass loop (at most `maxPasses = 10` passes). -/
def mergePasses (cm : List GridCell) (config : PolyominoConfig) :
    Nat → List (List GridCell) → List (List GridCell)
  | 0, groups => groups
  | fuel + 1, groups =>
    if (groups.filter fun g =>
        decide (g.length < config.minPieceSize)).length = 0 then groups
    else
      let res := mergePass cm config groups
      if res.2.2 = 0 then groups
      else mergePasses cm config fuel (rebuildGroups groups res.1)

/-- One step of the final piece rebuild. -/
def rebuildStep (cm : List GridCell) (st : List Piece × Nat)
    (cells : List GridCell) : List Piece × Nat :=
  if 0 < cells.length then
    (st.1 ++ [createPiece cells st.2 cm], st.2 + 1)
  else st

/-- `mergeUndersizedPieces`. -/
def mergeUndersizedPieces (pieces : List Piece) (cm : List GridCell)
    (config : PolyominoConfig) : List Piece :=
  let groups0 := pieces.map fun piece =>
    piece.cells.filterMap fun c => lastBlockCell cm c.blockId
  let final := mergePasses cm config 10 groups0
  (final.foldl (rebuildStep cm) ([], 0)).1

/-- `generatePolyomino`. -/
def generatePolyomino (placements : List Placement)
    (gridWidth gridHeight : Int) (theme : String)
    (config : PolyominoConfig) : PolyominoPuzzle :=
  let cellMap := buildCellMap placements
  let unassigned0 := cellMap.map fun c => (c.x, c.y)
  let start :=
    if config.allowSingleCrossPentomino then
      match findAndCreateCrossPentomino cellMap unassigned0 0 with
      | some (piece, u) => ([piece], u, 1)
      | none => (([] : List Piece), unassigned0, 0)
    else (([] : List Piece), unassigned0, 0)
  let sortedKeys := (cellMap.insertionSort polySortLE).map
    fun c => (c.x, c.y)
  let pieces := piecesLoop cellMap sortedKeys config.maxPieceSize
    (start.2.1.length + 1) start.2.1 start.2.2 start.1
  { theme := theme
    gridWidth := gridWidth
    gridHeight := gridHeight
    pieces := mergeUndersizedPieces pieces cellMap config }

end Poly

/-- The anchor order: strictly higher rows first, ties broken to the
left. -/
def polyAnchLE (a b : Poly.GridCell) : Prop :=
  a.y < b.y ∨ (a.y = b.y ∧ a.x ≤ b.x)

lemma polyAnchLE_refl (a : Poly.GridCell) : polyAnchLE a a :=
  Or.inr ⟨rfl, le_refl _⟩

lemma polyAnchLE_trans {a b c : Poly.GridCell} (h1 : polyAnchLE a b)
    (h2 : polyAnchLE b c) : polyAnchLE a c := by
  unfold polyAnchLE at h1 h2 ⊢
  rcases h1 with h1 | ⟨h1, h1x⟩ <;> rcases h2 with h2 | ⟨h2, h2x⟩
  · exact Or.inl (h1.trans h2)
  · exact Or.inl (h2 ▸ h1)
  · exact Or.inl (h1 ▸ h2)
  · exact Or.inr ⟨h1.trans h2, h1x.trans h2x⟩

lemma pickAnchor_le_left (a c : Poly.GridCell) :
    polyAnchLE (Poly.pickAnchor a c) a := by
  unfold Poly.pickAnchor polyAnchLE
  split
  · rename_i h
    rcases h with h | ⟨h1, h2⟩
    · exact Or.inl h
    · exact Or.inr ⟨h1, le_of_lt h2⟩
  · exact Or.inr ⟨rfl, le_refl _⟩

lemma pickAnchor_le_right (a c : Poly.GridCell) :
    polyAnchLE (Poly.pickAnchor a c) c := by
  unfold Poly.pickAnchor polyAnchLE
  split
  · exact Or.inr ⟨rfl, le_refl _⟩
  · rename_i h
    push_neg at h
    obtain ⟨h1, h2⟩ := h
    by_cases he : a.y = c.y
    · exact Or.inr ⟨he, h2 he.symm⟩
    · exact Or.inl (lt_of_le_of_ne h1 he)

lemma foldl_pickAnchor_le (cells : List Poly.GridCell) :
    ∀ a : Poly.GridCell,
      polyAnchLE (cells.foldl Poly.pickAnchor a) a ∧
      ∀ c ∈ cells, polyAnchLE (cells.foldl Poly.pickAnchor a) c := by
  induction cells with
  | nil => intro a; exact ⟨polyAnchLE_refl a, by simp⟩
  | cons c cells ih =>
    intro a
    rw [List.foldl_cons]
    obtain ⟨h1, h2⟩ := ih (Poly.pickAnchor a c)
    refine ⟨polyAnchLE_trans h1 (pickAnchor_le_left a c), ?_⟩
    intro d hd
    rcases List.mem_cons.mp hd with rfl | hd'
    · exact polyAnchLE_trans h1 (pickAnchor_le_right a d)
    · exact h2 d hd'

lemma createPiece_rel (cells : List Poly.GridCell) (k : Nat)
    (cm : List Poly.GridCell) :
    ∀ c ∈ (Poly.createPiece cells k cm).cells,
      0 ≤ c.relY ∧ (c.relY = 0 → 0 ≤ c.relX) := by
  intro c hc
  simp only [Poly.createPiece, List.mem_insertionSort, List.mem_map]
    at hc
  obtain ⟨cell, hcell, rfl⟩ := hc
  have hle :=
    (foldl_pickAnchor_le cells (cells.headD ⟨0, 0, "", 0, 0⟩)).2 cell hcell
  refine ⟨?_, fun h0 => ?_⟩
  · show (0 : Int) ≤ cell.y -
      (cells.foldl Poly.pickAnchor (cells.headD ⟨0, 0, "", 0, 0⟩)).y
    rcases hle with h | ⟨h1, _⟩ <;> omega
  · have h0' : cell.y -
        (cells.foldl Poly.pickAnchor (cells.headD ⟨0, 0, "", 0, 0⟩)).y
        = 0 := h0
    show (0 : Int) ≤ cell.x -
      (cells.foldl Poly.pickAnchor (cells.headD ⟨0, 0, "", 0, 0⟩)).x
    rcases hle with h | ⟨h1, h2⟩ <;> omega

lemma rebuild_fold_rel (cm : List Poly.GridCell) :
    ∀ (groups : List (List Poly.GridCell)) (st : List Poly.Piece × Nat),
      (∀ pc ∈ st.1, ∀ c ∈ pc.cells,
        0 ≤ c.relY ∧ (c.relY = 0 → 0 ≤ c.relX)) →
      ∀ pc ∈ (groups.foldl (Poly.rebuildStep cm) st).1, ∀ c ∈ pc.cells,
        0 ≤ c.relY ∧ (c.relY = 0 → 0 ≤ c.relX) := by
  intro groups
  induction groups with
  | nil => intro st h; exact h
  | cons g groups ih =>
    intro st h
    rw [List.foldl_cons]
    refine ih (Poly.rebuildStep cm st g) ?_
    intro pc hpc
    unfold Poly.rebuildStep at hpc
    split at hpc
    · rcases List.mem_append.mp hpc with hpc' | hpc'
      · exact h pc hpc'
      · rcases List.mem_singleton.mp hpc' with rfl
        exact createPiece_rel g st.2 cm
    · exact h pc hpc

lemma merge_rel (pieces : List Poly.Piece) (cm : List Poly.GridCell)
    (config : Poly.PolyominoConfig) :
    ∀ pc ∈ Poly.mergeUndersizedPieces pieces cm config, ∀ c ∈ pc.cells,
      0 ≤ c.relY ∧ (c.relY = 0 → 0 ≤ c.relX) := by
  intro pc hpc
  have hpc' : pc ∈ ((Poly.mergePasses cm config 10
      (pieces.map fun piece =>
        piece.cells.filterMap fun c =>
          Poly.lastBlockCell cm c.blockId)).foldl
      (Poly.rebuildStep cm) ([], 0)).1 := hpc
  exact rebuild_fold_rel cm _ _
    (by intro q hq; exact absurd hq (List.not_mem_nil q)) pc hpc'

/-- C2 (amended behaviour): in every piece of every generated polyomino
puzzle, every cell satisfies `rel_y ≥ 0`, and cells on the anchor row
(`rel_y = 0`) satisfy `rel_x ≥ 0`; cells below the anchor row may have
negative `rel_x`, because the anchor is the topmost-then-leftmost cell
rather than the bounding-box corner. -/
theorem C2_rel_coords (placements : List Poly.Placement) (W H : Int)
    (theme : String) (cfg : Poly.PolyominoConfig) :
    ∀ pc ∈ (Poly.generatePolyomino placements W H theme cfg).pieces,
      ∀ c ∈ pc.cells, 0 ≤ c.relY ∧ (c.relY = 0 → 0 ≤ c.relX) :=
  fun pc hpc => merge_rel _ _ _ pc hpc

/-- The two crossing words of the C2 counterexample: `ab` DOWN at
(1, 0) and `cb` ACROSS at (0, 1), meeting at (1, 1). -/
def c2Placements : List Poly.Placement :=
  [⟨1, 0, Direction.DOWN, ⟨["a", "b"], "ab", ""⟩⟩,
   ⟨0, 1, Direction.ACROSS, ⟨["c", "b"], "cb", ""⟩⟩]

/-- C2 counterexample: the single generated piece anchors at (1, 0),
and the cell (0, 1) of the ACROSS word gets `rel_x = -1`, refuting
`rel_x ≥ 0`. -/
theorem C2_relx_counterexample :
    ((Poly.generatePolyomino c2Placements 2 2 "t"
        Poly.DEFAULT_POLYOMINO_CONFIG).pieces.map fun pc =>
      pc.cells.map fun c => (c.relX, c.relY)) =
      [[(0, 0), (-1, 1), (0, 1)]] := by
  decide

/-- The C2 sample puzzle. -/
def c2Puzzle : Poly.PolyominoPuzzle :=
  Poly.generatePolyomino c2Placements 2 2 "t"
    Poly.DEFAULT_POLYOMINO_CONFIG

/-- Its first piece. -/
def c2Piece : Poly.Piece := c2Puzzle.pieces.headD ⟨"", 0, 0, []⟩

/-- The first cell of that piece. -/
def c2Cell : Poly.PieceCell := c2Piece.cells.headD ⟨0, 0, "", 0, (0, 0, 0, 0)⟩

/-- Witness: the amended coordinate bounds applied to the sample
puzzle's first piece and cell. -/
theorem C2_rel_coords_witness :
    c2Piece ∈ c2Puzzle.pieces ∧ c2Cell ∈ c2Piece.cells ∧
    (0 ≤ c2Cell.relY ∧ (c2Cell.relY = 0 → 0 ≤ c2Cell.relX)) :=
  ⟨by decide, by decide,
    C2_rel_coords c2Placements 2 2 "t" Poly.DEFAULT_POLYOMINO_CONFIG
      c2Piece (by decide) c2Cell (by decide)⟩

/-! ### Four-adjacency and connectivity (towards C9) -/

/-- 4-adjacency of coordinates, phrased through the source's neighbour
list. -/
def adjacentP (p q : Int × Int) : Prop :=
  q ∈ Poly.neighborsOf p.1 p.2

/-- One connectivity step staying inside the coordinate list `S`. -/
def stepIn (S : List (Int × Int)) (p q : Int × Int) : Prop :=
  q ∈ S ∧ adjacentP p q

/-- The coordinate list `S` is 4-connected. -/
def ConnIn (S : List (Int × Int)) : Prop :=
  ∀ a ∈ S, ∀ b ∈ S, Relation.ReflTransGen (stepIn S) a b

lemma adjacentP_symm {p q : Int × Int} (h : adjacentP p q) :
    adjacentP q p := by
  unfold adjacentP Poly.neighborsOf at h ⊢
  simp only [List.mem_cons, List.not_mem_nil, or_false] at h ⊢
  obtain ⟨p1, p2⟩ := p
  obtain ⟨q1, q2⟩ := q
  simp only [Prod.mk.injEq] at h ⊢
  omega

lemma ConnIn_congr {S T : List (Int × Int)}
    (h : ∀ x, x ∈ S ↔ x ∈ T) (hc : ConnIn S) : ConnIn T := by
  intro a ha b hb
  refine Relation.ReflTransGen.mono ?_
    (hc a ((h a).mpr ha) b ((h b).mpr hb))
  intro x y hxy
  exact ⟨(h y).mp hxy.1, hxy.2⟩

lemma ConnIn_mono_rel {S T : List (Int × Int)}
    (hsub : ∀ x, x ∈ S → x ∈ T) {a b : Int × Int}
    (h : Relation.ReflTransGen (stepIn S) a b) :
    Relation.ReflTransGen (stepIn T) a b :=
  Relation.ReflTransGen.mono (fun _ y hxy => ⟨hsub y hxy.1, hxy.2⟩) h

lemma ConnIn_single (k : Int × Int) : ConnIn [k] := by
  intro a ha b hb
  rcases List.mem_singleton.mp ha with rfl
  rcases List.mem_singleton.mp hb with rfl
  exact Relation.ReflTransGen.refl

lemma ConnIn_append {S T : List (Int × Int)} (hS : ConnIn S)
    (hT : ConnIn T) (a b : Int × Int) (ha : a ∈ S) (hb : b ∈ T)
    (hab : adjacentP a b) : ConnIn (S ++ T) := by
  have hSsub : ∀ x, x ∈ S → x ∈ S ++ T := fun x hx =>
    List.mem_append.mpr (Or.inl hx)
  have hTsub : ∀ x, x ∈ T → x ∈ S ++ T := fun x hx =>
    List.mem_append.mpr (Or.inr hx)
  intro u hu v hv
  rcases List.mem_append.mp hu with hu' | hu' <;>
    rcases List.mem_append.mp hv with hv' | hv'
  · exact ConnIn_mono_rel hSsub (hS u hu' v hv')
  · refine Relation.ReflTransGen.trans
      (ConnIn_mono_rel hSsub (hS u hu' a ha)) ?_
    refine Relation.ReflTransGen.trans
      (Relation.ReflTransGen.single ⟨hTsub b hb, hab⟩) ?_
    exact ConnIn_mono_rel hTsub (hT b hb v hv')
  · refine Relation.ReflTransGen.trans
      (ConnIn_mono_rel hTsub (hT u hu' b hb)) ?_
    refine Relation.ReflTransGen.trans
      (Relation.ReflTransGen.single ⟨hSsub a ha, adjacentP_symm hab⟩) ?_
    exact ConnIn_mono_rel hSsub (hS a ha v hv')
  · exact ConnIn_mono_rel hTsub (hT u hu' v hv')

lemma ConnIn_push {S : List (Int × Int)} (hS : ConnIn S)
    (a b : Int × Int) (ha : a ∈ S) (hab : adjacentP a b) :
    ConnIn (S ++ [b]) :=
  ConnIn_append hS (ConnIn_single b) a b ha (List.mem_singleton.mpr rfl)
    hab

/-! ### Registry facts (towards C9) -/

/-- Coordinates of a registry cell. -/
def gcCoord (c : Poly.GridCell) : Int × Int := (c.x, c.y)

lemma cellAt_some {cm : List Poly.GridCell} {x y : Int}
    {c : Poly.GridCell} (h : Poly.cellAt cm x y = some c) :
    c ∈ cm ∧ c.x = x ∧ c.y = y := by
  refine ⟨List.mem_of_find?_eq_some h, ?_⟩
  have hp := List.find?_some h
  simp only [Bool.and_eq_true, beq_iff_eq] at hp
  exact hp

lemma cellAt_none {cm : List Poly.GridCell} {x y : Int}
    (h : Poly.cellAt cm x y = none) :
    ∀ c ∈ cm, ¬(c.x = x ∧ c.y = y) := by
  intro c hc hcc
  have := List.find?_eq_none.mp h c hc
  simp only [Bool.and_eq_true, beq_iff_eq] at this
  exact this ⟨hcc.1, hcc.2⟩

lemma cellAt_mem_of_coord {cm : List Poly.GridCell} {x y : Int}
    (h : (x, y) ∈ cm.map gcCoord) :
    ∃ c, Poly.cellAt cm x y = some c := by
  rcases hfind : Poly.cellAt cm x y with _ | c
  · exfalso
    obtain ⟨c, hc, hcc⟩ := List.mem_map.mp h
    have hxy : c.x = x ∧ c.y = y := by
      unfold gcCoord at hcc
      exact ⟨congrArg Prod.fst hcc, congrArg Prod.snd hcc⟩
    exact cellAt_none hfind c hc hxy
  · exact ⟨c, rfl⟩

lemma registerCell_bump_coords (st : List Poly.GridCell × Nat)
    (x y : Int) (L : String) {c : Poly.GridCell}
    (h : Poly.cellAt st.1 x y = some c) :
    (Poly.registerCell st x y L).1.map gcCoord = st.1.map gcCoord ∧
    (Poly.registerCell st x y L).1.map (fun d => d.blockId) =
      st.1.map (fun d => d.blockId) ∧
    (Poly.registerCell st x y L).2 = st.2 := by
  unfold Poly.registerCell
  rw [h]
  refine ⟨?_, ?_, rfl⟩
  · rw [List.map_map]
    refine List.map_congr_left ?_
    intro d _
    show gcCoord (if d.x = x ∧ d.y = y then _ else d) = gcCoord d
    split <;> rfl
  · rw [List.map_map]
    refine List.map_congr_left ?_
    intro d _
    show (if d.x = x ∧ d.y = y then _ else d).blockId = d.blockId
    split <;> rfl

lemma registerCell_new (st : List Poly.GridCell × Nat) (x y : Int)
    (L : String) (h : Poly.cellAt st.1 x y = none) :
    (Poly.registerCell st x y L).1 =
      st.1 ++ [⟨x, y, L, st.2, 1⟩] ∧
    (Poly.registerCell st x y L).2 = st.2 + 1 := by
  unfold Poly.registerCell
  rw [h]
  exact ⟨rfl, rfl⟩

/-- The registry invariant: distinct coordinates, distinct block ids,
and all block ids below the counter. -/
def RegInv (st : List Poly.GridCell × Nat) : Prop :=
  (st.1.map gcCoord).Nodup ∧
  (st.1.map fun c => c.blockId).Nodup ∧
  ∀ c ∈ st.1, c.blockId < st.2

lemma registerCell_inv (st : List Poly.GridCell × Nat) (x y : Int)
    (L : String) (h : RegInv st) :
    RegInv (Poly.registerCell st x y L) := by
  obtain ⟨h1, h2, h3⟩ := h
  rcases hc : Poly.cellAt st.1 x y with _ | c
  · obtain ⟨e1, e2⟩ := registerCell_new st x y L hc
    refine ⟨?_, ?_, ?_⟩
    · rw [e1, List.map_append]
      refine List.Nodup.append h1 (by simp) ?_
      intro k hk hk'
      simp only [List.map_cons, List.map_nil, List.mem_singleton] at hk'
      subst hk'
      obtain ⟨d, hd, hdc⟩ := List.mem_map.mp hk
      have : d.x = x ∧ d.y = y := by
        unfold gcCoord at hdc
        exact ⟨congrArg Prod.fst hdc, congrArg Prod.snd hdc⟩
      exact cellAt_none hc d hd this
    · rw [e1, List.map_append]
      refine List.Nodup.append h2 (by simp) ?_
      intro k hk hk'
      simp only [List.map_cons, List.map_nil, List.mem_singleton] at hk'
      subst hk'
      obtain ⟨d, hd, hdc⟩ := List.mem_map.mp hk
      exact absurd (hdc ▸ h3 d hd) (lt_irrefl _)
    · rw [e1, e2]
      intro d hd
      rcases List.mem_append.mp hd with hd' | hd'
      · exact (h3 d hd').trans (Nat.lt_succ_self _)
      · rcases List.mem_singleton.mp hd' with rfl
        exact Nat.lt_succ_self _
  · obtain ⟨e1, e2, e3⟩ := registerCell_bump_coords st x y L hc
    refine ⟨e1 ▸ h1, e2 ▸ h2, ?_⟩
    intro d hd
    unfold Poly.registerCell at hd
    rw [hc] at hd
    rw [e3]
    obtain ⟨d0, hd0, hdd⟩ := List.mem_map.mp hd
    have : d.blockId = d0.blockId := by
      rw [← hdd]
      show (if d0.x = x ∧ d0.y = y then _ else d0).blockId = d0.blockId
      split <;> rfl
    rw [this]
    exact h3 d0 hd0

lemma registerCell_mem_coords (st : List Poly.GridCell × Nat)
    (x y : Int) (L : String) (k : Int × Int) :
    k ∈ (Poly.registerCell st x y L).1.map gcCoord ↔
      k ∈ st.1.map gcCoord ∨ k = (x, y) := by
  rcases hc : Poly.cellAt st.1 x y with _ | c
  · obtain ⟨e1, _⟩ := registerCell_new st x y L hc
    rw [e1, List.map_append]
    simp [gcCoord]
  · obtain ⟨e1, _, _⟩ := registerCell_bump_coords st x y L hc
    rw [e1]
    constructor
    · exact Or.inl
    · rintro (h | rfl)
      · exact h
      · obtain ⟨hm, hx, hy⟩ := cellAt_some hc
        exact List.mem_map.mpr ⟨c, hm, by simp [gcCoord, hx, hy]⟩

lemma foldl_registerCell_inv {α : Type} (f g : α → Int) (h : α → String) :
    ∀ (l : List α) (st : List Poly.GridCell × Nat), RegInv st →
      RegInv (l.foldl
        (fun st a => Poly.registerCell st (f a) (g a) (h a)) st) := by
  intro l
  induction l with
  | nil => intro st hst; exact hst
  | cons a l ih =>
    intro st hst
    rw [List.foldl_cons]
    exact ih _ (registerCell_inv st _ _ _ hst)

lemma foldl_registerCell_mem {α : Type} (f g : α → Int)
    (h : α → String) :
    ∀ (l : List α) (st : List Poly.GridCell × Nat) (k : Int × Int),
      (k ∈ (l.foldl
          (fun st a => Poly.registerCell st (f a) (g a) (h a)) st).1.map
          gcCoord ↔
        k ∈ st.1.map gcCoord ∨ ∃ a ∈ l, k = (f a, g a)) := by
  intro l
  induction l with
  | nil => intro st k; simp
  | cons a l ih =>
    intro st k
    rw [List.foldl_cons, ih, registerCell_mem_coords]
    constructor
    · rintro ((hk | rfl) | ⟨a', ha', rfl⟩)
      · exact Or.inl hk
      · exact Or.inr ⟨a, List.mem_cons_self a l, rfl⟩
      · exact Or.inr ⟨a', List.mem_cons_of_mem a ha', rfl⟩
    · rintro (hk | ⟨a', ha', rfl⟩)
      · exact Or.inl (Or.inl hk)
      · rcases List.mem_cons.mp ha' with rfl | ha''
        · exact Or.inl (Or.inr rfl)
        · exact Or.inr ⟨a', ha'', rfl⟩

/-- A coordinate covered by the placements input. -/
def coveredCoord (placements : List Poly.Placement)
    (k : Int × Int) : Prop :=
  ∃ p ∈ placements, ∃ i < p.clueItem.graphemes.length,
    k = (cellX p.startX p.direction i, cellY p.startY p.direction i)

lemma buildPair_inv (placements : List Poly.Placement) :
    ∀ st : List Poly.GridCell × Nat, RegInv st →
      RegInv (placements.foldl
        (fun st p =>
          (List.range p.clueItem.graphemes.length).foldl
            (fun st i =>
              Poly.registerCell st (cellX p.startX p.direction i)
                (cellY p.startY p.direction i)
                ((p.clueItem.graphemes[i]?).getD ""))
            st)
        st) := by
  induction placements with
  | nil => intro st hst; exact hst
  | cons p ps ih =>
    intro st hst
    rw [List.foldl_cons]
    exact ih _ (foldl_registerCell_inv _ _ _ _ st hst)

lemma buildCellMap_inv (placements : List Poly.Placement) :
    ((Poly.buildCellMap placements).map gcCoord).Nodup ∧
    ((Poly.buildCellMap placements).map fun c => c.blockId).Nodup :=
  ⟨(buildPair_inv placements ([], 0) ⟨by simp, by simp, by simp⟩).1,
   (buildPair_inv placements ([], 0) ⟨by simp, by simp, by simp⟩).2.1⟩

lemma buildCellMap_mem (placements : List Poly.Placement)
    (k : Int × Int) :
    k ∈ (Poly.buildCellMap placements).map gcCoord ↔
      coveredCoord placements k := by
  have main : ∀ (ps : List Poly.Placement)
      (st : List Poly.GridCell × Nat),
      (k ∈ (ps.foldl
          (fun st p =>
            (List.range p.clueItem.graphemes.length).foldl
              (fun st i =>
                Poly.registerCell st (cellX p.startX p.direction i)
                  (cellY p.startY p.direction i)
                  ((p.clueItem.graphemes[i]?).getD ""))
              st)
          st).1.map gcCoord ↔
        k ∈ st.1.map gcCoord ∨ coveredCoord ps k) := by
    intro ps
    induction ps with
    | nil =>
      intro st
      simp [coveredCoord]
    | cons p ps ih =>
      intro st
      rw [List.foldl_cons, ih, foldl_registerCell_mem]
      unfold coveredCoord
      constructor
      · rintro ((hk | ⟨i, hi, rfl⟩) | ⟨p', hp', i, hi, rfl⟩)
        · exact Or.inl hk
        · exact Or.inr ⟨p, List.mem_cons_self p ps, i,
            List.mem_range.mp hi, rfl⟩
        · exact Or.inr ⟨p', List.mem_cons_of_mem p hp', i, hi, rfl⟩
      · rintro (hk | ⟨p', hp', i, hi, rfl⟩)
        · exact Or.inl (Or.inl hk)
        · rcases List.mem_cons.mp hp' with rfl | hp''
          · exact Or.inl (Or.inr ⟨i, List.mem_range.mpr hi, rfl⟩)
          · exact Or.inr ⟨p', hp'', i, hi, rfl⟩
  rw [show Poly.buildCellMap placements = (placements.foldl
      (fun st p =>
        (List.range p.clueItem.graphemes.length).foldl
          (fun st i =>
            Poly.registerCell st (cellX p.startX p.direction i)
              (cellY p.startY p.direction i)
              ((p.clueItem.graphemes[i]?).getD ""))
          st)
      ([], 0)).1 from rfl, main placements ([], 0)]
  simp

/-! ### Absorption maps (towards C9)

`resolve` follows absorption edges until a root. Edges are only ever
appended with a target that is not yet a key, so chains use edges in
increasing position and the chase equals a single left-to-right fold. -/

/-- One fold step of the chase: follow the edge when it starts at the
current node. -/
def Rstep (r : Nat) (e : Nat × Nat) : Nat := if r = e.1 then e.2 else r

/-- The root of `x` under the absorption map `m`. -/
def Rspec (m : List (Nat × Nat)) (x : Nat) : Nat := m.foldl Rstep x

/-- The well-formedness the merge pass maintains: every edge's target
is neither a key of the preceding edges nor its own source. -/
def GOOD (m : List (Nat × Nat)) : Prop :=
  ∀ m₁ a b m₂, m = m₁ ++ (a, b) :: m₂ →
    b ∉ m₁.map Prod.fst ∧ b ≠ a

lemma GOOD_nil : GOOD [] := by
  intro m₁ a b m₂ h
  exact absurd h (by simp)

lemma GOOD_prefix {m m' : List (Nat × Nat)} (h : GOOD (m ++ m')) :
    GOOD m := by
  intro m₁ a b m₂ he
  exact h m₁ a b (m₂ ++ m') (by rw [he]; simp)

lemma GOOD_suffix {m m' : List (Nat × Nat)} (h : GOOD (m' ++ m)) :
    GOOD m := by
  intro m₁ a b m₂ he
  have := h (m' ++ m₁) a b m₂ (by rw [he]; simp)
  refine ⟨fun hb => this.1 ?_, this.2⟩
  rw [List.map_append]
  exact List.mem_append.mpr (Or.inr hb)

lemma GOOD_snoc {m : List (Nat × Nat)} {s t : Nat} (h : GOOD m)
    (ht : t ∉ m.map Prod.fst) (hts : t ≠ s) :
    GOOD (m ++ [(s, t)]) := by
  intro m₁ a b m₂ he
  rcases List.eq_nil_or_concat m₂ with rfl | ⟨m₂', e, rfl⟩
  · obtain ⟨h1, h2⟩ := List.append_inj' he (by simp)
    have h2' : (s, t) = (a, b) := by simpa using h2
    obtain ⟨rfl, rfl⟩ : a = s ∧ b = t :=
      ⟨(congrArg Prod.fst h2').symm, (congrArg Prod.snd h2').symm⟩
    exact ⟨h1 ▸ ht, hts⟩
  · have he' : m ++ [(s, t)] = (m₁ ++ (a, b) :: m₂') ++ [e] := by
      rw [he]; simp
    obtain ⟨h1, _⟩ := List.append_inj' he' (by simp)
    exact h m₁ a b m₂' h1

lemma find?_split {α : Type} {p : α → Bool} :
    ∀ {l : List α} {a : α}, l.find? p = some a →
      ∃ l₁ l₂, l = l₁ ++ a :: l₂ ∧ ∀ x ∈ l₁, ¬ p x = true := by
  intro l
  induction l with
  | nil => intro a h; exact absurd h (by simp)
  | cons x l ih =>
    intro a h
    rw [List.find?_cons] at h
    split at h
    · obtain rfl := Option.some.inj h
      exact ⟨[], l, by simp, by simp⟩
    · obtain ⟨l₁, l₂, he, hall⟩ := ih h
      refine ⟨x :: l₁, l₂, by rw [he]; rfl, ?_⟩
      intro y hy
      rcases List.mem_cons.mp hy with rfl | hy'
      · rename_i hnp; simp [hnp]
      · exact hall y hy'

lemma foldl_Rstep_skip {l : List (Nat × Nat)} {r : Nat}
    (h : ∀ e ∈ l, e.1 ≠ r) : l.foldl Rstep r = r := by
  induction l with
  | nil => rfl
  | cons e l ih =>
    rw [List.foldl_cons]
    have he : Rstep r e = r := by
      unfold Rstep
      rw [if_neg (fun hc => h e (List.mem_cons_self e l) hc.symm)]
    rw [he]
    exact ih fun e' he' => h e' (List.mem_cons_of_mem e he')

lemma Rspec_snoc (m : List (Nat × Nat)) (s t : Nat) (x : Nat) :
    Rspec (m ++ [(s, t)]) x =
      if Rspec m x = s then t else Rspec m x := by
  unfold Rspec
  rw [List.foldl_append]
  rfl

lemma Rspec_root_cases (m : List (Nat × Nat)) (x : Nat) :
    Rspec m x = x ∨ Rspec m x ∈ m.map Prod.snd := by
  induction m generalizing x with
  | nil => exact Or.inl rfl
  | cons e m ih =>
    unfold Rspec at ih ⊢
    rw [List.foldl_cons]
    rcases ih (Rstep x e) with h | h
    · rw [h]
      unfold Rstep
      split
      · exact Or.inr (List.mem_map.mpr ⟨e, List.mem_cons_self e m, rfl⟩)
      · exact Or.inl rfl
    · exact Or.inr (List.map_cons _ e m ▸ List.mem_cons_of_mem _ h)

lemma Rspec_lt {m : List (Nat × Nat)} {n : Nat}
    (hm : ∀ e ∈ m, e.2 < n) {x : Nat} (hx : x < n) : Rspec m x < n := by
  rcases Rspec_root_cases m x with h | h
  · exact lt_of_eq_of_lt h hx
  · obtain ⟨e, he, hee⟩ := List.mem_map.mp h
    exact hee ▸ hm e he

lemma Rspec_not_key {m : List (Nat × Nat)} (h : GOOD m) (x : Nat) :
    Rspec m x ∉ m.map Prod.fst := by
  induction m using List.reverseRecOn with
  | nil => simp
  | append_singleton m e ih =>
    obtain ⟨s, t⟩ := e
    have hlast := h m s t [] rfl
    have hgm : GOOD m := GOOD_prefix h
    rw [Rspec_snoc, List.map_append]
    split
    · intro hc
      rcases List.mem_append.mp hc with hc' | hc'
      · exact hlast.1 hc'
      · simp only [List.map_cons, List.map_nil,
          List.mem_singleton] at hc'
        exact hlast.2 hc'
    · intro hc
      rcases List.mem_append.mp hc with hc' | hc'
      · exact ih hgm hc'
      · simp only [List.map_cons, List.map_nil,
          List.mem_singleton] at hc'
        rename_i hne
        exact hne hc'

lemma Rspec_fixed_not_key {m : List (Nat × Nat)} (h : GOOD m)
    {s : Nat} (hfix : Rspec m s = s) : s ∉ m.map Prod.fst := by
  intro hkey
  rcases hfind : m.find? (fun e => e.1 == s) with _ | e
  · obtain ⟨e, he, hee⟩ := List.mem_map.mp hkey
    have := List.find?_eq_none.mp hfind e he
    simp only [beq_iff_eq] at this
    exact this hee
  · obtain ⟨m₁, m₂, hsplit, hfirst⟩ := find?_split hfind
    have hes : e.1 = s := by
      have := List.find?_some hfind
      simpa using this
    obtain ⟨a, b⟩ := e
    simp only at hes
    subst hes
    have hval : Rspec m a = Rspec m₂ b := by
      unfold Rspec
      rw [hsplit, List.foldl_append, List.foldl_cons]
      have h1 : m₁.foldl Rstep a = a := by
        refine foldl_Rstep_skip ?_
        intro e' he' hc
        exact hfirst e' he' (by simp [hc])
      rw [h1]
      have h2 : Rstep a (a, b) = b := by unfold Rstep; rw [if_pos rfl]
      rw [h2]
    have hba : b ≠ a := (h m₁ a b m₂ hsplit).2
    have hnots : ∀ e' ∈ m₂, e'.2 ≠ a := by
      intro e' he' hc
      obtain ⟨u, v, hm2⟩ := List.append_of_mem he'
      have hsplit2 : m = (m₁ ++ (a, b) :: u) ++ e' :: v := by
        rw [hsplit, hm2]; simp
      obtain ⟨c, d⟩ := e'
      have hd := (h (m₁ ++ (a, b) :: u) c d v hsplit2).1
      apply hd
      simp only at hc
      rw [hc]
      exact List.mem_map.mpr ⟨(a, b), by simp, rfl⟩
    rcases Rspec_root_cases m₂ b with h' | h'
    · rw [hval, h'] at hfix
      exact hba hfix
    · obtain ⟨e', he', hee⟩ := List.mem_map.mp h'
      refine hnots e' he' ?_
      rw [hee, ← hval, hfix]

lemma resolve_succ (m : List (Nat × Nat)) (fuel i : Nat) :
    Poly.resolve m (fuel + 1) i =
      match m.find? (fun e => e.1 == i) with
      | none => i
      | some e => Poly.resolve m fuel e.2 := rfl

lemma find?_append_none {α : Type} {l₁ l₂ : List α} {p : α → Bool}
    (h : l₁.find? p = none) : (l₁ ++ l₂).find? p = l₂.find? p := by
  induction l₁ with
  | nil => rfl
  | cons a l₁ ih =>
    rw [List.find?_cons] at h
    rw [List.cons_append, List.find?_cons]
    split at h
    · exact absurd h (by simp)
    · exact ih h

lemma Rspec_split {m m₁ m₂ : List (Nat × Nat)} {a b : Nat}
    (hsplit : m = m₁ ++ (a, b) :: m₂)
    (hfirst : ∀ e ∈ m₁, e.1 ≠ a) : Rspec m a = Rspec m₂ b := by
  unfold Rspec
  rw [hsplit, List.foldl_append, List.foldl_cons]
  rw [foldl_Rstep_skip hfirst]
  have h2 : Rstep a (a, b) = b := by unfold Rstep; rw [if_pos rfl]
  rw [h2]

lemma resolve_skip : ∀ (fuel : Nat) (p m₂ : List (Nat × Nat)) (b : Nat),
    GOOD (p ++ m₂) → b ∉ p.map Prod.fst →
    Poly.resolve (p ++ m₂) fuel b = Poly.resolve m₂ fuel b := by
  intro fuel
  induction fuel with
  | zero => intro p m₂ b _ _; rfl
  | succ fuel ih =>
    intro p m₂ b hg hb
    have hfp : p.find? (fun e => e.1 == b) = none := by
      rw [List.find?_eq_none]
      intro e he
      simp only [beq_iff_eq]
      intro hc
      exact hb (List.mem_map.mpr ⟨e, he, hc⟩)
    rw [resolve_succ, resolve_succ, find?_append_none hfp]
    rcases hf2 : m₂.find? (fun e => e.1 == b) with _ | e
    · rw [hf2]
    · rw [hf2]
      have he2 : e ∈ m₂ := List.mem_of_find?_eq_some hf2
      obtain ⟨u, v, hm2⟩ := List.append_of_mem he2
      obtain ⟨c, d⟩ := e
      show Poly.resolve (p ++ m₂) fuel d = Poly.resolve m₂ fuel d
      have hsp : p ++ m₂ = (p ++ u) ++ (c, d) :: v := by
        rw [hm2]; simp
      have hd := (hg (p ++ u) c d v hsp).1
      have hdnp : d ∉ p.map Prod.fst := by
        intro hc'
        apply hd
        rw [List.map_append]
        exact List.mem_append.mpr (Or.inl hc')
      exact ih p m₂ d hg hdnp

lemma resolve_eq_Rspec : ∀ (fuel : Nat) (m : List (Nat × Nat)),
    GOOD m → m.length < fuel → ∀ x,
      Poly.resolve m fuel x = Rspec m x := by
  intro fuel
  induction fuel with
  | zero => intro m _ h; exact absurd h (Nat.not_lt_zero _)
  | succ fuel ih =>
    intro m hg hlen x
    rw [resolve_succ]
    rcases hfind : m.find? (fun e => e.1 == x) with _ | e
    · have hnk : ∀ e ∈ m, e.1 ≠ x := by
        intro e he
        have := List.find?_eq_none.mp hfind e he
        simpa using this
      have hr : Rspec m x = x := foldl_Rstep_skip hnk
      rw [hfind]
      exact hr.symm
    · rw [hfind]
      obtain ⟨m₁, m₂, hsplit, hfirst⟩ := find?_split hfind
      have hex : e.1 = x := by
        have := List.find?_some hfind
        simpa using this
      obtain ⟨a, b⟩ := e
      simp only at hex
      subst hex
      show Poly.resolve m fuel b = Rspec m a
      have hm : m = (m₁ ++ [(a, b)]) ++ m₂ := by rw [hsplit]; simp
      have hgood := hg m₁ a b m₂ hsplit
      have hb_not_p : b ∉ (m₁ ++ [(a, b)]).map Prod.fst := by
        rw [List.map_append]
        intro hc
        rcases List.mem_append.mp hc with hc' | hc'
        · exact hgood.1 hc'
        · simp only [List.map_cons, List.map_nil,
            List.mem_singleton] at hc'
          exact hgood.2 hc'
      have h1 : Poly.resolve m fuel b = Poly.resolve m₂ fuel b := by
        rw [hm]
        exact resolve_skip fuel (m₁ ++ [(a, b)]) m₂ b (hm ▸ hg) hb_not_p
      have hml : m.length = m₁.length + (m₂.length + 1) := by
        rw [hsplit]; simp
      have hlen2 : m₂.length < fuel := by omega
      have h2 : Poly.resolve m₂ fuel b = Rspec m₂ b :=
        ih m₂ (GOOD_suffix (hm ▸ hg)) hlen2 b
      have hfirst' : ∀ e' ∈ m₁, e'.1 ≠ a := by
        intro e' he'
        have := hfirst e' he'
        simpa using this
      rw [h1, h2, Rspec_split hsplit hfirst']

/-! ### Regrouping permutations (towards C9) -/

lemma flatten_filter_nonempty {α : Type} (gs : List (List α)) :
    (gs.filter fun g => decide (0 < g.length)).flatten = gs.flatten := by
  induction gs with
  | nil => rfl
  | cons g gs ih =>
    rw [List.filter_cons]
    by_cases hg : 0 < g.length
    · rw [if_pos (by simpa using hg), List.flatten_cons,
        List.flatten_cons, ih]
    · have hgnil : g = [] := by
        rcases g with _ | ⟨a, g⟩
        · rfl
        · exact absurd (Nat.succ_pos _) hg
      rw [if_neg (by simpa using hg), List.flatten_cons, ih, hgnil,
        List.nil_append]

lemma flatten_eq_flatMap_range {α : Type} (gs : List (List α)) :
    gs.flatten = (List.range gs.length).flatMap
      fun i => (gs[i]?).getD [] := by
  induction gs with
  | nil => rfl
  | cons g gs ih =>
    rw [List.flatten_cons, List.length_cons, List.range_succ_eq_map,
      List.flatMap_cons, ih]
    congr 1
    · simp
    · rw [List.flatMap_map]
      refine List.flatMap_congr ?_
      intro i _
      simp

lemma fiber_flat_perm {f : Nat → Nat} :
    ∀ (js : List Nat) (l : List Nat), (∀ i ∈ l, f i ∈ js) → js.Nodup →
      List.Perm (js.flatMap fun j => l.filter fun i => decide (f i = j))
        l := by
  intro js
  induction js with
  | nil =>
    intro l hl _
    have : l = [] := by
      rcases l with _ | ⟨a, l⟩
      · rfl
      · exact absurd (hl a (List.mem_cons_self a l)) (by simp)
    rw [this]
    exact List.Perm.refl _
  | cons j js ih =>
    intro l hl hnd
    rw [List.flatMap_cons]
    have hsplit := List.filter_append_perm (fun i => decide (f i = j)) l
    refine List.Perm.trans ?_ hsplit
    refine List.Perm.append_left _ ?_
    have hfibers : ∀ j' ∈ js,
        l.filter (fun i => decide (f i = j')) =
          (l.filter fun i => ! decide (f i = j)).filter
            (fun i => decide (f i = j')) := by
      intro j' hj'
      rw [List.filter_filter]
      refine (List.filter_congr ?_).symm
      intro i _
      have hne : j' ≠ j := by
        intro hc
        subst hc
        exact (List.nodup_cons.mp hnd).1 hj'
      by_cases hf : f i = j'
      · simp [hf, hne]
      · simp [hf]
    have hmap : (js.flatMap fun j' =>
        l.filter fun i => decide (f i = j')) =
        js.flatMap fun j' =>
          (l.filter fun i => ! decide (f i = j)).filter
            fun i => decide (f i = j') := by
      refine List.flatMap_congr ?_
      intro j' hj'
      exact hfibers j' hj'
    rw [hmap]
    refine ih (l.filter fun i => ! decide (f i = j)) ?_
      (List.nodup_cons.mp hnd).2
    intro i hi
    have hmem := List.mem_filter.mp hi
    have := hl i hmem.1
    rcases List.mem_cons.mp this with hc | hc
    · exfalso
      have := hmem.2
      simp only [Bool.not_eq_true', decide_eq_false_iff_not] at this
      exact this hc
    · exact hc

/-- Group `i` of the working list, empty when out of range. -/
def gIdx (groups : List (List Poly.GridCell)) (i : Nat) :
    List Poly.GridCell :=
  (groups[i]?).getD []

/-- The cells whose group resolves to root `j`, in group order: what
the pass rebuild puts into slot `j`. -/
def cluster (groups : List (List Poly.GridCell))
    (m : List (Nat × Nat)) (j : Nat) : List Poly.GridCell :=
  ((List.range groups.length).filter fun i =>
    decide (Rspec m i = j)).flatMap (gIdx groups)

/-- Coordinates of a cell group. -/
def groupCoords (g : List Poly.GridCell) : List (Int × Int) :=
  g.map gcCoord

lemma mem_cluster {groups : List (List Poly.GridCell)}
    {m : List (Nat × Nat)} {j : Nat} {x : Poly.GridCell} :
    x ∈ cluster groups m j ↔
      ∃ i, i < groups.length ∧ Rspec m i = j ∧ x ∈ gIdx groups i := by
  unfold cluster
  rw [List.mem_flatMap]
  constructor
  · rintro ⟨i, hi, hx⟩
    have := List.mem_filter.mp hi
    exact ⟨i, List.mem_range.mp this.1, by simpa using this.2, hx⟩
  · rintro ⟨i, hi, hr, hx⟩
    exact ⟨i, List.mem_filter.mpr
      ⟨List.mem_range.mpr hi, by simpa using hr⟩, hx⟩

lemma cluster_nil {groups : List (List Poly.GridCell)} {j : Nat}
    (hj : j < groups.length) : cluster groups [] j = gIdx groups j := by
  unfold cluster
  have : (List.range groups.length).filter
      (fun i => decide (Rspec [] i = j)) = [j] := by
    refine range_filter_eq_single hj ?_
    intro i _
    show decide (Rspec [] i = j) = true ↔ i = j
    simp [Rspec]
  rw [this, List.flatMap_cons, List.flatMap_nil, List.append_nil]

lemma mem_cluster_snoc_target {groups : List (List Poly.GridCell)}
    {m : List (Nat × Nat)} {s t : Nat} {x : Poly.GridCell} :
    x ∈ cluster groups (m ++ [(s, t)]) t ↔
      x ∈ cluster groups m t ∨ x ∈ cluster groups m s := by
  simp only [mem_cluster, Rspec_snoc]
  constructor
  · rintro ⟨i, hi, hr, hx⟩
    split at hr
    · rename_i hs
      exact Or.inr ⟨i, hi, hs, hx⟩
    · exact Or.inl ⟨i, hi, hr, hx⟩
  · rintro (⟨i, hi, hr, hx⟩ | ⟨i, hi, hr, hx⟩)
    · refine ⟨i, hi, ?_, hx⟩
      split
      · rfl
      · exact hr
    · refine ⟨i, hi, ?_, hx⟩
      rw [if_pos hr]

lemma mem_cluster_snoc_other {groups : List (List Poly.GridCell)}
    {m : List (Nat × Nat)} {s t j : Nat} (hjt : j ≠ t) (hjs : j ≠ s)
    {x : Poly.GridCell} :
    x ∈ cluster groups (m ++ [(s, t)]) j ↔ x ∈ cluster groups m j := by
  simp only [mem_cluster, Rspec_snoc]
  constructor
  · rintro ⟨i, hi, hr, hx⟩
    split at hr
    · exact absurd hr.symm hjt
    · exact ⟨i, hi, hr, hx⟩
  · rintro ⟨i, hi, hr, hx⟩
    refine ⟨i, hi, ?_, hx⟩
    rw [if_neg (fun hc => hjs (by rw [← hr, hc]))]
    exact hr

lemma flatten_map_eq_flatMap {α β : Type} (l : List α)
    (f : α → List β) : (l.map f).flatten = l.flatMap f := by
  induction l with
  | nil => rfl
  | cons a l ih => rw [List.map_cons, List.flatten_cons, ih]; rfl

lemma rebuildGroups_eq {groups : List (List Poly.GridCell)}
    {m : List (Nat × Nat)} (hg : GOOD m)
    (hlen : m.length ≤ groups.length) :
    Poly.rebuildGroups groups m =
      ((List.range groups.length).map (cluster groups m)).filter
        fun g => decide (0 < g.length) := by
  unfold Poly.rebuildGroups
  congr 1
  refine List.map_congr_left ?_
  intro j _
  unfold cluster
  congr 1
  refine List.filter_congr ?_
  intro i _
  rw [resolve_eq_Rspec (groups.length + 1) m hg (by omega) i]

lemma rebuildGroups_flatten_perm {groups : List (List Poly.GridCell)}
    {m : List (Nat × Nat)} (hg : GOOD m)
    (hlen : m.length ≤ groups.length)
    (hbnd : ∀ e ∈ m, e.2 < groups.length) :
    List.Perm (Poly.rebuildGroups groups m).flatten groups.flatten := by
  rw [rebuildGroups_eq hg hlen, flatten_filter_nonempty,
    flatten_map_eq_flatMap]
  have h1 : (List.range groups.length).flatMap (cluster groups m) =
      ((List.range groups.length).flatMap fun j =>
        (List.range groups.length).filter fun i =>
          decide (Rspec m i = j)).flatMap (gIdx groups) := by
    rw [List.flatMap_assoc]
    rfl
  rw [h1]
  have h2 : List.Perm
      ((List.range groups.length).flatMap fun j =>
        (List.range groups.length).filter fun i =>
          decide (Rspec m i = j))
      (List.range groups.length) := by
    refine fiber_flat_perm (List.range groups.length) _ ?_
      (List.nodup_range _)
    intro i hi
    exact List.mem_range.mpr
      (Rspec_lt hbnd (List.mem_range.mp hi))
  refine List.Perm.trans (h2.flatMap_right (gIdx groups)) ?_
  rw [flatten_eq_flatMap_range]
  exact List.Perm.refl _

/-! ### Provenance of the merge candidates (towards C9) -/

lemma neighborIds_inner_mem (cm : List Poly.GridCell)
    (cell : Poly.GridCell) :
    ∀ (nks : List (Int × Int)) (acc : List Nat) (bid : Nat),
      bid ∈ nks.foldl
        (fun acc nk =>
          match Poly.cellAt cm nk.1 nk.2 with
          | some nc =>
            if nc.blockId ∈ acc then acc else acc ++ [nc.blockId]
          | none => acc)
        acc →
      bid ∈ acc ∨ ∃ nk ∈ nks, ∃ nc, Poly.cellAt cm nk.1 nk.2 = some nc ∧
        nc.blockId = bid := by
  intro nks
  induction nks with
  | nil => intro acc bid h; exact Or.inl h
  | cons nk nks ih =>
    intro acc bid h
    rw [List.foldl_cons] at h
    rcases ih _ bid h with h' | ⟨nk', hnk', nc, hnc, hbid⟩
    · rcases hca : Poly.cellAt cm nk.1 nk.2 with _ | nc
      · rw [hca] at h'
        exact Or.inl h'
      · rw [hca] at h'
        dsimp only at h'
        split at h'
        · exact Or.inl h'
        · rcases List.mem_append.mp h' with h'' | h''
          · exact Or.inl h''
          · rcases List.mem_singleton.mp h'' with rfl
            exact Or.inr ⟨nk, List.mem_cons_self nk nks, nc, hca, rfl⟩
    · exact Or.inr ⟨nk', List.mem_cons_of_mem nk hnk', nc, hnc, hbid⟩

lemma neighborIds_mem (cm : List Poly.GridCell) :
    ∀ (cells : List Poly.GridCell) (acc : List Nat) (bid : Nat),
      bid ∈ cells.foldl
        (fun acc cell =>
          (Poly.neighborsOf cell.x cell.y).foldl
            (fun acc nk =>
              match Poly.cellAt cm nk.1 nk.2 with
              | some nc =>
                if nc.blockId ∈ acc then acc else acc ++ [nc.blockId]
              | none => acc)
            acc)
        acc →
      bid ∈ acc ∨ ∃ cell ∈ cells,
        ∃ nk ∈ Poly.neighborsOf cell.x cell.y, ∃ nc,
          Poly.cellAt cm nk.1 nk.2 = some nc ∧ nc.blockId = bid := by
  intro cells
  induction cells with
  | nil => intro acc bid h; exact Or.inl h
  | cons cell cells ih =>
    intro acc bid h
    rw [List.foldl_cons] at h
    rcases ih _ bid h with h' | ⟨cell', hc', nk, hnk, nc, hnc, hbid⟩
    · rcases neighborIds_inner_mem cm cell _ _ bid h' with h'' | h''
      · exact Or.inl h''
      · obtain ⟨nk, hnk, nc, hnc, hbid⟩ := h''
        exact Or.inr ⟨cell, List.mem_cons_self cell cells, nk, hnk, nc,
          hnc, hbid⟩
    · exact Or.inr ⟨cell', List.mem_cons_of_mem cell hc', nk, hnk, nc,
        hnc, hbid⟩

lemma blockToGroupIdx_spec (groups : List (List Poly.GridCell))
    (bid : Nat) :
    ∀ (l : List (Nat × List Poly.GridCell)) (acc : Option Nat)
      {g0 : Nat},
      l.foldl
        (fun acc gi =>
          if gi.2.any (fun c => c.blockId == bid) then some gi.1
          else acc)
        acc = some g0 →
      acc = some g0 ∨ ∃ gr, (g0, gr) ∈ l ∧
        ∃ c ∈ gr, c.blockId = bid := by
  intro l
  induction l with
  | nil => intro acc g0 h; exact Or.inl h
  | cons gi l ih =>
    intro acc g0 h
    rw [List.foldl_cons] at h
    rcases ih _ h with h' | ⟨gr, hgr, c, hc, hbid⟩
    · split at h'
      · rename_i hany
        obtain rfl := Option.some.inj h'
        obtain ⟨c, hc, hbid⟩ := List.any_eq_true.mp hany
        exact Or.inr ⟨gi.2, by simpa using List.mem_cons_self gi l,
          c, hc, by simpa using hbid⟩
      · exact Or.inl h'
    · exact Or.inr ⟨gr, List.mem_cons_of_mem gi hgr, c, hc, hbid⟩

lemma blockToGroupIdx_some {groups : List (List Poly.GridCell)}
    {bid g0 : Nat} (h : Poly.blockToGroupIdx groups bid = some g0) :
    g0 < groups.length ∧ ∃ c ∈ gIdx groups g0, c.blockId = bid := by
  unfold Poly.blockToGroupIdx at h
  rcases blockToGroupIdx_spec groups bid _ _ h with h' | ⟨gr, hgr, hc⟩
  · exact absurd h' (by simp)
  · have := List.mem_enum_iff_getElem?.mp hgr
    refine ⟨?_, ?_⟩
    · exact (List.getElem?_eq_some.mp this).1
    · unfold gIdx
      rw [this]
      exact hc

lemma candidates_mem (st1 : List (Nat × Nat))
    (groups : List (List Poly.GridCell)) (smallIdx fuelR : Nat)
    (sizes : List Nat) (slen cap : Nat) :
    ∀ (bids : List Nat) (cand : List (Nat × Nat))
      {c : Nat × Nat},
      c ∈ bids.foldl
        (fun cand bid =>
          match Poly.blockToGroupIdx groups bid with
          | none => cand
          | some t0 =>
            let targetIdx := Poly.resolve st1 fuelR t0
            if targetIdx = smallIdx then cand
            else if cand.any (fun c => c.1 == targetIdx) then cand
            else if (sizes[targetIdx]?).getD 0 + slen ≤ cap then
              cand ++ [(targetIdx, (sizes[targetIdx]?).getD 0)]
            else cand)
        cand →
      c ∈ cand ∨ ∃ bid ∈ bids, ∃ t0,
        Poly.blockToGroupIdx groups bid = some t0 ∧
        c.1 = Poly.resolve st1 fuelR t0 ∧ c.1 ≠ smallIdx := by
  intro bids
  induction bids with
  | nil => intro cand c h; exact Or.inl h
  | cons bid bids ih =>
    intro cand c h
    rw [List.foldl_cons] at h
    rcases ih _ h with h' | ⟨bid', hbid', t0, ht0, hc1, hcs⟩
    · rcases hbg : Poly.blockToGroupIdx groups bid with _ | t0
      · rw [hbg] at h'
        exact Or.inl h'
      · rw [hbg] at h'
        dsimp only at h'
        split at h'
        · exact Or.inl h'
        · split at h'
          · exact Or.inl h'
          · split at h'
            · rcases List.mem_append.mp h' with h'' | h''
              · exact Or.inl h''
              · rcases List.mem_singleton.mp h'' with rfl
                rename_i hne _ _
                exact Or.inr ⟨bid, List.mem_cons_self bid bids, t0, hbg,
                  rfl, hne⟩
            · exact Or.inl h'
    · exact Or.inr ⟨bid', List.mem_cons_of_mem bid hbid', t0, ht0, hc1,
        hcs⟩

lemma lastBlockCell_aux_some (bid : Nat) :
    ∀ (l : List Poly.GridCell) (acc : Option Poly.GridCell)
      {c : Poly.GridCell},
      l.foldl (fun acc d => if d.blockId = bid then some d else acc) acc
        = some c →
      acc = some c ∨ (c ∈ l ∧ c.blockId = bid) := by
  intro l
  induction l with
  | nil => intro acc c h; exact Or.inl h
  | cons d l ih =>
    intro acc c h
    rw [List.foldl_cons] at h
    rcases ih _ h with h' | ⟨hc, hbid⟩
    · split at h'
      · rename_i hd
        obtain rfl := Option.some.inj h'
        exact Or.inr ⟨List.mem_cons_self d l, hd⟩
      · exact Or.inl h'
    · exact Or.inr ⟨List.mem_cons_of_mem d hc, hbid⟩

lemma lastBlockCell_aux_isSome (bid : Nat) :
    ∀ (l : List Poly.GridCell) (acc : Option Poly.GridCell),
      (∃ c ∈ l, c.blockId = bid) ∨ acc.isSome = true →
      (l.foldl (fun acc d => if d.blockId = bid then some d else acc)
        acc).isSome = true := by
  intro l
  induction l with
  | nil =>
    intro acc h
    rcases h with ⟨c, hc, _⟩ | h
    · exact absurd hc (List.not_mem_nil c)
    · exact h
  | cons d l ih =>
    intro acc h
    rw [List.foldl_cons]
    rcases h with ⟨c, hc, hbid⟩ | h
    · rcases List.mem_cons.mp hc with rfl | hc'
      · refine ih _ (Or.inr ?_)
        rw [if_pos hbid]
        rfl
      · exact ih _ (Or.inl ⟨c, hc', hbid⟩)
    · refine ih _ (Or.inr ?_)
      split
      · rfl
      · exact h

lemma lastBlockCell_roundtrip {cm : List Poly.GridCell}
    (hnd : (cm.map fun c => c.blockId).Nodup) {c : Poly.GridCell}
    (hc : c ∈ cm) : Poly.lastBlockCell cm c.blockId = some c := by
  have hsome : (Poly.lastBlockCell cm c.blockId).isSome = true :=
    lastBlockCell_aux_isSome c.blockId cm none (Or.inl ⟨c, hc, rfl⟩)
  rcases hval : Poly.lastBlockCell cm c.blockId with _ | d
  · rw [hval] at hsome
    exact absurd hsome (by simp)
  · rcases lastBlockCell_aux_some c.blockId cm none hval with h' |
      ⟨hd, hbid⟩
    · exact absurd h' (by simp)
    · have : d = c :=
        List.inj_on_of_nodup_map hnd hd hc hbid
      rw [this]

lemma mergeSmallStep_cases (cm : List Poly.GridCell)
    (config : Poly.PolyominoConfig)
    (groups : List (List Poly.GridCell))
    (st : List (Nat × Nat) × List Nat × Nat) (smallIdx : Nat) :
    (Poly.mergeSmallStep cm config groups st smallIdx).1 = st.1 ∨
    ∃ smallGroup t,
      (Poly.mergeSmallStep cm config groups st smallIdx).1 =
        st.1 ++ [(smallIdx, t)] ∧
      Poly.resolve st.1 (groups.length + 1) smallIdx = smallIdx ∧
      groups[smallIdx]? = some smallGroup ∧
      t ≠ smallIdx ∧
      ∃ bid, (∃ cell ∈ smallGroup,
          ∃ nk ∈ Poly.neighborsOf cell.x cell.y,
          ∃ nc, Poly.cellAt cm nk.1 nk.2 = some nc ∧
            nc.blockId = bid) ∧
        ∃ t0, Poly.blockToGroupIdx groups bid = some t0 ∧
          t = Poly.resolve st.1 (groups.length + 1) t0 := by
  unfold Poly.mergeSmallStep
  by_cases hres : Poly.resolve st.1 (groups.length + 1) smallIdx
      ≠ smallIdx
  · simp only [if_pos hres]
    exact Or.inl trivial
  · simp only [if_neg hres]
    rcases hsg : groups[smallIdx]? with _ | smallGroup
    · simp only [hsg]
      exact Or.inl trivial
    · simp only [hsg]
      by_cases hsmall : config.minPieceSize ≤ smallGroup.length
      · simp only [if_pos hsmall]
        exact Or.inl trivial
      · simp only [if_neg hsmall]
        split
        · exact Or.inl rfl
        · rename_i best tail hsort
          have hmem0 : best ∈ best :: tail :=
            List.mem_cons_self best tail
          rw [← hsort, List.mem_insertionSort] at hmem0
          have hbest := hmem0
          rcases candidates_mem st.1 groups smallIdx
              (groups.length + 1) st.2.1 smallGroup.length
              (max config.maxPieceSize 5) _ [] hbest with h |
              ⟨bid, hbid, t0, hbg, hc1, hcs⟩
          · exact absurd h (List.not_mem_nil best)
          · rcases neighborIds_mem cm smallGroup [] bid hbid with h' |
              ⟨cell, hcell, nk, hnk, nc, hnc, hncb⟩
            · exact absurd h' (List.not_mem_nil bid)
            · refine Or.inr ⟨smallGroup, best.1, rfl, ?_, rfl, hcs, bid,
                ⟨cell, hcell, nk, hnk, nc, hnc, hncb⟩, t0, hbg, hc1⟩
              exact not_ne_iff.mp hres

/-- Cells of every group come from the registry. -/
def GroupsCm (cm : List Poly.GridCell)
    (groups : List (List Poly.GridCell)) : Prop :=
  ∀ gr ∈ groups, ∀ c ∈ gr, c ∈ cm

/-- Every group is 4-connected. -/
def GroupsConn (groups : List (List Poly.GridCell)) : Prop :=
  ∀ gr ∈ groups, ConnIn (groupCoords gr)

lemma gIdx_mem_or_nil (groups : List (List Poly.GridCell)) (i : Nat) :
    gIdx groups i ∈ groups ∨ gIdx groups i = [] := by
  unfold gIdx
  rcases h : groups[i]? with _ | g
  · exact Or.inr rfl
  · left
    obtain ⟨hl, he⟩ := List.getElem?_eq_some.mp h
    simp only [Option.getD_some]
    exact he ▸ List.getElem_mem hl

lemma GroupsCm_gIdx {cm : List Poly.GridCell}
    {groups : List (List Poly.GridCell)} (h : GroupsCm cm groups)
    (i : Nat) : ∀ c ∈ gIdx groups i, c ∈ cm := by
  rcases gIdx_mem_or_nil groups i with hm | hm
  · exact h _ hm
  · rw [hm]
    intro c hc
    exact absurd hc (List.not_mem_nil c)

/-- The invariant carried through one merge pass over an absorption
map. -/
def PassInv (groups : List (List Poly.GridCell))
    (m : List (Nat × Nat)) : Prop :=
  GOOD m ∧ (m.map Prod.fst).Nodup ∧
  (∀ e ∈ m, e.1 < groups.length ∧ e.2 < groups.length) ∧
  (∀ j, j < groups.length → Rspec m j = j →
    ConnIn (groupCoords (cluster groups m j)))

lemma keys_len_le {m : List (Nat × Nat)} {n : Nat}
    (hnd : (m.map Prod.fst).Nodup) (hbnd : ∀ e ∈ m, e.1 < n) :
    m.length ≤ n := by
  have hsub : m.map Prod.fst ⊆ List.range n := by
    intro x hx
    obtain ⟨e, he, rfl⟩ := List.mem_map.mp hx
    exact List.mem_range.mpr (hbnd e he)
  have := (List.subperm_of_subset hnd hsub).length_le
  simpa using this

lemma mergeSmallStep_inv {cm : List Poly.GridCell}
    {config : Poly.PolyominoConfig}
    {groups : List (List Poly.GridCell)}
    (hbidnd : (cm.map fun c => c.blockId).Nodup)
    (hcm : GroupsCm cm groups)
    (st : List (Nat × Nat) × List Nat × Nat) (smallIdx : Nat)
    (hinv : PassInv groups st.1) :
    PassInv groups (Poly.mergeSmallStep cm config groups st
      smallIdx).1 := by
  rcases mergeSmallStep_cases cm config groups st smallIdx with heq |
    ⟨smallGroup, t, heq, hres, hsg, hts, bid,
      ⟨cell, hcell, nk, hnk, nc, hnc, hncb⟩, t0, hbg, ht⟩
  · rw [heq]; exact hinv
  · obtain ⟨hgood, hnd, hbnd, hconn⟩ := hinv
    have hn : st.1.length ≤ groups.length :=
      keys_len_le hnd (fun e he => (hbnd e he).1)
    have hmaster : ∀ x, Poly.resolve st.1 (groups.length + 1) x =
        Rspec st.1 x :=
      resolve_eq_Rspec (groups.length + 1) st.1 hgood (by omega)
    have hsroot : Rspec st.1 smallIdx = smallIdx := by
      rw [← hmaster]; exact hres
    have hslt : smallIdx < groups.length :=
      (List.getElem?_eq_some.mp hsg).1
    have ht0lt : t0 < groups.length := (blockToGroupIdx_some hbg).1
    obtain ⟨cstar, hcstar, hcstarb⟩ := (blockToGroupIdx_some hbg).2
    have htR : t = Rspec st.1 t0 := by rw [ht, hmaster]
    have htlt : t < groups.length := by
      rw [htR]
      exact Rspec_lt (fun e he => (hbnd e he).2) ht0lt
    have htnk : t ∉ st.1.map Prod.fst := htR ▸ Rspec_not_key hgood t0
    have htroot : Rspec st.1 t = t := by
      refine foldl_Rstep_skip ?_
      intro e he hc
      exact htnk (List.mem_map.mpr ⟨e, he, hc⟩)
    have hsnk : smallIdx ∉ st.1.map Prod.fst :=
      Rspec_fixed_not_key hgood hsroot
    have hgood' : GOOD (st.1 ++ [(smallIdx, t)]) :=
      GOOD_snoc hgood htnk hts
    -- the bridge cells
    have hncm : nc ∈ cm := (cellAt_some hnc).1
    have hcstarm : cstar ∈ cm := GroupsCm_gIdx hcm t0 cstar hcstar
    have hcnc : cstar = nc :=
      List.inj_on_of_nodup_map hbidnd hcstarm hncm
        (by rw [hcstarb, hncb])
    have hsmall_g : gIdx groups smallIdx = smallGroup := by
      unfold gIdx; rw [hsg]; rfl
    have hcell_cluster : cell ∈ cluster groups st.1 smallIdx :=
      mem_cluster.mpr ⟨smallIdx, hslt, hsroot, hsmall_g ▸ hcell⟩
    have hnc_cluster : nc ∈ cluster groups st.1 t :=
      mem_cluster.mpr ⟨t0, ht0lt, htR.symm, hcnc ▸ hcstar⟩
    have hadj : adjacentP (gcCoord cell) (gcCoord nc) := by
      show gcCoord nc ∈ Poly.neighborsOf (gcCoord cell).1
        (gcCoord cell).2
      have hx : nc.x = nk.1 := (cellAt_some hnc).2.1
      have hy : nc.y = nk.2 := (cellAt_some hnc).2.2
      have : gcCoord nc = nk := by
        unfold gcCoord; rw [hx, hy]
      rw [this]
      exact hnk
    rw [heq]
    refine ⟨hgood', ?_, ?_, ?_⟩
    · rw [List.map_append]
      refine List.Nodup.append hnd (by simp) ?_
      intro a ha ha'
      simp only [List.map_cons, List.map_nil, List.mem_singleton]
        at ha'
      subst ha'
      exact hsnk ha
    · intro e he
      rcases List.mem_append.mp he with he' | he'
      · exact hbnd e he'
      · rcases List.mem_singleton.mp he' with rfl
        exact ⟨hslt, htlt⟩
    · intro j hj hroot'
      by_cases hjt : j = t
      · subst hjt
        have hequiv : ∀ x,
            x ∈ groupCoords (cluster groups (st.1 ++ [(smallIdx, j)]) j)
              ↔ x ∈ groupCoords (cluster groups st.1 j) ++
                groupCoords (cluster groups st.1 smallIdx) := by
          intro x
          unfold groupCoords
          rw [List.mem_append, List.mem_map, List.mem_map,
            List.mem_map]
          constructor
          · rintro ⟨c, hc, rfl⟩
            rcases mem_cluster_snoc_target.mp hc with hc' | hc'
            · exact Or.inl ⟨c, hc', rfl⟩
            · exact Or.inr ⟨c, hc', rfl⟩
          · rintro (⟨c, hc, rfl⟩ | ⟨c, hc, rfl⟩)
            · exact ⟨c, mem_cluster_snoc_target.mpr (Or.inl hc), rfl⟩
            · exact ⟨c, mem_cluster_snoc_target.mpr (Or.inr hc), rfl⟩
        refine ConnIn_congr (fun x => (hequiv x).symm) ?_
        refine ConnIn_append (hconn j hj htroot)
          (hconn smallIdx hslt hsroot) (gcCoord nc) (gcCoord cell)
          ?_ ?_ (adjacentP_symm hadj)
        · exact List.mem_map.mpr ⟨nc, hnc_cluster, rfl⟩
        · exact List.mem_map.mpr ⟨cell, hcell_cluster, rfl⟩
      · have hjnk : j ∉ (st.1 ++ [(smallIdx, t)]).map Prod.fst :=
          Rspec_fixed_not_key hgood' hroot'
        have hjs : j ≠ smallIdx := by
          intro hc
          refine hjnk ?_
          rw [List.map_append, hc]
          exact List.mem_append.mpr (Or.inr (by simp))
        have hjroot : Rspec st.1 j = j := by
          refine foldl_Rstep_skip ?_
          intro e he hc
          refine hjnk ?_
          rw [List.map_append]
          exact List.mem_append.mpr
            (Or.inl (List.mem_map.mpr ⟨e, he, hc⟩))
        have hequiv : ∀ x,
            x ∈ groupCoords (cluster groups (st.1 ++ [(smallIdx, t)]) j)
              ↔ x ∈ groupCoords (cluster groups st.1 j) := by
          intro x
          unfold groupCoords
          rw [List.mem_map, List.mem_map]
          constructor
          · rintro ⟨c, hc, rfl⟩
            exact ⟨c, (mem_cluster_snoc_other hjt hjs).mp hc, rfl⟩
          · rintro ⟨c, hc, rfl⟩
            exact ⟨c, (mem_cluster_snoc_other hjt hjs).mpr hc, rfl⟩
        exact ConnIn_congr (fun x => (hequiv x).symm)
          (hconn j hj hjroot)

lemma PassInv_nil {groups : List (List Poly.GridCell)}
    (hgc : GroupsConn groups) : PassInv groups [] := by
  refine ⟨GOOD_nil, by simp, by simp, ?_⟩
  intro j hj _
  rw [cluster_nil hj]
  rcases gIdx_mem_or_nil groups j with hm | hm
  · exact hgc _ hm
  · rw [hm]
    intro a ha
    exact absurd ha (List.not_mem_nil a)

lemma mergePass_inv {cm : List Poly.GridCell}
    {config : Poly.PolyominoConfig}
    {groups : List (List Poly.GridCell)}
    (hbidnd : (cm.map fun c => c.blockId).Nodup)
    (hcm : GroupsCm cm groups) (hgc : GroupsConn groups) :
    PassInv groups (Poly.mergePass cm config groups).1 := by
  unfold Poly.mergePass
  have main : ∀ (l : List Nat) (st : List (Nat × Nat) × List Nat × Nat),
      PassInv groups st.1 →
      PassInv groups
        (l.foldl (Poly.mergeSmallStep cm config groups) st).1 := by
    intro l
    induction l with
    | nil => intro st h; exact h
    | cons i l ih =>
      intro st h
      rw [List.foldl_cons]
      exact ih _ (mergeSmallStep_inv hbidnd hcm st i h)
  exact main _ _ (PassInv_nil hgc)

lemma cluster_subset_cm {cm : List Poly.GridCell}
    {groups : List (List Poly.GridCell)} (hcm : GroupsCm cm groups)
    (m : List (Nat × Nat)) (j : Nat) :
    ∀ c ∈ cluster groups m j, c ∈ cm := by
  intro c hc
  obtain ⟨i, _, _, hci⟩ := mem_cluster.mp hc
  exact GroupsCm_gIdx hcm i c hci

lemma rebuild_inv {cm : List Poly.GridCell}
    {groups : List (List Poly.GridCell)} {m : List (Nat × Nat)}
    (hcm : GroupsCm cm groups) (hinv : PassInv groups m) :
    GroupsCm cm (Poly.rebuildGroups groups m) ∧
    GroupsConn (Poly.rebuildGroups groups m) ∧
    List.Perm (Poly.rebuildGroups groups m).flatten groups.flatten := by
  obtain ⟨hgood, hnd, hbnd, hconn⟩ := hinv
  have hlen : m.length ≤ groups.length :=
    keys_len_le hnd (fun e he => (hbnd e he).1)
  have hmem : ∀ gr ∈ Poly.rebuildGroups groups m,
      ∃ j, j < groups.length ∧ gr = cluster groups m j ∧
        0 < gr.length := by
    intro gr hgr
    rw [rebuildGroups_eq hgood hlen] at hgr
    have h1 := List.mem_filter.mp hgr
    obtain ⟨j, hj, rfl⟩ := List.mem_map.mp h1.1
    exact ⟨j, List.mem_range.mp hj, rfl, by simpa using h1.2⟩
  refine ⟨?_, ?_, ?_⟩
  · intro gr hgr
    obtain ⟨j, _, rfl, _⟩ := hmem gr hgr
    exact cluster_subset_cm hcm m j
  · intro gr hgr
    obtain ⟨j, hj, rfl, hpos⟩ := hmem gr hgr
    have hjroot : Rspec m j = j := by
      by_cases hk : j ∈ m.map Prod.fst
      · exfalso
        rcases hc : cluster groups m j with _ | ⟨c, cs⟩
        · rw [hc] at hpos
          exact absurd hpos (by simp)
        · have hcc : c ∈ cluster groups m j := by
            rw [hc]; exact List.mem_cons_self c cs
          obtain ⟨i, _, hri, _⟩ := mem_cluster.mp hcc
          exact Rspec_not_key hgood i (hri ▸ hk)
      · refine foldl_Rstep_skip ?_
        intro e he hc
        exact hk (List.mem_map.mpr ⟨e, he, hc⟩)
    exact hconn j hj hjroot
  · exact rebuildGroups_flatten_perm hgood hlen
      (fun e he => (hbnd e he).2)

lemma mergePasses_inv {cm : List Poly.GridCell}
    {config : Poly.PolyominoConfig}
    (hbidnd : (cm.map fun c => c.blockId).Nodup) :
    ∀ (fuel : Nat) (groups : List (List Poly.GridCell)),
      GroupsCm cm groups → GroupsConn groups →
      GroupsCm cm (Poly.mergePasses cm config fuel groups) ∧
      GroupsConn (Poly.mergePasses cm config fuel groups) ∧
      List.Perm (Poly.mergePasses cm config fuel groups).flatten
        groups.flatten := by
  intro fuel
  induction fuel with
  | zero =>
    intro groups hcm hgc
    exact ⟨hcm, hgc, List.Perm.refl _⟩
  | succ fuel ih =>
    intro groups hcm hgc
    show GroupsCm cm (Poly.mergePasses cm config (fuel + 1) groups) ∧ _
    by_cases hcnt : (groups.filter fun g =>
        decide (g.length < config.minPieceSize)).length = 0
    · simp only [Poly.mergePasses, if_pos hcnt]
      exact ⟨hcm, hgc, List.Perm.refl _⟩
    · simp only [Poly.mergePasses, if_neg hcnt]
      by_cases hpm : (Poly.mergePass cm config groups).2.2 = 0
      · simp only [if_pos hpm]
        exact ⟨hcm, hgc, List.Perm.refl _⟩
      · simp only [if_neg hpm]
        have hpass := @mergePass_inv cm config groups hbidnd hcm hgc
        obtain ⟨h1, h2, h3⟩ := rebuild_inv hcm hpass
        obtain ⟨h4, h5, h6⟩ := ih _ h1 h2
        exact ⟨h4, h5, h6.trans h3⟩

/-! ### Piece to cell-group transfer (towards C9) -/

/-- Absolute coordinates of the cells of a piece. -/
def pieceCoords (pc : Poly.Piece) : List (Int × Int) :=
  pc.cells.map fun c => (c.relX + pc.correctX, c.relY + pc.correctY)

lemma createPiece_coords_perm (cells : List Poly.GridCell) (k : Nat)
    (cm : List Poly.GridCell) :
    List.Perm (pieceCoords (Poly.createPiece cells k cm))
      (cells.map gcCoord) := by
  unfold pieceCoords Poly.createPiece
  dsimp only
  refine List.Perm.trans
    ((List.perm_insertionSort Poly.pieceLE _).map _) ?_
  rw [List.map_map]
  refine List.Perm.of_eq (List.map_congr_left ?_)
  intro c _
  unfold gcCoord
  show (c.x - _ + _, c.y - _ + _) = (c.x, c.y)
  rw [sub_add_cancel, sub_add_cancel]

lemma map_id_of_eq {α : Type} (l : List α) (f : α → α)
    (h : ∀ x ∈ l, f x = x) : l.map f = l := by
  induction l with
  | nil => rfl
  | cons a l ih =>
    rw [List.map_cons, h a (List.mem_cons_self a l),
      ih fun x hx => h x (List.mem_cons_of_mem a hx)]

lemma filterMap_eq_map_getD {α β : Type} (F : α → Option β) (d : β) :
    ∀ l : List α, (∀ x ∈ l, (F x).isSome = true) →
      l.filterMap F = l.map fun x => (F x).getD d := by
  intro l
  induction l with
  | nil => intro _; rfl
  | cons a l ih =>
    intro h
    rcases hF : F a with _ | b
    · have := h a (List.mem_cons_self a l)
      rw [hF] at this
      exact absurd this (by simp)
    · rw [List.filterMap_cons, List.map_cons, hF,
        ih fun x hx => h x (List.mem_cons_of_mem a hx)]
      rfl

/-- Recovering a freshly created piece's registry cells through
`lastBlockCell` gives back its source cells, up to order. -/
lemma recover_cells {cm : List Poly.GridCell}
    (hbidnd : (cm.map fun c => c.blockId).Nodup)
    (cells : List Poly.GridCell) (k : Nat)
    (hsub : ∀ c ∈ cells, c ∈ cm) :
    List.Perm ((Poly.createPiece cells k cm).cells.filterMap fun c =>
      Poly.lastBlockCell cm c.blockId) cells := by
  have hall : ∀ x ∈ (Poly.createPiece cells k cm).cells,
      ∃ c ∈ cells, Poly.lastBlockCell cm x.blockId = some c ∧
        (Poly.lastBlockCell cm x.blockId).getD
          (⟨0, 0, "", 0, 0⟩ : Poly.GridCell) = c := by
    intro x hx
    simp only [Poly.createPiece, List.mem_insertionSort, List.mem_map]
      at hx
    obtain ⟨c, hc, rfl⟩ := hx
    have hlbc : Poly.lastBlockCell cm c.blockId = some c :=
      lastBlockCell_roundtrip hbidnd (hsub c hc)
    exact ⟨c, hc, hlbc, by rw [hlbc]; rfl⟩
  rw [filterMap_eq_map_getD _ ⟨0, 0, "", 0, 0⟩ _
    (fun x hx => by obtain ⟨c, _, hl, _⟩ := hall x hx; rw [hl]; rfl)]
  have hmapped : ((Poly.createPiece cells k cm).cells.map fun x =>
      (Poly.lastBlockCell cm x.blockId).getD ⟨0, 0, "", 0, 0⟩) =
      (List.insertionSort Poly.pieceLE ((cells.map fun cell =>
        ({ relX := cell.x -
            (cells.foldl Poly.pickAnchor
              (cells.headD ⟨0, 0, "", 0, 0⟩)).x
           relY := cell.y -
            (cells.foldl Poly.pickAnchor
              (cells.headD ⟨0, 0, "", 0, 0⟩)).y
           letter := cell.letter
           blockId := cell.blockId
           node := (Poly.getBlockId cm cell.x (cell.y - 1),
             Poly.getBlockId cm (cell.x + 1) cell.y,
             Poly.getBlockId cm cell.x (cell.y + 1),
             Poly.getBlockId cm (cell.x - 1) cell.y) } :
            Poly.PieceCell)))).map fun x =>
        (Poly.lastBlockCell cm x.blockId).getD ⟨0, 0, "", 0, 0⟩ := rfl
  rw [hmapped]
  refine List.Perm.trans
    ((List.perm_insertionSort Poly.pieceLE _).map _) ?_
  rw [List.map_map]
  refine List.Perm.of_eq (map_id_of_eq _ _ ?_)
  intro c hc
  show (Poly.lastBlockCell cm c.blockId).getD _ = c
  rw [lastBlockCell_roundtrip hbidnd (hsub c hc)]
  rfl

/-- Provenance of a piece: created by `createPiece` from registry
cells forming a 4-connected set. -/
def PieceSrc (cm : List Poly.GridCell) (pc : Poly.Piece) : Prop :=
  ∃ cells k, pc = Poly.createPiece cells k cm ∧
    (∀ c ∈ cells, c ∈ cm) ∧ ConnIn (groupCoords cells)

lemma PieceSrc_conn {cm : List Poly.GridCell} {pc : Poly.Piece}
    (h : PieceSrc cm pc) : ConnIn (pieceCoords pc) := by
  obtain ⟨cells, k, rfl, _, hconn⟩ := h
  refine ConnIn_congr ?_ hconn
  intro x
  exact ((createPiece_coords_perm cells k cm).mem_iff).symm

lemma flatMap_perm_congr {α β : Type} (f g : α → List β) :
    ∀ l : List α, (∀ a ∈ l, List.Perm (f a) (g a)) →
      List.Perm (l.flatMap f) (l.flatMap g) := by
  intro l
  induction l with
  | nil => intro _; exact List.Perm.refl _
  | cons a l ih =>
    intro h
    rw [List.flatMap_cons, List.flatMap_cons]
    exact List.Perm.append (h a (List.mem_cons_self a l))
      (ih fun a' ha' => h a' (List.mem_cons_of_mem a ha'))

lemma rebuildStep_fold_src {cm : List Poly.GridCell} :
    ∀ (groups : List (List Poly.GridCell)) (st : List Poly.Piece × Nat),
      GroupsCm cm groups → GroupsConn groups →
      (∀ pc ∈ st.1, PieceSrc cm pc) →
      (∀ pc ∈ (groups.foldl (Poly.rebuildStep cm) st).1,
        PieceSrc cm pc) ∧
      List.Perm
        ((groups.foldl (Poly.rebuildStep cm) st).1.flatMap pieceCoords)
        (st.1.flatMap pieceCoords ++ groups.flatten.map gcCoord) := by
  intro groups
  induction groups with
  | nil =>
    intro st _ _ hsrc
    exact ⟨hsrc, by simp⟩
  | cons g groups ih =>
    intro st hcm hgc hsrc
    rw [List.foldl_cons]
    have hg_cm : ∀ c ∈ g, c ∈ cm := hcm g (List.mem_cons_self g groups)
    have hg_conn : ConnIn (groupCoords g) :=
      hgc g (List.mem_cons_self g groups)
    have hcm' : GroupsCm cm groups :=
      fun gr hgr => hcm gr (List.mem_cons_of_mem g hgr)
    have hgc' : GroupsConn groups :=
      fun gr hgr => hgc gr (List.mem_cons_of_mem g hgr)
    unfold Poly.rebuildStep
    by_cases hpos : 0 < g.length
    · rw [if_pos hpos]
      have hsrc' : ∀ pc ∈ st.1 ++ [Poly.createPiece g st.2 cm],
          PieceSrc cm pc := by
        intro pc hpc
        rcases List.mem_append.mp hpc with hpc' | hpc'
        · exact hsrc pc hpc'
        · rcases List.mem_singleton.mp hpc' with rfl
          exact ⟨g, st.2, rfl, hg_cm, hg_conn⟩
      obtain ⟨h1, h2⟩ := ih (st.1 ++ [Poly.createPiece g st.2 cm],
        st.2 + 1) hcm' hgc' hsrc'
      refine ⟨h1, ?_⟩
      refine h2.trans ?_
      rw [List.flatMap_append, List.flatMap_cons, List.flatMap_nil,
        List.append_nil, List.flatten_cons, List.map_append,
        List.append_assoc]
      exact List.Perm.append_left _
        (List.Perm.append (createPiece_coords_perm g st.2 cm)
          (List.Perm.refl _))
    · rw [if_neg hpos]
      obtain ⟨h1, h2⟩ := ih st hcm' hgc' hsrc
      refine ⟨h1, ?_⟩
      refine h2.trans ?_
      have hgnil : g = [] := by
        rcases g with _ | ⟨c, cs⟩
        · rfl
        · exact absurd (Nat.succ_pos _) hpos
      rw [hgnil, List.flatten_cons, List.nil_append]

/-- The merge keeps provenance and permutes the coordinate multiset. -/
lemma mergeUndersizedPieces_src {cm : List Poly.GridCell}
    {config : Poly.PolyominoConfig}
    (hbidnd : (cm.map fun c => c.blockId).Nodup)
    (pieces : List Poly.Piece)
    (hsrc : ∀ pc ∈ pieces, PieceSrc cm pc) :
    (∀ pc ∈ Poly.mergeUndersizedPieces pieces cm config,
      PieceSrc cm pc) ∧
    List.Perm
      ((Poly.mergeUndersizedPieces pieces cm config).flatMap
        pieceCoords)
      (pieces.flatMap pieceCoords) := by
  have hrecover : ∀ pc ∈ pieces, ∃ cells k,
      pc = Poly.createPiece cells k cm ∧ (∀ c ∈ cells, c ∈ cm) ∧
      ConnIn (groupCoords cells) ∧
      List.Perm (pc.cells.filterMap fun c =>
        Poly.lastBlockCell cm c.blockId) cells := by
    intro pc hpc
    obtain ⟨cells, k, rfl, hsub, hconn⟩ := hsrc pc hpc
    exact ⟨cells, k, rfl, hsub, hconn,
      recover_cells hbidnd cells k hsub⟩
  set groups0 := pieces.map fun pc =>
    pc.cells.filterMap fun c => Poly.lastBlockCell cm c.blockId
    with hg0
  have hg0cm : GroupsCm cm groups0 := by
    intro gr hgr
    rw [hg0] at hgr
    obtain ⟨pc, hpc, rfl⟩ := List.mem_map.mp hgr
    obtain ⟨cells, k, _, hsub, _, hperm⟩ := hrecover pc hpc
    intro c hc
    exact hsub c (hperm.mem_iff.mp hc)
  have hg0conn : GroupsConn groups0 := by
    intro gr hgr
    rw [hg0] at hgr
    obtain ⟨pc, hpc, rfl⟩ := List.mem_map.mp hgr
    obtain ⟨cells, k, _, _, hconn, hperm⟩ := hrecover pc hpc
    refine ConnIn_congr ?_ hconn
    intro x
    exact ((hperm.map gcCoord).mem_iff).symm
  have hg0flat : List.Perm (groups0.flatten.map gcCoord)
      (pieces.flatMap pieceCoords) := by
    rw [hg0, flatten_map_eq_flatMap]
    have h1 : ((pieces.flatMap fun pc =>
        pc.cells.filterMap fun c =>
          Poly.lastBlockCell cm c.blockId).map gcCoord) =
        pieces.flatMap fun pc =>
          (pc.cells.filterMap fun c =>
            Poly.lastBlockCell cm c.blockId).map gcCoord := by
      rw [List.map_flatMap]
    rw [h1]
    refine flatMap_perm_congr _ _ pieces ?_
    intro pc hpc
    obtain ⟨cells, k, hpc_eq, _, _, hperm⟩ := hrecover pc hpc
    refine List.Perm.trans (hperm.map gcCoord) ?_
    rw [hpc_eq]
    exact (createPiece_coords_perm cells k cm).symm
  obtain ⟨hfcm, hfconn, hfperm⟩ :=
    mergePasses_inv hbidnd 10 groups0 hg0cm hg0conn
  have hfinal := rebuildStep_fold_src
    (Poly.mergePasses cm config 10 groups0) ([], 0) hfcm hfconn
    (fun pc hpc => absurd hpc (List.not_mem_nil pc))
  have hview : Poly.mergeUndersizedPieces pieces cm config =
      ((Poly.mergePasses cm config 10 groups0).foldl
        (Poly.rebuildStep cm) ([], 0)).1 := by
    rw [hg0]
    rfl
  refine ⟨?_, ?_⟩
  · intro pc hpc
    rw [hview] at hpc
    exact hfinal.1 pc hpc
  · rw [hview]
    refine hfinal.2.trans ?_
    rw [List.flatMap_nil, List.nil_append]
    exact (hfperm.map gcCoord).trans hg0flat

/-! ### BFS growth (towards C9) -/

lemma cons_erase_perm {α : Type} [BEq α] [LawfulBEq α] (a : α)
    (l : List α) (h : a ∈ l) : List.Perm (a :: l.erase a) l := by
  induction l with
  | nil => cases h
  | cons b l ih =>
    rw [List.erase_cons]
    by_cases hb : (b == a) = true
    · rw [if_pos hb]
      have hba : b = a := eq_of_beq hb
      subst hba
      exact List.Perm.refl _
    · rw [if_neg hb]
      rcases List.mem_cons.mp h with he | hm
      · exact absurd (by rw [he]; exact beq_self_eq_true b) hb
      · exact (List.Perm.swap b a _).trans ((ih hm).cons b)

lemma bfsAdd_fold_inv (cm : List Poly.GridCell) (maxSize : Nat)
    (ck : Int × Int) :
    ∀ (nks : List (Int × Int))
      (st : List (Int × Int) × List (Int × Int) × List Poly.GridCell),
      (∀ nk ∈ nks, nk ∈ Poly.neighborsOf ck.1 ck.2) →
      (∀ c ∈ st.2.2, c ∈ cm) →
      (∀ k ∈ st.2.1, k ∈ st.2.2.map gcCoord) →
      ConnIn (st.2.2.map gcCoord) →
      ck ∈ st.2.2.map gcCoord →
      (∀ c ∈ (nks.foldl (Poly.bfsAddNeighbor cm maxSize) st).2.2,
        c ∈ cm) ∧
      (∀ k ∈ (nks.foldl (Poly.bfsAddNeighbor cm maxSize) st).2.1,
        k ∈ (nks.foldl (Poly.bfsAddNeighbor cm maxSize) st).2.2.map
          gcCoord) ∧
      ConnIn ((nks.foldl (Poly.bfsAddNeighbor cm maxSize) st).2.2.map
        gcCoord) ∧
      List.Sublist (nks.foldl (Poly.bfsAddNeighbor cm maxSize) st).1
        st.1 ∧
      List.Perm
        ((nks.foldl (Poly.bfsAddNeighbor cm maxSize) st).2.2.map
            gcCoord ++
          (nks.foldl (Poly.bfsAddNeighbor cm maxSize) st).1)
        (st.2.2.map gcCoord ++ st.1) := by
  intro nks
  induction nks with
  | nil =>
    intro st _ h1 h2 h3 _
    exact ⟨h1, h2, h3, List.Sublist.refl _, List.Perm.refl _⟩
  | cons nk nks ih =>
    intro st hnks h1 h2 h3 hck
    rw [List.foldl_cons]
    have hnk_adj : nk ∈ Poly.neighborsOf ck.1 ck.2 :=
      hnks nk (List.mem_cons_self nk nks)
    have hnks' : ∀ n ∈ nks, n ∈ Poly.neighborsOf ck.1 ck.2 :=
      fun n hn => hnks n (List.mem_cons_of_mem nk hn)
    unfold Poly.bfsAddNeighbor
    by_cases hcond : nk ∈ st.1 ∧ st.2.2.length < maxSize
    · rw [if_pos hcond]
      rcases hca : Poly.cellAt cm nk.1 nk.2 with _ | c
      · exact ih st hnks' h1 h2 h3 hck
      · obtain ⟨hcm, hcx, hcy⟩ := cellAt_some hca
        have hcoord : gcCoord c = nk := by
          unfold gcCoord
          rw [hcx, hcy]
        have hnew1 : ∀ d ∈ st.2.2 ++ [c], d ∈ cm := by
          intro d hd
          rcases List.mem_append.mp hd with hd' | hd'
          · exact h1 d hd'
          · rcases List.mem_singleton.mp hd' with rfl
            exact hcm
        have hmono : ∀ x ∈ st.2.2.map gcCoord,
            x ∈ (st.2.2 ++ [c]).map gcCoord := by
          intro x hx
          rw [List.map_append]
          exact List.mem_append.mpr (Or.inl hx)
        have hnew2 : ∀ k ∈ st.2.1 ++ [nk],
            k ∈ (st.2.2 ++ [c]).map gcCoord := by
          intro k hk
          rcases List.mem_append.mp hk with hk' | hk'
          · exact hmono _ (h2 k hk')
          · rcases List.mem_singleton.mp hk' with rfl
            rw [List.map_append]
            refine List.mem_append.mpr (Or.inr ?_)
            rw [List.map_cons, List.map_nil, hcoord]
            exact List.mem_singleton.mpr rfl
        have hnew3 : ConnIn ((st.2.2 ++ [c]).map gcCoord) := by
          rw [List.map_append, List.map_cons, List.map_nil, hcoord]
          exact ConnIn_push h3 ck nk hck hnk_adj
        have hnew4 : ck ∈ (st.2.2 ++ [c]).map gcCoord := hmono _ hck
        obtain ⟨r1, r2, r3, r4, r5⟩ := ih (st.1.erase nk,
          st.2.1 ++ [nk], st.2.2 ++ [c]) hnks' hnew1 hnew2 hnew3 hnew4
        refine ⟨r1, r2, r3, r4.trans (List.erase_sublist nk st.1), ?_⟩
        refine r5.trans ?_
        rw [List.map_append, List.map_cons, List.map_nil, hcoord,
          List.append_assoc]
        refine List.Perm.append_left _ ?_
        show List.Perm (nk :: st.1.erase nk) st.1
        exact cons_erase_perm nk st.1 hcond.1
    · rw [if_neg hcond]
      exact ih st hnks' h1 h2 h3 hck

lemma bfsLoop_inv (cm : List Poly.GridCell) (maxSize : Nat) :
    ∀ (fuel : Nat) (u q : List (Int × Int))
      (cells : List Poly.GridCell),
      (∀ c ∈ cells, c ∈ cm) →
      (∀ k ∈ q, k ∈ cells.map gcCoord) →
      ConnIn (cells.map gcCoord) →
      (∀ c ∈ (Poly.bfsLoop cm maxSize fuel u q cells).1, c ∈ cm) ∧
      ConnIn ((Poly.bfsLoop cm maxSize fuel u q cells).1.map
        gcCoord) ∧
      List.Sublist (Poly.bfsLoop cm maxSize fuel u q cells).2 u ∧
      List.Perm
        ((Poly.bfsLoop cm maxSize fuel u q cells).1.map gcCoord ++
          (Poly.bfsLoop cm maxSize fuel u q cells).2)
        (cells.map gcCoord ++ u) := by
  intro fuel
  induction fuel with
  | zero =>
    intro u q cells h1 _ h3
    exact ⟨h1, h3, List.Sublist.refl _, List.Perm.refl _⟩
  | succ fuel ih =>
    intro u q cells h1 h2 h3
    rcases q with _ | ⟨ck, rest⟩
    · exact ⟨h1, h3, List.Sublist.refl _, List.Perm.refl _⟩
    · by_cases hlen : cells.length < maxSize
      · have hstep : Poly.bfsLoop cm maxSize (fuel + 1) u
            (ck :: rest) cells =
            Poly.bfsLoop cm maxSize fuel
              ((Poly.neighborsOf ck.1 ck.2).foldl
                (Poly.bfsAddNeighbor cm maxSize) (u, rest, cells)).1
              ((Poly.neighborsOf ck.1 ck.2).foldl
                (Poly.bfsAddNeighbor cm maxSize) (u, rest, cells)).2.1
              ((Poly.neighborsOf ck.1 ck.2).foldl
                (Poly.bfsAddNeighbor cm maxSize)
                (u, rest, cells)).2.2 := by
          show (if cells.length < maxSize then _ else _) = _
          rw [if_pos hlen]
        rw [hstep]
        have hck : ck ∈ cells.map gcCoord :=
          h2 ck (List.mem_cons_self ck rest)
        have hrest : ∀ k ∈ rest, k ∈ cells.map gcCoord :=
          fun k hk => h2 k (List.mem_cons_of_mem ck hk)
        obtain ⟨r1, r2, r3, r4, r5⟩ := bfsAdd_fold_inv cm maxSize ck
          (Poly.neighborsOf ck.1 ck.2) (u, rest, cells)
          (fun nk hnk => hnk) h1 hrest h3 hck
        obtain ⟨s1, s2, s3, s4⟩ := ih _ _ _ r1 r2 r3
        refine ⟨s1, s2, s3.trans r4, ?_⟩
        exact s4.trans r5
      · have hstep : Poly.bfsLoop cm maxSize (fuel + 1) u
            (ck :: rest) cells = (cells, u) := by
          show (if cells.length < maxSize then _ else _) = _
          rw [if_neg hlen]
        rw [hstep]
        exact ⟨h1, h3, List.Sublist.refl _, List.Perm.refl _⟩

lemma length_erase_add_one {α : Type} [BEq α] [LawfulBEq α] (a : α)
    (l : List α) (h : a ∈ l) : (l.erase a).length + 1 = l.length := by
  have hp := (cons_erase_perm a l h).length_eq
  simpa using hp

lemma piecesLoop_inv (cm : List Poly.GridCell)
    (sortedKeys : List (Int × Int)) (maxSize : Nat) :
    ∀ (fuel : Nat) (u : List (Int × Int)) (counter : Nat)
      (acc : List Poly.Piece),
      u.length < fuel →
      (∀ k ∈ u, k ∈ sortedKeys) →
      (∀ k ∈ u, k ∈ cm.map gcCoord) →
      (∀ pc ∈ acc, PieceSrc cm pc) →
      (∀ pc ∈ Poly.piecesLoop cm sortedKeys maxSize fuel u counter acc,
        PieceSrc cm pc) ∧
      List.Perm
        ((Poly.piecesLoop cm sortedKeys maxSize fuel u counter
            acc).flatMap pieceCoords)
        (acc.flatMap pieceCoords ++ u) := by
  intro fuel
  induction fuel with
  | zero =>
    intro u counter acc hfuel _ _ _
    exact absurd hfuel (Nat.not_lt_zero _)
  | succ fuel ih =>
    intro u counter acc hfuel hsk hcm hacc
    by_cases hu : 0 < u.length
    · obtain ⟨k0, hk0⟩ := List.exists_mem_of_length_pos hu
      have hfind : (sortedKeys.find? fun k =>
          decide (k ∈ u)).isSome := by
        rw [List.find?_isSome]
        exact ⟨k0, hsk k0 hk0, by simpa using hk0⟩
      obtain ⟨seedKey, hseed⟩ := Option.isSome_iff_exists.mp hfind
      have hseedu : seedKey ∈ u := by
        have hp := List.find?_some hseed
        simpa using hp
      obtain ⟨seedCell, hsc⟩ := cellAt_mem_of_coord (hcm seedKey hseedu)
      obtain ⟨hsc_mem, hsc_x, hsc_y⟩ := cellAt_some hsc
      have hstep : Poly.piecesLoop cm sortedKeys maxSize (fuel + 1) u
          counter acc =
          Poly.piecesLoop cm sortedKeys maxSize fuel
            (Poly.bfsLoop cm maxSize ((u.erase seedKey).length + 2)
              (u.erase seedKey) [seedKey] [seedCell]).2
            (counter + 1)
            (acc ++ [Poly.createPiece
              (Poly.bfsLoop cm maxSize ((u.erase seedKey).length + 2)
                (u.erase seedKey) [seedKey] [seedCell]).1 counter
              cm]) := by
        show (if 0 < u.length then _ else _) = _
        rw [if_pos hu, hseed]
        dsimp only
        rw [hsc]
      rw [hstep]
      have hscoord : gcCoord seedCell = seedKey := by
        unfold gcCoord
        rw [hsc_x, hsc_y]
      have hb1 : ∀ c ∈ [seedCell], c ∈ cm := by
        intro c hc
        rcases List.mem_singleton.mp hc with rfl
        exact hsc_mem
      have hb2 : ∀ k ∈ [seedKey], k ∈ [seedCell].map gcCoord := by
        intro k hk
        rcases List.mem_singleton.mp hk with rfl
        rw [List.map_cons, List.map_nil, hscoord]
        exact List.mem_singleton.mpr rfl
      have hb3 : ConnIn ([seedCell].map gcCoord) := by
        rw [List.map_cons, List.map_nil, hscoord]
        exact ConnIn_single seedKey
      obtain ⟨r1, r2, r3, r4⟩ := bfsLoop_inv cm maxSize
        ((u.erase seedKey).length + 2) (u.erase seedKey) [seedKey]
        [seedCell] hb1 hb2 hb3
      have hsub : ∀ k ∈ (Poly.bfsLoop cm maxSize
          ((u.erase seedKey).length + 2) (u.erase seedKey) [seedKey]
          [seedCell]).2, k ∈ u :=
        fun k hk =>
          (List.erase_sublist seedKey u).subset (r3.subset hk)
      have hlen : (Poly.bfsLoop cm maxSize
          ((u.erase seedKey).length + 2) (u.erase seedKey) [seedKey]
          [seedCell]).2.length < fuel := by
        have h1 := r3.length_le
        have h2 := length_erase_add_one seedKey u hseedu
        omega
      have hacc' : ∀ pc ∈ acc ++ [Poly.createPiece
          (Poly.bfsLoop cm maxSize ((u.erase seedKey).length + 2)
            (u.erase seedKey) [seedKey] [seedCell]).1 counter cm],
          PieceSrc cm pc := by
        intro pc hpc
        rcases List.mem_append.mp hpc with hpc' | hpc'
        · exact hacc pc hpc'
        · rcases List.mem_singleton.mp hpc' with rfl
          exact ⟨_, counter, rfl, r1, r2⟩
      obtain ⟨s1, s2⟩ := ih _ (counter + 1) _ hlen
        (fun k hk => hsk k (hsub k hk))
        (fun k hk => hcm k (hsub k hk)) hacc'
      refine ⟨s1, s2.trans ?_⟩
      rw [List.flatMap_append, List.flatMap_cons, List.flatMap_nil,
        List.append_nil, List.append_assoc]
      refine List.Perm.append_left _ ?_
      refine (List.Perm.append_right _
        (createPiece_coords_perm _ counter cm)).trans ?_
      refine r4.trans ?_
      rw [List.map_cons, List.map_nil, hscoord]
      show List.Perm (seedKey :: u.erase seedKey) u
      exact cons_erase_perm seedKey u hseedu
    · have hnil : u = [] := List.eq_nil_of_length_eq_zero (by omega)
      subst hnil
      have hstep : Poly.piecesLoop cm sortedKeys maxSize (fuel + 1) []
          counter acc = acc := by
        show (if 0 < ([] : List (Int × Int)).length then _ else _) = _
        rw [if_neg hu]
      rw [hstep]
      exact ⟨hacc, by rw [List.append_nil]⟩

lemma crossScan_some (cm : List Poly.GridCell)
    (unassigned : List (Int × Int)) (pieceIndex : Nat) :
    ∀ (l : List Poly.GridCell),
      (∀ c ∈ l, c ∈ cm ∧ (c.x, c.y) ∈ unassigned) →
      ∀ (piece : Poly.Piece) (u' : List (Int × Int)),
        Poly.crossScan cm unassigned pieceIndex l = some (piece, u') →
        PieceSrc cm piece ∧
        List.Perm (pieceCoords piece ++ u') unassigned ∧
        (∀ k ∈ u', k ∈ unassigned) := by
  intro l
  induction l with
  | nil =>
    intro _ piece u' h
    exact Option.noConfusion h
  | cons center rest ih =>
    intro hl piece u' h
    have hlrest : ∀ c ∈ rest, c ∈ cm ∧ (c.x, c.y) ∈ unassigned :=
      fun c hc => hl c (List.mem_cons_of_mem center hc)
    obtain ⟨hcen_cm, hcen_u⟩ :=
      hl center (List.mem_cons_self center rest)
    unfold Poly.crossScan at h
    rcases h1 : Poly.cellAt cm center.x (center.y - 1) with _ | up
    · rw [h1] at h
      exact ih hlrest piece u' h
    rcases h2 : Poly.cellAt cm (center.x + 1) center.y with _ | right
    · rw [h1, h2] at h
      exact ih hlrest piece u' h
    rcases h3 : Poly.cellAt cm center.x (center.y + 1) with _ | down
    · rw [h1, h2, h3] at h
      exact ih hlrest piece u' h
    rcases h4 : Poly.cellAt cm (center.x - 1) center.y with _ | left
    · rw [h1, h2, h3, h4] at h
      exact ih hlrest piece u' h
    rw [h1, h2, h3, h4] at h
    dsimp only at h
    obtain ⟨hup_cm, hux, huy⟩ := cellAt_some h1
    obtain ⟨hrt_cm, hrx, hry⟩ := cellAt_some h2
    obtain ⟨hdn_cm, hdx, hdy⟩ := cellAt_some h3
    obtain ⟨hlf_cm, hlx, hly⟩ := cellAt_some h4
    by_cases hin : (up.x, up.y) ∈ unassigned ∧
        (right.x, right.y) ∈ unassigned ∧
        (down.x, down.y) ∈ unassigned ∧
        (left.x, left.y) ∈ unassigned
    · rw [if_pos hin] at h
      obtain ⟨hinu, hinr, hind, hinl⟩ := hin
      have hpair := Option.some.inj h
      rw [Prod.mk.injEq] at hpair
      obtain ⟨hp, hu⟩ := hpair
      subst hp
      subst hu
      refine ⟨?_, ?_, ?_⟩
      · refine ⟨[center, up, right, down, left], pieceIndex, rfl,
          ?_, ?_⟩
        · intro c hc
          simp only [List.mem_cons, List.not_mem_nil, or_false] at hc
          rcases hc with rfl | rfl | rfl | rfl | rfl
          · exact hcen_cm
          · exact hup_cm
          · exact hrt_cm
          · exact hdn_cm
          · exact hlf_cm
        · have hadj_u : adjacentP (gcCoord center) (gcCoord up) := by
            unfold adjacentP gcCoord Poly.neighborsOf
            rw [hux, huy]
            exact List.mem_cons_self _ _
          have hadj_r : adjacentP (gcCoord center) (gcCoord right) := by
            unfold adjacentP gcCoord Poly.neighborsOf
            rw [hrx, hry]
            exact List.mem_cons_of_mem _ (List.mem_cons_self _ _)
          have hadj_d : adjacentP (gcCoord center) (gcCoord down) := by
            unfold adjacentP gcCoord Poly.neighborsOf
            rw [hdx, hdy]
            exact List.mem_cons_of_mem _
              (List.mem_cons_of_mem _ (List.mem_cons_self _ _))
          have hadj_l : adjacentP (gcCoord center) (gcCoord left) := by
            unfold adjacentP gcCoord Poly.neighborsOf
            rw [hlx, hly]
            exact List.mem_cons_of_mem _ (List.mem_cons_of_mem _
              (List.mem_cons_of_mem _ (List.mem_cons_self _ _)))
          have s0 : ConnIn [gcCoord center] := ConnIn_single _
          have s1 : ConnIn ([gcCoord center] ++ [gcCoord up]) :=
            ConnIn_push s0 _ _ (List.mem_singleton.mpr rfl) hadj_u
          have s2 : ConnIn ([gcCoord center, gcCoord up] ++
              [gcCoord right]) :=
            ConnIn_push s1 _ _ (List.mem_cons_self _ _) hadj_r
          have s3 : ConnIn ([gcCoord center, gcCoord up,
              gcCoord right] ++ [gcCoord down]) :=
            ConnIn_push s2 _ _ (List.mem_cons_self _ _) hadj_d
          have s4 : ConnIn ([gcCoord center, gcCoord up, gcCoord right,
              gcCoord down] ++ [gcCoord left]) :=
            ConnIn_push s3 _ _ (List.mem_cons_self _ _) hadj_l
          exact s4
      · refine (List.Perm.append_right _
          (createPiece_coords_perm _ _ _)).trans ?_
        show List.Perm ((center.x, center.y) :: (up.x, up.y) ::
          (right.x, right.y) :: (down.x, down.y) ::
          (left.x, left.y) ::
          ((((unassigned.erase (center.x, center.y)).erase
            (up.x, up.y)).erase (right.x, right.y)).erase
            (down.x, down.y)).erase (left.x, left.y)) unassigned
        have hne_uc : (up.x, up.y) ≠ (center.x, center.y) := by
          rw [hux, huy]
          intro he
          rw [Prod.mk.injEq] at he
          omega
        have hne_rc : (right.x, right.y) ≠ (center.x, center.y) := by
          rw [hrx, hry]
          intro he
          rw [Prod.mk.injEq] at he
          omega
        have hne_ru : (right.x, right.y) ≠ (up.x, up.y) := by
          rw [hrx, hry, hux, huy]
          intro he
          rw [Prod.mk.injEq] at he
          omega
        have hne_dc : (down.x, down.y) ≠ (center.x, center.y) := by
          rw [hdx, hdy]
          intro he
          rw [Prod.mk.injEq] at he
          omega
        have hne_du : (down.x, down.y) ≠ (up.x, up.y) := by
          rw [hdx, hdy, hux, huy]
          intro he
          rw [Prod.mk.injEq] at he
          omega
        have hne_dr : (down.x, down.y) ≠ (right.x, right.y) := by
          rw [hdx, hdy, hrx, hry]
          intro he
          rw [Prod.mk.injEq] at he
          omega
        have hne_lc : (left.x, left.y) ≠ (center.x, center.y) := by
          rw [hlx, hly]
          intro he
          rw [Prod.mk.injEq] at he
          omega
        have hne_lu : (left.x, left.y) ≠ (up.x, up.y) := by
          rw [hlx, hly, hux, huy]
          intro he
          rw [Prod.mk.injEq] at he
          omega
        have hne_lr : (left.x, left.y) ≠ (right.x, right.y) := by
          rw [hlx, hly, hrx, hry]
          intro he
          rw [Prod.mk.injEq] at he
          omega
        have hne_ld : (left.x, left.y) ≠ (down.x, down.y) := by
          rw [hlx, hly, hdx, hdy]
          intro he
          rw [Prod.mk.injEq] at he
          omega
        have m2 : (up.x, up.y) ∈
            unassigned.erase (center.x, center.y) :=
          (List.mem_erase_of_ne hne_uc).mpr hinu
        have m3 : (right.x, right.y) ∈
            (unassigned.erase (center.x, center.y)).erase
              (up.x, up.y) :=
          (List.mem_erase_of_ne hne_ru).mpr
            ((List.mem_erase_of_ne hne_rc).mpr hinr)
        have m4 : (down.x, down.y) ∈
            ((unassigned.erase (center.x, center.y)).erase
              (up.x, up.y)).erase (right.x, right.y) :=
          (List.mem_erase_of_ne hne_dr).mpr
            ((List.mem_erase_of_ne hne_du).mpr
              ((List.mem_erase_of_ne hne_dc).mpr hind))
        have m5 : (left.x, left.y) ∈
            (((unassigned.erase (center.x, center.y)).erase
              (up.x, up.y)).erase (right.x, right.y)).erase
              (down.x, down.y) :=
          (List.mem_erase_of_ne hne_ld).mpr
            ((List.mem_erase_of_ne hne_lr).mpr
              ((List.mem_erase_of_ne hne_lu).mpr
                ((List.mem_erase_of_ne hne_lc).mpr hinl)))
        have p5 := cons_erase_perm (left.x, left.y) _ m5
        have p4 := (p5.cons (down.x, down.y)).trans
          (cons_erase_perm (down.x, down.y) _ m4)
        have p3 := (p4.cons (right.x, right.y)).trans
          (cons_erase_perm (right.x, right.y) _ m3)
        have p2 := (p3.cons (up.x, up.y)).trans
          (cons_erase_perm (up.x, up.y) _ m2)
        exact (p2.cons (center.x, center.y)).trans
          (cons_erase_perm (center.x, center.y) _ hcen_u)
      · intro k hk
        exact (List.erase_sublist _ _).subset
          ((List.erase_sublist _ _).subset
            ((List.erase_sublist _ _).subset
              ((List.erase_sublist _ _).subset
                ((List.erase_sublist _ _).subset hk))))
    · rw [if_neg hin] at h
      exact ih hlrest piece u' h

lemma findCross_some {cm : List Poly.GridCell}
    {unassigned : List (Int × Int)} {pieceIndex : Nat}
    {piece : Poly.Piece} {u' : List (Int × Int)}
    (h : Poly.findAndCreateCrossPentomino cm unassigned pieceIndex =
      some (piece, u')) :
    PieceSrc cm piece ∧
    List.Perm (pieceCoords piece ++ u') unassigned ∧
    (∀ k ∈ u', k ∈ unassigned) := by
  refine crossScan_some cm unassigned pieceIndex _ ?_ piece u' h
  intro c hc
  rw [List.mem_insertionSort] at hc
  have hc' := List.mem_filter.mp hc
  refine ⟨hc'.1, ?_⟩
  have hcond := of_decide_eq_true hc'.2
  exact hcond.2

lemma C9_main {cm : List Poly.GridCell} {config : Poly.PolyominoConfig}
    (hnd : ((cm.map gcCoord)).Nodup)
    (hbid : ((cm.map fun c => c.blockId)).Nodup)
    {sortedKeys : List (Int × Int)}
    (hsk : ∀ k ∈ cm.map gcCoord, k ∈ sortedKeys)
    {maxSize counter : Nat} {u : List (Int × Int)}
    {acc : List Poly.Piece}
    (hacc : ∀ pc ∈ acc, PieceSrc cm pc)
    (hu : ∀ k ∈ u, k ∈ cm.map gcCoord)
    (hperm : List.Perm (acc.flatMap pieceCoords ++ u)
      (cm.map gcCoord))
    {final : List Poly.Piece}
    (hfin : final = Poly.mergeUndersizedPieces
      (Poly.piecesLoop cm sortedKeys maxSize (u.length + 1) u counter
        acc) cm config) :
    (final.flatMap pieceCoords).Nodup ∧
    (∀ k, k ∈ final.flatMap pieceCoords ↔ k ∈ cm.map gcCoord) ∧
    (∀ pc ∈ final, ConnIn (pieceCoords pc)) := by
  subst hfin
  obtain ⟨ps1, ps2⟩ := piecesLoop_inv cm sortedKeys maxSize
    (u.length + 1) u counter acc (Nat.lt_succ_self _)
    (fun k hk => hsk k (hu k hk)) hu hacc
  obtain ⟨ms1, ms2⟩ := mergeUndersizedPieces_src hbid _ ps1
  have hflat : List.Perm ((Poly.mergeUndersizedPieces
      (Poly.piecesLoop cm sortedKeys maxSize (u.length + 1) u counter
        acc) cm config).flatMap pieceCoords) (cm.map gcCoord) :=
    ms2.trans (ps2.trans hperm)
  refine ⟨hflat.nodup_iff.mpr hnd, ?_, ?_⟩
  · intro k
    exact ⟨fun hk => hflat.subset hk, fun hk => hflat.symm.subset hk⟩
  · intro pc hpc
    exact PieceSrc_conn (ms1 pc hpc)

/-- C9: the pieces returned by `generatePolyomino` partition the
filled cells: the concatenation of the pieces' absolute cell
coordinates has no duplicates (so pieces are pairwise disjoint and
duplicate-free), a coordinate appears in some piece exactly when it is
covered by a placement, and every piece is connected under
4-adjacency. -/
theorem C9_polyomino_partition (placements : List Poly.Placement)
    (gridWidth gridHeight : Int) (theme : String)
    (config : Poly.PolyominoConfig) :
    (((Poly.generatePolyomino placements gridWidth gridHeight theme
        config).pieces.flatMap pieceCoords).Nodup) ∧
    (∀ k, k ∈ (Poly.generatePolyomino placements gridWidth gridHeight
        theme config).pieces.flatMap pieceCoords ↔
      coveredCoord placements k) ∧
    (∀ pc ∈ (Poly.generatePolyomino placements gridWidth gridHeight
        theme config).pieces, ConnIn (pieceCoords pc)) := by
  obtain ⟨hnd, hbid⟩ := buildCellMap_inv placements
  have hsk : ∀ k ∈ (Poly.buildCellMap placements).map gcCoord,
      k ∈ ((Poly.buildCellMap placements).insertionSort
        Poly.polySortLE).map (fun c => (c.x, c.y)) := by
    intro k hk
    obtain ⟨c, hc, rfl⟩ := List.mem_map.mp hk
    refine List.mem_map.mpr ⟨c, ?_, rfl⟩
    rw [List.mem_insertionSort]
    exact hc
  have hu0 : ∀ k ∈ (Poly.buildCellMap placements).map
      fun c => (c.x, c.y), k ∈ (Poly.buildCellMap placements).map
      gcCoord := fun k hk => hk
  by_cases hcross : config.allowSingleCrossPentomino
  · rcases hfc : Poly.findAndCreateCrossPentomino
        (Poly.buildCellMap placements)
        ((Poly.buildCellMap placements).map fun c => (c.x, c.y)) 0
        with _ | pu
    · have hview : (Poly.generatePolyomino placements gridWidth
          gridHeight theme config).pieces =
          Poly.mergeUndersizedPieces
            (Poly.piecesLoop (Poly.buildCellMap placements)
              (((Poly.buildCellMap placements).insertionSort
                Poly.polySortLE).map fun c => (c.x, c.y))
              config.maxPieceSize
              (((Poly.buildCellMap placements).map
                fun c => (c.x, c.y)).length + 1)
              ((Poly.buildCellMap placements).map fun c => (c.x, c.y))
              0 [])
            (Poly.buildCellMap placements) config := by
        unfold Poly.generatePolyomino
        dsimp only
        rw [if_pos hcross, hfc]
      obtain ⟨m1, m2, m3⟩ := C9_main hnd hbid hsk
        (fun pc hpc => absurd hpc (List.not_mem_nil pc)) hu0
        (by rw [List.flatMap_nil, List.nil_append]
            exact List.Perm.refl _)
        hview
      exact ⟨m1, fun k => (m2 k).trans (buildCellMap_mem placements k),
        m3⟩
    · rcases pu with ⟨piece0, u0⟩
      obtain ⟨hsrc0, hperm0, hsub0⟩ := findCross_some hfc
      have hview : (Poly.generatePolyomino placements gridWidth
          gridHeight theme config).pieces =
          Poly.mergeUndersizedPieces
            (Poly.piecesLoop (Poly.buildCellMap placements)
              (((Poly.buildCellMap placements).insertionSort
                Poly.polySortLE).map fun c => (c.x, c.y))
              config.maxPieceSize (u0.length + 1) u0 1 [piece0])
            (Poly.buildCellMap placements) config := by
        unfold Poly.generatePolyomino
        dsimp only
        rw [if_pos hcross, hfc]
      obtain ⟨m1, m2, m3⟩ := C9_main hnd hbid hsk
        (fun pc hpc => by
          rcases List.mem_singleton.mp hpc with rfl
          exact hsrc0)
        (fun k hk => hu0 k (hsub0 k hk))
        (by rw [List.flatMap_cons, List.flatMap_nil, List.append_nil]
            exact hperm0)
        hview
      exact ⟨m1, fun k => (m2 k).trans (buildCellMap_mem placements k),
        m3⟩
  · have hview : (Poly.generatePolyomino placements gridWidth
        gridHeight theme config).pieces =
        Poly.mergeUndersizedPieces
          (Poly.piecesLoop (Poly.buildCellMap placements)
            (((Poly.buildCellMap placements).insertionSort
              Poly.polySortLE).map fun c => (c.x, c.y))
            config.maxPieceSize
            (((Poly.buildCellMap placements).map
              fun c => (c.x, c.y)).length + 1)
            ((Poly.buildCellMap placements).map fun c => (c.x, c.y))
            0 [])
          (Poly.buildCellMap placements) config := by
      unfold Poly.generatePolyomino
      dsimp only
      rw [if_neg hcross]
    obtain ⟨m1, m2, m3⟩ := C9_main hnd hbid hsk
      (fun pc hpc => absurd hpc (List.not_mem_nil pc)) hu0
      (by rw [List.flatMap_nil, List.nil_append]
          exact List.Perm.refl _)
      hview
    exact ⟨m1, fun k => (m2 k).trans (buildCellMap_mem placements k),
      m3⟩

end Crossword
